import Mathlib

/-!
OrderBookDB (src/cpp/ripple/OrderBookDB.cpp)

A shallow embedding of the order book index, the listener registry and the
transaction correlator, followed by the properties proved about them.

Conventions of the embedding:

* `uint160`, `uint256` and the sequence numbers are natural numbers; the code
  only compares them with each other and with zero, it does no arithmetic.
* Collaborators whose code is outside this file (the ledger, ledger entries,
  metadata nodes, `Ledger::getBookBase`) are records of their accessors'
  results, or parameters. An accessor that can raise returns an `Option`,
  `none` standing for the exception.
* `boost::unordered_map` and the nested `std::map` are finite maps that are only
  searched and updated by key, so they are functions to `Option`. The listener
  map is iterated, so it is a list of entries in iteration order.
* Shared pointers to `BookListeners` are addresses into `objs`.
* Locks, logging and load events have no effect on the data and are left out.
* The `while` loop of `setup` takes a bound on its iterations; `none` means
  that the bound was reached before the loop ended.
-/

namespace Ripple

/-! ## Collaborators -/

abbrev uint160 := Nat

abbrev uint256 := Nat

/-- Field names used by this file. -/
inductive SField where
  | sfExchangeRate
  | sfRootIndex
  | sfTakerPaysCurrency
  | sfTakerGetsCurrency
  | sfTakerPaysIssuer
  | sfTakerGetsIssuer
  | sfLedgerEntryType
  | sfModifiedNode
  | sfCreatedNode
  | sfDeletedNode
  | sfPreviousFields
  | sfNewFields
  | sfFinalFields
  | sfTakerGets
  | sfTakerPays
  | sfGeneric
  deriving DecidableEq, Repr

/-- Ledger entry type tags; only two of them are named by this file. -/
inductive LedgerEntryType where
  | ltDIR_NODE
  | ltOFFER
  | ltOTHER (code : Nat)
  deriving DecidableEq, Repr

/-- Transaction result codes; only success is named by this file. -/
inductive TER where
  | tesSUCCESS
  | terOTHER (code : Nat)
  deriving DecidableEq, Repr

/-- Ledger entry (`SLE`), given by what its accessors return. `none` from a
typed accessor stands for the accessor raising. -/
structure SLE where
  getType : LedgerEntryType
  isFieldPresent : SField → Bool
  getFieldH256 : SField → Option uint256
  getFieldH160 : SField → Option uint160

/-- Ledger snapshot, given by what its accessors return. `getSLEi` yields `none`
for a null entry pointer. -/
structure Ledger where
  getLedgerSeq : Nat
  getFirstLedgerIndex : uint256
  getNextLedgerIndex : uint256 → uint256
  getSLEi : uint256 → Option SLE

/-- Modelled from the spec: the `OrderBook` class is declared outside this file.
A Book is the derived base and the four identity fields, in the order of the
constructor call in `setup` (index, ci, co, ii, io). -/
structure OrderBook where
  mBookBase : uint256
  mCurrencyIn : uint160
  mCurrencyOut : uint160
  mIssuerIn : uint160
  mIssuerOut : uint160
  deriving DecidableEq, Repr

def OrderBook.getCurrencyIn (b : OrderBook) : uint160 := b.mCurrencyIn

def OrderBook.getCurrencyOut (b : OrderBook) : uint160 := b.mCurrencyOut

def OrderBook.getIssuerIn (b : OrderBook) : uint160 := b.mIssuerIn

def OrderBook.getIssuerOut (b : OrderBook) : uint160 := b.mIssuerOut

/-- Subscriber object: its identity and the sequence number `getSeq` returns. -/
structure InfoSub where
  addr : Nat
  getSeq : Nat
  deriving DecidableEq, Repr

/-- The listener map of one book: sequence number to weak subscriber reference,
as the list of its entries in iteration order. -/
abbrev subMapType := List (Nat × InfoSub)

structure BookListeners where
  mListeners : subMapType
  deriving DecidableEq, Repr

/-- Amount with its embedded currency and issuer. -/
structure STAmount where
  getCurrency : uint160
  getIssuer : uint160
  deriving DecidableEq, Repr

/-- Inner object of a metadata node (`data` in `processTxn`). `none` from
`getFieldAmount` stands for the accessor raising. -/
structure STObjectData where
  getFieldAmount : SField → Option STAmount

/-- One node of the transaction metadata. `getFieldU16` yields `none` when it
raises; `peekAtPField` yields `none` when the field is absent or is not an
object (the dynamic cast gives null). -/
structure STObject where
  getFieldU16 : SField → Option LedgerEntryType
  getFName : SField
  peekAtPField : SField → Option STObjectData

/-- Applied transaction: its result and the nodes of its metadata. -/
structure ALTransaction where
  getResult : TER
  getNodes : List STObject

/-! ## State -/

/-- The four level listener registry: issuerIn, issuerOut, currencyIn,
currencyOut, then the address of the `BookListeners` object. -/
abbrev ListenerTree :=
  uint160 → Option (uint160 → Option (uint160 → Option (uint160 → Option Nat)))

/-- The members of `OrderBookDB`, and the `BookListeners` objects its shared
pointers refer to (`objs` by address, `nextObj` the next address to hand out). -/
structure OrderBookDB where
  mSeq : Nat
  mXRPOrders : List OrderBook
  mIssuerMap : uint160 → Option (List OrderBook)
  mListeners : ListenerTree
  objs : Nat → BookListeners
  nextObj : Nat

/-- How a call ended: it returned, an exception left it, or it dereferenced a
null entry pointer. -/
inductive Outcome where
  | returned
  | threw
  | nullEntry
  deriving DecidableEq, Repr

/-- The constructor: sequence zero and empty containers. -/
def OrderBookDB.new : OrderBookDB :=
  { mSeq := 0
    mXRPOrders := []
    mIssuerMap := fun _ => none
    mListeners := fun _ => none
    objs := fun _ => { mListeners := [] }
    nextObj := 0 }

def OrderBookDB.invalidate (db : OrderBookDB) : OrderBookDB :=
  { db with mSeq := 0 }

/-! ## setup -/

/-- The statement `mIssuerMap[issuer].push_back(book)`. -/
def pushBook (m : uint160 → Option (List OrderBook)) (issuer : uint160) (book : OrderBook) :
    uint160 → Option (List OrderBook) :=
  Function.update m issuer (some ((m issuer).getD [] ++ [book]))

/-- One pass of the loop body of `setup` for the entry at `currentIndex`
(lines 44 to 63). `none` when a field accessor raises. -/
def setupVisit (getBookBase : uint160 → uint160 → uint160 → uint160 → uint256)
    (currentIndex : uint256) (entry : SLE) (mSeen : List uint256) (db : OrderBookDB) :
    Option (List uint256 × OrderBookDB) :=
  if entry.getType = LedgerEntryType.ltDIR_NODE ∧
      entry.isFieldPresent SField.sfExchangeRate = true then
    match entry.getFieldH256 SField.sfRootIndex with
    | none => none
    | some root =>
      if root = currentIndex then
        match entry.getFieldH160 SField.sfTakerPaysCurrency with
        | none => none
        | some ci =>
        match entry.getFieldH160 SField.sfTakerGetsCurrency with
        | none => none
        | some co =>
        match entry.getFieldH160 SField.sfTakerPaysIssuer with
        | none => none
        | some ii =>
        match entry.getFieldH160 SField.sfTakerGetsIssuer with
        | none => none
        | some io =>
          let index := getBookBase ci ii co io
          if index ∈ mSeen then some (mSeen, db)
          else
            let book : OrderBook := ⟨index, ci, co, ii, io⟩
            if book.getCurrencyIn = 0 then
              some (index :: mSeen, { db with mXRPOrders := db.mXRPOrders ++ [book] })
            else
              some (index :: mSeen,
                { db with mIssuerMap := pushBook db.mIssuerMap book.getIssuerIn book })
      else some (mSeen, db)
  else some (mSeen, db)

/-- The `while` loop of `setup` (lines 41 to 66), at most `fuel` passes. -/
def setupLoop (getBookBase : uint160 → uint160 → uint160 → uint160 → uint256)
    (ledger : Ledger) :
    Nat → uint256 → List uint256 → OrderBookDB → Option (OrderBookDB × Outcome)
  | 0, currentIndex, _, db =>
    if currentIndex = 0 then some (db, Outcome.returned) else none
  | fuel + 1, currentIndex, mSeen, db =>
    if currentIndex = 0 then some (db, Outcome.returned)
    else
      match ledger.getSLEi currentIndex with
      | none => some (db, Outcome.nullEntry)
      | some entry =>
        match setupVisit getBookBase currentIndex entry mSeen db with
        | none => some (db, Outcome.threw)
        | some (mSeen2, db2) =>
          setupLoop getBookBase ledger fuel (ledger.getNextLedgerIndex currentIndex) mSeen2 db2

/-- `OrderBookDB::setup`: the state it leaves and how it ended, or `none` when
the loop did not end within `fuel` passes. -/
def OrderBookDB.setup (getBookBase : uint160 → uint160 → uint160 → uint160 → uint256)
    (fuel : Nat) (db : OrderBookDB) (ledger : Ledger) : Option (OrderBookDB × Outcome) :=
  if ledger.getLedgerSeq = db.mSeq then some (db, Outcome.returned)
  else
    setupLoop getBookBase ledger fuel ledger.getFirstLedgerIndex []
      { db with mSeq := ledger.getLedgerSeq, mXRPOrders := [], mIssuerMap := fun _ => none }

/-! ## getBooks -/

/-- `getBooks(issuerID)`: the bucket of the issuer, or the empty vector. -/
def OrderBookDB.getBooks (db : OrderBookDB) (issuerID : uint160) : List OrderBook :=
  match db.mIssuerMap issuerID with
  | none => []
  | some books => books

/-- `getBooks(issuerID, currencyID, bookRet)`: the sink after the call. -/
def OrderBookDB.getBooks3 (db : OrderBookDB) (issuerID currencyID : uint160)
    (bookRet : List OrderBook) : List OrderBook :=
  match db.mIssuerMap issuerID with
  | none => bookRet
  | some books =>
    books.foldl (fun ret book => if book.getCurrencyIn = currencyID then ret ++ [book] else ret)
      bookRet

/-! ## The listener registry -/

/-- `getBookListeners`: four successive `find`s; `none` is the null pointer. -/
def OrderBookDB.getBookListeners (db : OrderBookDB)
    (currencyIn currencyOut issuerIn issuerOut : uint160) : Option Nat :=
  match db.mListeners issuerIn with
  | none => none
  | some it0 =>
    match it0 issuerOut with
    | none => none
    | some it1 =>
      match it1 currencyIn with
      | none => none
      | some it2 =>
        match it2 currencyOut with
        | none => none
        | some ret => some ret

/-- The statement `mListeners[issuerIn][issuerOut][currencyIn][currencyOut] = ret`:
each `operator[]` makes an empty map where the key is absent. -/
def setListener (m : ListenerTree) (currencyIn currencyOut issuerIn issuerOut : uint160)
    (ret : Nat) : ListenerTree :=
  let m0 := (m issuerIn).getD (fun _ => none)
  let m1 := (m0 issuerOut).getD (fun _ => none)
  let m2 := (m1 currencyIn).getD (fun _ => none)
  Function.update m issuerIn (some (Function.update m0 issuerOut
    (some (Function.update m1 currencyIn (some (Function.update m2 currencyOut (some ret)))))))

/-- `makeBookListeners`: the pointer it returns and the state it leaves. -/
def OrderBookDB.makeBookListeners (db : OrderBookDB)
    (currencyIn currencyOut issuerIn issuerOut : uint160) : Nat × OrderBookDB :=
  match db.getBookListeners currencyIn currencyOut issuerIn issuerOut with
  | some ret => (ret, db)
  | none =>
    let ret := db.nextObj
    (ret,
      { db with
        objs := Function.update db.objs ret { mListeners := [] }
        nextObj := db.nextObj + 1
        mListeners := setListener db.mListeners currencyIn currencyOut issuerIn issuerOut ret })

/-- Lookup in a listener map: the value of the first entry with the key. -/
def subMapFind (m : subMapType) (seq : Nat) : Option InfoSub :=
  match m with
  | [] => none
  | (k, v) :: rest => if k = seq then some v else subMapFind rest seq

/-- The statement `mListeners[seq] = sub`: overwrite the entry with the key, or
add one. Where the container puts a new entry in its iteration order is its own
matter; the list puts it last, and the theorems on the sends state an order only
relative to the list they are given. -/
def subMapAssign (m : subMapType) (seq : Nat) (sub : InfoSub) : subMapType :=
  match m with
  | [] => [(seq, sub)]
  | (k, v) :: rest =>
    if k = seq then (k, sub) :: rest else (k, v) :: subMapAssign rest seq sub

def BookListeners.addSubscriber (self : BookListeners) (sub : InfoSub) : BookListeners :=
  { mListeners := subMapAssign self.mListeners sub.getSeq sub }

def BookListeners.removeSubscriber (self : BookListeners) (seq : Nat) : BookListeners :=
  { mListeners := self.mListeners.filter (fun e => decide (e.1 ≠ seq)) }

/-- The loop of `publish` from the iterator position on: the entries that stay
and the sends made, in order. `lock` tells whether a weak reference resolves. -/
def publishLoop {J : Type} (lock : InfoSub → Bool) (jvObj : J) :
    subMapType → subMapType × List (InfoSub × J)
  | [] => ([], [])
  | (k, w) :: rest =>
    if lock w = true then
      ((k, w) :: (publishLoop lock jvObj rest).1, (w, jvObj) :: (publishLoop lock jvObj rest).2)
    else publishLoop lock jvObj rest

/-- `BookListeners::publish`: the object after the call and the sends made. -/
def BookListeners.publish {J : Type} (lock : InfoSub → Bool) (self : BookListeners) (jvObj : J) :
    BookListeners × List (InfoSub × J) :=
  ({ mListeners := (publishLoop lock jvObj self.mListeners).1 },
    (publishLoop lock jvObj self.mListeners).2)

/-- The method `addSubscriber` called through the pointer `book`. -/
def OrderBookDB.addSubscriber (db : OrderBookDB) (book : Nat) (sub : InfoSub) : OrderBookDB :=
  { db with objs := Function.update db.objs book ((db.objs book).addSubscriber sub) }

/-- The method `removeSubscriber` called through the pointer `book`. -/
def OrderBookDB.removeSubscriber (db : OrderBookDB) (book : Nat) (seq : Nat) : OrderBookDB :=
  { db with objs := Function.update db.objs book ((db.objs book).removeSubscriber seq) }

/-! ## processTxn -/

/-- The choice of the field subset (lines 198 to 211); `none` is the null
`field`. -/
def selectField (fname : SField) : Option SField :=
  if fname = SField.sfModifiedNode then some SField.sfPreviousFields
  else if fname = SField.sfCreatedNode then some SField.sfNewFields
  else if fname = SField.sfDeletedNode then some SField.sfFinalFields
  else none

/-- The body of the `try` block for one node (lines 196 to 233): the state it
leaves and the sends made, or `none` when an accessor raises. -/
def processNode {J : Type} (lock : InfoSub → Bool) (db : OrderBookDB) (node : STObject)
    (jvObj : J) : Option (OrderBookDB × List (InfoSub × J)) :=
  match node.getFieldU16 SField.sfLedgerEntryType with
  | none => none
  | some entryType =>
    if entryType = LedgerEntryType.ltOFFER then
      match selectField node.getFName with
      | none => some (db, [])
      | some field =>
        match node.peekAtPField field with
        | none => some (db, [])
        | some data =>
          match data.getFieldAmount SField.sfTakerGets with
          | none => none
          | some takerGets =>
            match data.getFieldAmount SField.sfTakerPays with
            | none => none
            | some takerPays =>
              match db.getBookListeners takerPays.getCurrency takerGets.getCurrency
                  takerPays.getIssuer takerGets.getIssuer with
              | none => some (db, [])
              | some book =>
                some ({ db with
                        objs := Function.update db.objs book
                          ((db.objs book).publish lock jvObj).1 },
                      ((db.objs book).publish lock jvObj).2)
    else some (db, [])

/-- The loop over the metadata nodes (lines 192 to 239): an exception of one
node is caught and the loop goes on with the next. -/
def processNodes {J : Type} (lock : InfoSub → Bool) (jvObj : J) :
    OrderBookDB → List STObject → OrderBookDB × List (InfoSub × J)
  | db, [] => (db, [])
  | db, node :: rest =>
    match processNode lock db node jvObj with
    | none => processNodes lock jvObj db rest
    | some (db2, sent) =>
      ((processNodes lock jvObj db2 rest).1, sent ++ (processNodes lock jvObj db2 rest).2)

/-- `OrderBookDB::processTxn`: the state it leaves and the sends made, in
order. -/
def OrderBookDB.processTxn {J : Type} (lock : InfoSub → Bool) (db : OrderBookDB)
    (alTx : ALTransaction) (jvObj : J) : OrderBookDB × List (InfoSub × J) :=
  if alTx.getResult = TER.tesSUCCESS then processNodes lock jvObj db alTx.getNodes
  else (db, [])

/-! ## The description of the index that `setup` builds -/

/-- The indices of the next-index chain from `cur` up to the first zero, at most
`n` of them. -/
def chainFrom (ledger : Ledger) : Nat → uint256 → List uint256
  | 0, _ => []
  | n + 1, cur =>
    if cur = 0 then [] else cur :: chainFrom ledger n (ledger.getNextLedgerIndex cur)

/-- The Book that an entry visited at index `i` encodes: the entry is a
directory node with an exchange-rate field whose root-index field is `i`, and
the Book is made of its four identity fields. -/
def rootBookOf (getBookBase : uint160 → uint160 → uint160 → uint160 → uint256)
    (i : uint256) (e : SLE) : Option OrderBook :=
  if e.getType = LedgerEntryType.ltDIR_NODE ∧ e.isFieldPresent SField.sfExchangeRate = true ∧
      e.getFieldH256 SField.sfRootIndex = some i then
    match e.getFieldH160 SField.sfTakerPaysCurrency, e.getFieldH160 SField.sfTakerGetsCurrency,
      e.getFieldH160 SField.sfTakerPaysIssuer, e.getFieldH160 SField.sfTakerGetsIssuer with
    | some ci, some co, some ii, some io => some ⟨getBookBase ci ii co io, ci, co, ii, io⟩
    | _, _, _, _ => none
  else none

/-- The Book of the entry at index `i` of the ledger, if it encodes one. -/
def rootBookAt (getBookBase : uint160 → uint160 → uint160 → uint160 → uint256)
    (ledger : Ledger) (i : uint256) : Option OrderBook :=
  match ledger.getSLEi i with
  | none => none
  | some e => rootBookOf getBookBase i e

/-- The Books of the qualifying entries on the chain from `cur`, in chain
order. -/
def chainRoots (getBookBase : uint160 → uint160 → uint160 → uint160 → uint256)
    (ledger : Ledger) (n : Nat) (cur : uint256) : List OrderBook :=
  (chainFrom ledger n cur).filterMap (rootBookAt getBookBase ledger)

/-- Keep a Book when no Book before it has its base; `earlier` are the Books
before the list. -/
def firstPerBaseAfter (earlier : List OrderBook) : List OrderBook → List OrderBook
  | [] => []
  | b :: rest =>
    if b.mBookBase ∈ earlier.map OrderBook.mBookBase then firstPerBaseAfter (earlier ++ [b]) rest
    else b :: firstPerBaseAfter (earlier ++ [b]) rest

/-- Keep only the first Book for each derived base. -/
def firstPerBase (books : List OrderBook) : List OrderBook :=
  firstPerBaseAfter [] books

/-- The Books the description of `setup` gives for a ledger whose chain ends
within `n` steps. -/
def specBooks (getBookBase : uint160 → uint160 → uint160 → uint160 → uint256)
    (ledger : Ledger) (n : Nat) : List OrderBook :=
  firstPerBase (chainRoots getBookBase ledger n ledger.getFirstLedgerIndex)

/-- The Books of a list whose input currency is the native one. -/
def nativeOf (books : List OrderBook) : List OrderBook :=
  books.filter (fun b => decide (b.mCurrencyIn = 0))

/-- The Books of a list with a non-native input currency and the input issuer
`issuer`. -/
def bucketOf (books : List OrderBook) (issuer : uint160) : List OrderBook :=
  books.filter (fun b => decide (b.mCurrencyIn ≠ 0 ∧ b.mIssuerIn = issuer))

/-- The issuer map that holds exactly the non-native Books of a list: a bucket
exists for an issuer when it is not empty. -/
def bucketsOf (books : List OrderBook) : uint160 → Option (List OrderBook) :=
  fun issuer => if bucketOf books issuer = [] then none else some (bucketOf books issuer)

/-- The index of `db` holds exactly the Books of `books`. -/
def HoldsExactly (db : OrderBookDB) (books : List OrderBook) : Prop :=
  db.mXRPOrders = nativeOf books ∧ db.mIssuerMap = bucketsOf books

/-- Every index of the chain from `cur` resolves to an entry, and every field
that `setup` reads at it can be read. -/
def readableFrom (ledger : Ledger) : Nat → uint256 → Bool
  | 0, _ => true
  | n + 1, cur =>
    if cur = 0 then true
    else
      match ledger.getSLEi cur with
      | none => false
      | some e =>
        (if e.getType = LedgerEntryType.ltDIR_NODE ∧
            e.isFieldPresent SField.sfExchangeRate = true then
          match e.getFieldH256 SField.sfRootIndex with
          | none => false
          | some root =>
            if root = cur then
              (e.getFieldH160 SField.sfTakerPaysCurrency).isSome &&
              (e.getFieldH160 SField.sfTakerGetsCurrency).isSome &&
              (e.getFieldH160 SField.sfTakerPaysIssuer).isSome &&
              (e.getFieldH160 SField.sfTakerGetsIssuer).isSome
            else true
        else true) && readableFrom ledger n (ledger.getNextLedgerIndex cur)

/-- The four identity fields of a Book. -/
def OrderBook.identity (b : OrderBook) : uint160 × uint160 × uint160 × uint160 :=
  (b.mCurrencyIn, b.mIssuerIn, b.mCurrencyOut, b.mIssuerOut)

/-- The identity `processTxn` derives from a node, in the order of
`OrderBook.identity`: the currency and issuer of the input amount (TakerPays),
then of the output amount (TakerGets), read from the prior-state fields of a
modified node, the new-state fields of a created node and the final-state
fields of a deleted node. `none` when the node is not an offer, is of another
kind, has no such field subset, or has an amount that cannot be read. -/
def derivedIdentity (node : STObject) : Option (uint160 × uint160 × uint160 × uint160) :=
  if node.getFieldU16 SField.sfLedgerEntryType = some LedgerEntryType.ltOFFER then
    match
      (if node.getFName = SField.sfModifiedNode then node.peekAtPField SField.sfPreviousFields
        else if node.getFName = SField.sfCreatedNode then node.peekAtPField SField.sfNewFields
        else if node.getFName = SField.sfDeletedNode then node.peekAtPField SField.sfFinalFields
        else none) with
    | none => none
    | some data =>
      match data.getFieldAmount SField.sfTakerPays, data.getFieldAmount SField.sfTakerGets with
      | some pays, some gets =>
        some (pays.getCurrency, pays.getIssuer, gets.getCurrency, gets.getIssuer)
      | _, _ => none
  else none

/-! ## Invariants used in the proofs -/

/-- What `setup` leaves untouched: the sequence is set before the loop, and the
registry and its objects are not used. -/
def SameOutsideIndex (db db2 : OrderBookDB) : Prop :=
  db2.mSeq = db.mSeq ∧ db2.mListeners = db.mListeners ∧ db2.objs = db.objs ∧
    db2.nextObj = db.nextObj

/-- The base of a Book is the one derived from its four identity fields. -/
def WellBased (getBookBase : uint160 → uint160 → uint160 → uint160 → uint256) (b : OrderBook) :
    Prop :=
  b.mBookBase = getBookBase b.mCurrencyIn b.mIssuerIn b.mCurrencyOut b.mIssuerOut

/-- The loop invariant of `setup`: `kept` are the Books made so far, `earlier`
the Books of all qualifying entries visited so far. -/
structure LoopInv (getBookBase : uint160 → uint160 → uint160 → uint160 → uint256)
    (kept earlier : List OrderBook) (mSeen : List uint256) (db : OrderBookDB) : Prop where
  holds : HoldsExactly db kept
  based : ∀ b ∈ kept, WellBased getBookBase b
  seenKept : ∀ x, x ∈ mSeen ↔ x ∈ kept.map OrderBook.mBookBase
  seenEarlier : ∀ x, x ∈ mSeen ↔ x ∈ earlier.map OrderBook.mBookBase
  nodup : (kept.map OrderBook.mBookBase).Nodup

/-- The state with the members outside the index replaced. -/
def reframe (mListeners : ListenerTree) (objs : Nat → BookListeners) (nextObj : Nat)
    (db : OrderBookDB) : OrderBookDB :=
  { db with mListeners := mListeners, objs := objs, nextObj := nextObj }

/-! ## Concrete inputs -/

/-- A base derivation used on the concrete inputs. -/
def gbbEx : uint160 → uint160 → uint160 → uint160 → uint256 :=
  fun ci ii co io => ci + 10 * ii + 100 * co + 1000 * io + 1

/-- A directory root at index `i` with the four identity fields. -/
def rootEntry (i : uint256) (ci co ii io : uint160) : SLE :=
  { getType := LedgerEntryType.ltDIR_NODE
    isFieldPresent := fun f =>
      decide (f = SField.sfExchangeRate ∨ f = SField.sfRootIndex ∨
        f = SField.sfTakerPaysCurrency ∨ f = SField.sfTakerGetsCurrency ∨
        f = SField.sfTakerPaysIssuer ∨ f = SField.sfTakerGetsIssuer)
    getFieldH256 := fun f => if f = SField.sfRootIndex then some i else none
    getFieldH160 := fun f =>
      if f = SField.sfTakerPaysCurrency then some ci
      else if f = SField.sfTakerGetsCurrency then some co
      else if f = SField.sfTakerPaysIssuer then some ii
      else if f = SField.sfTakerGetsIssuer then some io
      else none }

/-- A directory root at index `i` without identity fields, whose reads of them
raise. -/
def brokenRootEntry (i : uint256) : SLE :=
  { getType := LedgerEntryType.ltDIR_NODE
    isFieldPresent := fun f => decide (f = SField.sfExchangeRate ∨ f = SField.sfRootIndex)
    getFieldH256 := fun f => if f = SField.sfRootIndex then some i else none
    getFieldH160 := fun _ => none }

/-- A directory root at index `i` without identity fields, whose reads of them
give the zero value. -/
def defaultingRootEntry (i : uint256) : SLE :=
  { getType := LedgerEntryType.ltDIR_NODE
    isFieldPresent := fun f => decide (f = SField.sfExchangeRate ∨ f = SField.sfRootIndex)
    getFieldH256 := fun f => if f = SField.sfRootIndex then some i else none
    getFieldH160 := fun _ => some 0 }

/-- Ledger 5 with three roots: a native-input book, the USD/rA to native book
(currency 7, issuer 9), and a second root for that same book. -/
def ledgerEx : Ledger :=
  { getLedgerSeq := 5
    getFirstLedgerIndex := 1
    getNextLedgerIndex := fun i => if i = 1 then 2 else if i = 2 then 3 else 0
    getSLEi := fun i =>
      if i = 1 then some (rootEntry 1 0 7 0 9)
      else if i = 2 then some (rootEntry 2 7 0 9 0)
      else if i = 3 then some (rootEntry 3 7 0 9 0)
      else none }

/-- Ledger 5 with a root whose fields cannot be read, followed by a good
root. -/
def ledgerBroken : Ledger :=
  { getLedgerSeq := 5
    getFirstLedgerIndex := 1
    getNextLedgerIndex := fun i => if i = 1 then 2 else 0
    getSLEi := fun i =>
      if i = 1 then some (brokenRootEntry 1)
      else if i = 2 then some (rootEntry 2 7 0 9 0)
      else none }

/-- The entries of `ledgerEx` under the sequence number zero. -/
def ledgerZero : Ledger :=
  { ledgerEx with getLedgerSeq := 0 }

/-- An index built from an earlier ledger, sequence 4. -/
def dbOld : OrderBookDB :=
  { mSeq := 4
    mXRPOrders := [⟨3011, 0, 30, 0, 3⟩]
    mIssuerMap := pushBook (fun _ => none) 4 ⟨81, 40, 0, 4, 0⟩
    mListeners := fun _ => none
    objs := fun _ => { mListeners := [] }
    nextObj := 0 }

/-- The native-input Book of `ledgerEx`. -/
def bookXRP : OrderBook := ⟨9701, 0, 7, 0, 9⟩

/-- The USD/rA to native Book of `ledgerEx`. -/
def bookUSD : OrderBook := ⟨98, 7, 0, 9, 0⟩

/-- The index that `setup` builds from `ledgerEx`. -/
def dbEx : OrderBookDB :=
  { mSeq := 5
    mXRPOrders := [bookXRP]
    mIssuerMap := pushBook (fun _ => none) 9 bookUSD
    mListeners := fun _ => none
    objs := fun _ => { mListeners := [] }
    nextObj := 0 }

/-- The subscriber S of the concrete inputs, sequence 7. -/
def subS : InfoSub := { addr := 100, getSeq := 7 }

/-- The index of `dbEx` with a registry entry for the USD/rA to native book and
S subscribed to it. -/
def dbSub : OrderBookDB :=
  ((dbEx.makeBookListeners 7 0 9 0).2).addSubscriber (dbEx.makeBookListeners 7 0 9 0).1 subS

/-- A created offer node with the input amount `pays` and the output amount
`gets` in its new-state fields. -/
def createdOffer (pays gets : STAmount) : STObject :=
  { getFieldU16 := fun f =>
      if f = SField.sfLedgerEntryType then some LedgerEntryType.ltOFFER else none
    getFName := SField.sfCreatedNode
    peekAtPField := fun f =>
      if f = SField.sfNewFields then
        some { getFieldAmount := fun g =>
                if g = SField.sfTakerPays then some pays
                else if g = SField.sfTakerGets then some gets
                else none }
      else none }

/-- A transaction that failed, with one created offer on the book S listens
to. -/
def txFailed : ALTransaction :=
  { getResult := TER.terOTHER 1
    getNodes := [createdOffer ⟨7, 9⟩ ⟨0, 0⟩] }

/-- The same transaction with the result success. -/
def txApplied : ALTransaction :=
  { getResult := TER.tesSUCCESS
    getNodes := [createdOffer ⟨7, 9⟩ ⟨0, 0⟩] }

/-! ## The description of what `processTxn` publishes -/

/-- One lookup and publish for an identity, given in the order of
`OrderBook.identity`: nothing when the identity has no registry entry, else
`publish` on the object of its entry. -/
def publishTo {J : Type} (lock : InfoSub → Bool) (jvObj : J) (db : OrderBookDB)
    (id : uint160 × uint160 × uint160 × uint160) : OrderBookDB × List (InfoSub × J) :=
  match db.getBookListeners id.1 id.2.2.1 id.2.1 id.2.2.2 with
  | none => (db, [])
  | some book =>
    ({ db with objs := Function.update db.objs book ((db.objs book).publish lock jvObj).1 },
      ((db.objs book).publish lock jvObj).2)

/-- One lookup and publish for each identity of a list, in order. -/
def publishAll {J : Type} (lock : InfoSub → Bool) (jvObj : J) :
    OrderBookDB → List (uint160 × uint160 × uint160 × uint160) → OrderBookDB × List (InfoSub × J)
  | db, [] => (db, [])
  | db, id :: rest =>
    ((publishAll lock jvObj (publishTo lock jvObj db id).1 rest).1,
      (publishTo lock jvObj db id).2 ++ (publishAll lock jvObj (publishTo lock jvObj db id).1 rest).2)

/-- A record whose expected field cannot be read: the entry-type tag is
missing, or the record is an offer with a field subset for its kind in which
an amount is missing or wrongly typed. -/
def malformedRecord (node : STObject) : Bool :=
  match node.getFieldU16 SField.sfLedgerEntryType with
  | none => true
  | some entryType =>
    decide (entryType = LedgerEntryType.ltOFFER) &&
      (match
        (if node.getFName = SField.sfModifiedNode then node.peekAtPField SField.sfPreviousFields
          else if node.getFName = SField.sfCreatedNode then node.peekAtPField SField.sfNewFields
          else if node.getFName = SField.sfDeletedNode then node.peekAtPField SField.sfFinalFields
          else none) with
      | none => false
      | some data =>
        (data.getFieldAmount SField.sfTakerGets).isNone ||
          (data.getFieldAmount SField.sfTakerPays).isNone)

/-- The sends that `processTxn` makes for each node, one list per node in node
order. -/
def processNodesEach {J : Type} (lock : InfoSub → Bool) (jvObj : J) :
    OrderBookDB → List STObject → List (List (InfoSub × J))
  | _, [] => []
  | db, node :: rest =>
    match processNode lock db node jvObj with
    | none => [] :: processNodesEach lock jvObj db rest
    | some (db2, sent) => sent :: processNodesEach lock jvObj db2 rest

/-- The number of entries of a listener map that point at the subscriber. -/
def subCount (m : subMapType) (sub : InfoSub) : Nat :=
  (m.filter (fun e => decide (e.2 = sub))).length

/-- The number of sends of a list that go to the subscriber. -/
def receipts {J : Type} (sends : List (InfoSub × J)) (sub : InfoSub) : Nat :=
  (sends.filter (fun s => decide (s.1 = sub))).length

/-- The subscriber T of the concrete inputs, sequence 8. -/
def subT : InfoSub := { addr := 101, getSeq := 8 }

/-- A listener map with the subscribers S and T. -/
def listenersST : BookListeners := { mListeners := [(7, subS), (8, subT)] }

/-- A modified offer node with the amounts `pays` and `gets` in its prior-state
fields and `paysFinal` and `getsFinal` in its final-state fields. -/
def modifiedOffer (pays gets paysFinal getsFinal : STAmount) : STObject :=
  { getFieldU16 := fun f =>
      if f = SField.sfLedgerEntryType then some LedgerEntryType.ltOFFER else none
    getFName := SField.sfModifiedNode
    peekAtPField := fun f =>
      if f = SField.sfPreviousFields then
        some { getFieldAmount := fun g =>
                if g = SField.sfTakerPays then some pays
                else if g = SField.sfTakerGets then some gets
                else none }
      else if f = SField.sfFinalFields then
        some { getFieldAmount := fun g =>
                if g = SField.sfTakerPays then some paysFinal
                else if g = SField.sfTakerGets then some getsFinal
                else none }
      else none }

/-- A deleted offer node with the amounts in its final-state fields. -/
def deletedOffer (pays gets : STAmount) : STObject :=
  { getFieldU16 := fun f =>
      if f = SField.sfLedgerEntryType then some LedgerEntryType.ltOFFER else none
    getFName := SField.sfDeletedNode
    peekAtPField := fun f =>
      if f = SField.sfFinalFields then
        some { getFieldAmount := fun g =>
                if g = SField.sfTakerPays then some pays
                else if g = SField.sfTakerGets then some gets
                else none }
      else none }

/-- A node without an entry-type tag. -/
def untaggedNode : STObject :=
  { getFieldU16 := fun _ => none
    getFName := SField.sfCreatedNode
    peekAtPField := fun _ => none }

/-- The state `dbSub` with a second registry entry, for the book with input
currency 8, and T subscribed to it. -/
def dbTwo : OrderBookDB :=
  ((dbSub.makeBookListeners 8 0 9 0).2).addSubscriber (dbSub.makeBookListeners 8 0 9 0).1 subT

/-- A successful transaction with one modified offer: the book S listens to in
the prior state, the book T listens to in the final state. -/
def txModified : ALTransaction :=
  { getResult := TER.tesSUCCESS
    getNodes := [modifiedOffer ⟨7, 9⟩ ⟨0, 0⟩ ⟨8, 9⟩ ⟨0, 0⟩] }

/-- A successful transaction with a created, an untagged, a modified and a
deleted node, the three offers on the book S listens to. -/
def txThree : ALTransaction :=
  { getResult := TER.tesSUCCESS
    getNodes := [createdOffer ⟨7, 9⟩ ⟨0, 0⟩, untaggedNode,
      modifiedOffer ⟨7, 9⟩ ⟨0, 0⟩ ⟨8, 9⟩ ⟨0, 0⟩, deletedOffer ⟨7, 9⟩ ⟨0, 0⟩] }

/-- An entry that is not a directory node. -/
def plainEntry : SLE :=
  { getType := LedgerEntryType.ltOTHER 97
    isFieldPresent := fun _ => false
    getFieldH256 := fun _ => none
    getFieldH160 := fun _ => none }

/-- Ledger 5 with the native-input root, then a root whose fields cannot be
read, then the USD/rA to native root. -/
def ledgerCut : Ledger :=
  { getLedgerSeq := 5
    getFirstLedgerIndex := 1
    getNextLedgerIndex := fun i => if i = 1 then 2 else if i = 2 then 3 else 0
    getSLEi := fun i =>
      if i = 1 then some (rootEntry 1 0 7 0 9)
      else if i = 2 then some (brokenRootEntry 2)
      else if i = 3 then some (rootEntry 3 7 0 9 0)
      else none }

/-- The index that `setup` leaves for `ledgerCut`: the Book found before the
unreadable root. -/
def dbCut : OrderBookDB :=
  { mSeq := 5
    mXRPOrders := [bookXRP]
    mIssuerMap := fun _ => none
    mListeners := fun _ => none
    objs := fun _ => { mListeners := [] }
    nextObj := 0 }

/-- Ledger 5 with a root without identity fields whose reads give zero, then
the USD/rA to native root. -/
def ledgerDefaulting : Ledger :=
  { getLedgerSeq := 5
    getFirstLedgerIndex := 1
    getNextLedgerIndex := fun i => if i = 1 then 2 else 0
    getSLEi := fun i =>
      if i = 1 then some (defaultingRootEntry 1)
      else if i = 2 then some (rootEntry 2 7 0 9 0)
      else none }

/-- The ledger `ledgerDefaulting` with its first root replaced by an entry that
is not a root. -/
def ledgerDefaultingSkipped : Ledger :=
  { ledgerDefaulting with
    getSLEi := fun i =>
      if i = 1 then some plainEntry
      else if i = 2 then some (rootEntry 2 7 0 9 0)
      else none }

/-- The ledger `ledgerCut` with its unreadable root replaced by an entry that is
not a root. -/
def ledgerCutSkipped : Ledger :=
  { ledgerCut with
    getSLEi := fun i =>
      if i = 1 then some (rootEntry 1 0 7 0 9)
      else if i = 2 then some plainEntry
      else if i = 3 then some (rootEntry 3 7 0 9 0)
      else none }

/-! ## The registry as one map keyed by the four-tuple -/

/-- A registry as a single map keyed by the flattened four-tuple
(currencyIn, currencyOut, issuerIn, issuerOut). -/
abbrev FlatRegistry := uint160 × uint160 × uint160 × uint160 → Option Nat

/-- Get or create on the single map: the entry of the key when there is one,
else a new entry with the next address. The result is the entry, the map and
the next address. -/
def flatMake (m : FlatRegistry) (next : Nat) (key : uint160 × uint160 × uint160 × uint160) :
    Nat × FlatRegistry × Nat :=
  match m key with
  | some ret => (ret, m, next)
  | none => (next, Function.update m key (some next), next + 1)

/-- A sequence of `makeBookListeners` calls, each with a key
(currencyIn, currencyOut, issuerIn, issuerOut): the state after them and the
pointers returned, in call order. -/
def makeAll : OrderBookDB → List (uint160 × uint160 × uint160 × uint160) → OrderBookDB × List Nat
  | db, [] => (db, [])
  | db, key :: rest =>
    ((makeAll (db.makeBookListeners key.1 key.2.1 key.2.2.1 key.2.2.2).2 rest).1,
      (db.makeBookListeners key.1 key.2.1 key.2.2.1 key.2.2.2).1 ::
        (makeAll (db.makeBookListeners key.1 key.2.1 key.2.2.1 key.2.2.2).2 rest).2)

/-- The same sequence of get-or-create calls on the single map. -/
def flatMakeAll : FlatRegistry → Nat → List (uint160 × uint160 × uint160 × uint160) →
    FlatRegistry × List Nat
  | m, _, [] => (m, [])
  | m, next, key :: rest =>
    ((flatMakeAll (flatMake m next key).2.1 (flatMake m next key).2.2 rest).1,
      (flatMake m next key).1 ::
        (flatMakeAll (flatMake m next key).2.1 (flatMake m next key).2.2 rest).2)

/-- The lookup of a key (currencyIn, currencyOut, issuerIn, issuerOut) in the
nested registry. -/
def lookupKey (db : OrderBookDB) (key : uint160 × uint160 × uint160 × uint160) : Option Nat :=
  db.getBookListeners key.1 key.2.1 key.2.2.1 key.2.2.2

/-! ## Failing reads and the visited indices of `setup` -/

/-- A field read that `setup` makes at the entry visited at `cur` raises: the
entry is a directory node with an exchange-rate field, and its root index
cannot be read, or is `cur` and one of the four identity fields cannot be
read. -/
def readFails (cur : uint256) (e : SLE) : Bool :=
  decide (e.getType = LedgerEntryType.ltDIR_NODE) &&
    e.isFieldPresent SField.sfExchangeRate &&
    (match e.getFieldH256 SField.sfRootIndex with
      | none => true
      | some root =>
        decide (root = cur) &&
          ((e.getFieldH160 SField.sfTakerPaysCurrency).isNone ||
            (e.getFieldH160 SField.sfTakerGetsCurrency).isNone ||
            (e.getFieldH160 SField.sfTakerPaysIssuer).isNone ||
            (e.getFieldH160 SField.sfTakerGetsIssuer).isNone))

/-- The entry visited at `cur` is a qualifying directory root at which the read
of one of the four identity fields raises. -/
def identityReadFails (cur : uint256) (e : SLE) : Bool :=
  decide (e.getType = LedgerEntryType.ltDIR_NODE) &&
    e.isFieldPresent SField.sfExchangeRate &&
    decide (e.getFieldH256 SField.sfRootIndex = some cur) &&
    ((e.getFieldH160 SField.sfTakerPaysCurrency).isNone ||
      (e.getFieldH160 SField.sfTakerGetsCurrency).isNone ||
      (e.getFieldH160 SField.sfTakerPaysIssuer).isNone ||
      (e.getFieldH160 SField.sfTakerGetsIssuer).isNone)

/-- The entry visited at `cur` is a qualifying directory root that is missing
one of its four identity fields: the field is not present in the entry. What a
read of a missing field does is the accessor's matter and is not said here. -/
def missingIdentityField (cur : uint256) (e : SLE) : Bool :=
  decide (e.getType = LedgerEntryType.ltDIR_NODE) &&
    e.isFieldPresent SField.sfExchangeRate &&
    decide (e.getFieldH256 SField.sfRootIndex = some cur) &&
    (!e.isFieldPresent SField.sfTakerPaysCurrency ||
      !e.isFieldPresent SField.sfTakerGetsCurrency ||
      !e.isFieldPresent SField.sfTakerPaysIssuer ||
      !e.isFieldPresent SField.sfTakerGetsIssuer)

/-- The loop of `setup` once more, giving the indices at which it asked the
ledger for an entry, in order. It follows `setupLoop` step by step. -/
def setupLoopVisited (getBookBase : uint160 → uint160 → uint160 → uint160 → uint256)
    (ledger : Ledger) :
    Nat → uint256 → List uint256 → OrderBookDB → Option (List uint256)
  | 0, currentIndex, _, _ =>
    if currentIndex = 0 then some [] else none
  | fuel + 1, currentIndex, mSeen, db =>
    if currentIndex = 0 then some []
    else
      match ledger.getSLEi currentIndex with
      | none => some [currentIndex]
      | some entry =>
        match setupVisit getBookBase currentIndex entry mSeen db with
        | none => some [currentIndex]
        | some (mSeen2, db2) =>
          (setupLoopVisited getBookBase ledger fuel (ledger.getNextLedgerIndex currentIndex)
            mSeen2 db2).map (fun visited => currentIndex :: visited)

/-- The indices that `setup` visits: none when the sequence is the current one,
else those of the loop. -/
def OrderBookDB.setupVisited (getBookBase : uint160 → uint160 → uint160 → uint160 → uint256)
    (fuel : Nat) (db : OrderBookDB) (ledger : Ledger) : Option (List uint256) :=
  if ledger.getLedgerSeq = db.mSeq then some []
  else
    setupLoopVisited getBookBase ledger fuel ledger.getFirstLedgerIndex []
      { db with mSeq := ledger.getLedgerSeq, mXRPOrders := [], mIssuerMap := fun _ => none }

/-- The index that `setup` builds from `ledgerDefaulting`: a Book of zero fields
from the root without identity fields, and the USD/rA to native Book. -/
def dbDefaulting : OrderBookDB :=
  { mSeq := 5
    mXRPOrders := [⟨1, 0, 0, 0, 0⟩]
    mIssuerMap := pushBook (fun _ => none) 9 bookUSD
    mListeners := fun _ => none
    objs := fun _ => { mListeners := [] }
    nextObj := 0 }

/-- The index that `setup` builds from `ledgerDefaultingSkipped`. -/
def dbDefaultingSkipped : OrderBookDB :=
  { mSeq := 5
    mXRPOrders := []
    mIssuerMap := pushBook (fun _ => none) 9 bookUSD
    mListeners := fun _ => none
    objs := fun _ => { mListeners := [] }
    nextObj := 0 }

/-! ## Lemmas and theorems -/

theorem nativeOf_append (a b : List OrderBook) : nativeOf (a ++ b) = nativeOf a ++ nativeOf b := by
  simp [nativeOf]

theorem bucketOf_append (a b : List OrderBook) (i : uint160) :
    bucketOf (a ++ b) i = bucketOf a i ++ bucketOf b i := by
  simp [bucketOf]

theorem bucketOf_single_self (b : OrderBook) (h : b.mCurrencyIn ≠ 0) :
    bucketOf [b] b.mIssuerIn = [b] := by
  simp [bucketOf, h]

theorem bucketOf_single_other (b : OrderBook) (i : uint160) (h : b.mCurrencyIn = 0 ∨ b.mIssuerIn ≠ i) :
    bucketOf [b] i = [] := by
  rcases h with h | h <;> simp [bucketOf, h]

theorem bucketsOf_append_native (kept : List OrderBook) (b : OrderBook) (h : b.mCurrencyIn = 0) :
    bucketsOf (kept ++ [b]) = bucketsOf kept := by
  funext i
  simp [bucketsOf, bucketOf_append, bucketOf_single_other b i (Or.inl h)]

theorem nativeOf_append_other (kept : List OrderBook) (b : OrderBook) (h : b.mCurrencyIn ≠ 0) :
    nativeOf (kept ++ [b]) = nativeOf kept := by
  simp [nativeOf, h]

theorem pushBook_bucketsOf (kept : List OrderBook) (b : OrderBook) (h : b.mCurrencyIn ≠ 0) :
    pushBook (bucketsOf kept) b.mIssuerIn b = bucketsOf (kept ++ [b]) := by
  funext i
  by_cases hi : i = b.mIssuerIn
  · subst hi
    by_cases he : bucketOf kept b.mIssuerIn = []
    · simp [pushBook, bucketsOf, bucketOf_append, he, bucketOf_single_self b h]
    · simp [pushBook, bucketsOf, bucketOf_append, he, bucketOf_single_self b h]
  · have hne : b.mIssuerIn ≠ i := fun e => hi e.symm
    simp [pushBook, bucketsOf, bucketOf_append, bucketOf_single_other b i (Or.inr hne), hi,
      Function.update]

theorem firstPerBaseAfter_append (a b earlier : List OrderBook) :
    firstPerBaseAfter earlier (a ++ b) =
      firstPerBaseAfter earlier a ++ firstPerBaseAfter (earlier ++ a) b := by
  induction a generalizing earlier with
  | nil => simp [firstPerBaseAfter]
  | cons x xs ih =>
    have ih2 := ih (earlier ++ [x])
    rw [List.append_assoc, List.singleton_append] at ih2
    rw [List.cons_append]
    simp only [firstPerBaseAfter]
    split
    · exact ih2
    · rw [ih2, List.cons_append]

theorem SameOutsideIndex.refl (db : OrderBookDB) : SameOutsideIndex db db :=
  ⟨rfl, rfl, rfl, rfl⟩

theorem SameOutsideIndex.trans {a b c : OrderBookDB} (h1 : SameOutsideIndex a b)
    (h2 : SameOutsideIndex b c) : SameOutsideIndex a c :=
  ⟨h2.1.trans h1.1, h2.2.1.trans h1.2.1, h2.2.2.1.trans h1.2.2.1, h2.2.2.2.trans h1.2.2.2⟩

theorem LoopInv.skip {getBookBase : uint160 → uint160 → uint160 → uint160 → uint256}
    {kept earlier : List OrderBook} {mSeen : List uint256} {db : OrderBookDB}
    (h : LoopInv getBookBase kept earlier mSeen db) :
    LoopInv getBookBase (kept ++ firstPerBaseAfter earlier []) (earlier ++ []) mSeen db := by
  simpa [firstPerBaseAfter] using h

theorem LoopInv.add {getBookBase : uint160 → uint160 → uint160 → uint160 → uint256}
    {kept earlier : List OrderBook} {mSeen : List uint256} {db : OrderBookDB}
    (h : LoopInv getBookBase kept earlier mSeen db) (b : OrderBook)
    (hb : WellBased getBookBase b) :
    LoopInv getBookBase (kept ++ firstPerBaseAfter earlier [b]) (earlier ++ [b])
      (if b.mBookBase ∈ mSeen then mSeen else b.mBookBase :: mSeen)
      (if b.mBookBase ∈ mSeen then db
        else if b.getCurrencyIn = 0 then { db with mXRPOrders := db.mXRPOrders ++ [b] }
        else { db with mIssuerMap := pushBook db.mIssuerMap b.getIssuerIn b }) := by
  by_cases hs : b.mBookBase ∈ mSeen
  · have he : b.mBookBase ∈ earlier.map OrderBook.mBookBase := (h.seenEarlier _).1 hs
    simp only [hs, if_true, firstPerBaseAfter, he, List.append_nil]
    refine ⟨h.holds, h.based, h.seenKept, ?_, h.nodup⟩
    intro x
    rw [h.seenEarlier x]
    simp only [List.map_append, List.mem_append, List.map_cons, List.map_nil, List.mem_singleton]
    constructor
    · exact Or.inl
    · rintro (hx | hx)
      · exact hx
      · rw [hx]; exact he
  · have he : ¬ b.mBookBase ∈ earlier.map OrderBook.mBookBase := fun hh => hs ((h.seenEarlier _).2 hh)
    have hk : ¬ b.mBookBase ∈ kept.map OrderBook.mBookBase := fun hh => hs ((h.seenKept _).2 hh)
    simp only [hs, if_false, firstPerBaseAfter, he]
    refine ⟨?_, ?_, ?_, ?_, ?_⟩
    · by_cases hc : b.getCurrencyIn = 0
      · have hc2 : b.mCurrencyIn = 0 := hc
        simp only [hc, if_true]
        refine ⟨?_, ?_⟩
        · show db.mXRPOrders ++ [b] = nativeOf (kept ++ [b])
          rw [nativeOf_append, ← h.holds.1]
          simp [nativeOf, hc2]
        · show db.mIssuerMap = bucketsOf (kept ++ [b])
          rw [bucketsOf_append_native kept b hc2]
          exact h.holds.2
      · have hc2 : b.mCurrencyIn ≠ 0 := hc
        simp only [hc, if_false]
        refine ⟨?_, ?_⟩
        · show db.mXRPOrders = nativeOf (kept ++ [b])
          rw [nativeOf_append_other kept b hc2]
          exact h.holds.1
        · show pushBook db.mIssuerMap b.getIssuerIn b = bucketsOf (kept ++ [b])
          rw [h.holds.2]
          exact pushBook_bucketsOf kept b hc2
    · intro c hc
      rcases List.mem_append.1 hc with hc | hc
      · exact h.based c hc
      · rw [List.mem_singleton.1 hc]; exact hb
    · intro x
      simp only [List.mem_cons, List.map_append, List.mem_append, List.map_cons, List.map_nil,
        List.mem_singleton, h.seenKept x]
      tauto
    · intro x
      simp only [List.mem_cons, List.map_append, List.mem_append, List.map_cons, List.map_nil,
        List.mem_singleton, h.seenEarlier x]
      tauto
    · rw [List.map_append, List.nodup_append]
      refine ⟨h.nodup, by simp, ?_⟩
      intro x hx1 hx2
      simp only [List.map_cons, List.map_nil, List.mem_singleton] at hx2
      exact hk (hx2 ▸ hx1)

theorem setupVisit_spec (getBookBase : uint160 → uint160 → uint160 → uint160 → uint256)
    (cur : uint256) (e : SLE) {kept earlier : List OrderBook} {mSeen : List uint256}
    {db : OrderBookDB} (hinv : LoopInv getBookBase kept earlier mSeen db) {mSeen2 : List uint256}
    {db2 : OrderBookDB} (h : setupVisit getBookBase cur e mSeen db = some (mSeen2, db2)) :
    LoopInv getBookBase (kept ++ firstPerBaseAfter earlier (rootBookOf getBookBase cur e).toList)
      (earlier ++ (rootBookOf getBookBase cur e).toList) mSeen2 db2 ∧ SameOutsideIndex db db2 := by
  unfold setupVisit at h
  unfold rootBookOf
  by_cases hq : e.getType = LedgerEntryType.ltDIR_NODE ∧
      e.isFieldPresent SField.sfExchangeRate = true
  · rw [if_pos hq] at h
    cases hr : e.getFieldH256 SField.sfRootIndex with
    | none => rw [hr] at h; simp at h
    | some root =>
      rw [hr] at h
      simp only at h
      by_cases hrc : root = cur
      · rw [if_pos hrc] at h
        cases h1 : e.getFieldH160 SField.sfTakerPaysCurrency with
        | none => rw [h1] at h; simp at h
        | some ci =>
        cases h2 : e.getFieldH160 SField.sfTakerGetsCurrency with
        | none => rw [h1, h2] at h; simp at h
        | some co =>
        cases h3 : e.getFieldH160 SField.sfTakerPaysIssuer with
        | none => rw [h1, h2, h3] at h; simp at h
        | some ii =>
        cases h4 : e.getFieldH160 SField.sfTakerGetsIssuer with
        | none => rw [h1, h2, h3, h4] at h; simp at h
        | some io =>
          rw [h1, h2, h3, h4] at h
          simp only at h
          have hcond : e.getType = LedgerEntryType.ltDIR_NODE ∧
              e.isFieldPresent SField.sfExchangeRate = true ∧ some root = some cur :=
            ⟨hq.1, hq.2, by rw [hrc]⟩
          rw [if_pos hcond]
          simp only [Option.toList]
          have hadd := hinv.add ⟨getBookBase ci ii co io, ci, co, ii, io⟩ rfl
          by_cases hs : getBookBase ci ii co io ∈ mSeen
          · simp only [hs, if_true] at hadd
            rw [if_pos hs] at h
            cases h
            exact ⟨hadd, SameOutsideIndex.refl _⟩
          · simp only [hs, if_false] at hadd
            rw [if_neg hs] at h
            by_cases hc : OrderBook.getCurrencyIn ⟨getBookBase ci ii co io, ci, co, ii, io⟩ = 0
            · simp only [hc, if_true] at hadd
              rw [if_pos hc] at h
              cases h
              exact ⟨hadd, rfl, rfl, rfl, rfl⟩
            · simp only [hc, if_false] at hadd
              rw [if_neg hc] at h
              cases h
              exact ⟨hadd, rfl, rfl, rfl, rfl⟩
      · rw [if_neg hrc] at h
        cases h
        have hcond : ¬ (e.getType = LedgerEntryType.ltDIR_NODE ∧
              e.isFieldPresent SField.sfExchangeRate = true ∧ some root = some cur) := by
          intro hh
          exact hrc (Option.some.inj hh.2.2)
        rw [if_neg hcond]
        exact ⟨hinv.skip, SameOutsideIndex.refl _⟩
  · rw [if_neg hq] at h
    cases h
    have hcond : ¬ (e.getType = LedgerEntryType.ltDIR_NODE ∧
        e.isFieldPresent SField.sfExchangeRate = true ∧
        e.getFieldH256 SField.sfRootIndex = some cur) := fun hh => hq ⟨hh.1, hh.2.1⟩
    rw [if_neg hcond]
    exact ⟨hinv.skip, SameOutsideIndex.refl _⟩

theorem chainRoots_succ (getBookBase : uint160 → uint160 → uint160 → uint160 → uint256)
    (ledger : Ledger) (n : Nat) (cur : uint256) (h : cur ≠ 0) :
    chainRoots getBookBase ledger (n + 1) cur =
      (rootBookAt getBookBase ledger cur).toList ++
        chainRoots getBookBase ledger n (ledger.getNextLedgerIndex cur) := by
  unfold chainRoots
  rw [chainFrom, if_neg h, List.filterMap_cons]
  cases rootBookAt getBookBase ledger cur <;> simp [Option.toList]

theorem chainRoots_zero (getBookBase : uint160 → uint160 → uint160 → uint160 → uint256)
    (ledger : Ledger) (n : Nat) : chainRoots getBookBase ledger n 0 = [] := by
  cases n <;> simp [chainRoots, chainFrom]

/-- The loop of `setup` keeps the invariant whatever way it ends, and when it
returns the Books made are the first per base of the qualifying entries. -/
theorem setupLoop_spec (getBookBase : uint160 → uint160 → uint160 → uint160 → uint256)
    (ledger : Ledger) :
    ∀ (fuel : Nat) (cur : uint256) (mSeen : List uint256) (db : OrderBookDB)
      (kept earlier : List OrderBook) (db2 : OrderBookDB) (out : Outcome),
      LoopInv getBookBase kept earlier mSeen db →
      setupLoop getBookBase ledger fuel cur mSeen db = some (db2, out) →
      ∃ kept2, HoldsExactly db2 kept2 ∧ (∀ b ∈ kept2, WellBased getBookBase b) ∧
        (kept2.map OrderBook.mBookBase).Nodup ∧
        SameOutsideIndex db db2 ∧
        (out = Outcome.returned →
          kept2 = kept ++ firstPerBaseAfter earlier (chainRoots getBookBase ledger fuel cur)) := by
  intro fuel
  induction fuel with
  | zero =>
    intro cur mSeen db kept earlier db2 out hinv h
    rw [setupLoop] at h
    by_cases hc : cur = 0
    · rw [if_pos hc] at h
      cases h
      refine ⟨kept, hinv.holds, hinv.based, hinv.nodup, SameOutsideIndex.refl _, ?_⟩
      intro _
      simp [chainRoots, chainFrom, firstPerBaseAfter]
    · rw [if_neg hc] at h
      cases h
  | succ fuel ih =>
    intro cur mSeen db kept earlier db2 out hinv h
    rw [setupLoop] at h
    by_cases hc : cur = 0
    · rw [if_pos hc] at h
      cases h
      refine ⟨kept, hinv.holds, hinv.based, hinv.nodup, SameOutsideIndex.refl _, ?_⟩
      intro _
      rw [hc, chainRoots_zero]
      simp [firstPerBaseAfter]
    · rw [if_neg hc] at h
      cases he : ledger.getSLEi cur with
      | none =>
        rw [he] at h
        simp only at h
        cases h
        exact ⟨kept, hinv.holds, hinv.based, hinv.nodup, SameOutsideIndex.refl _, by intro hh; cases hh⟩
      | some e =>
        rw [he] at h
        simp only at h
        cases hv : setupVisit getBookBase cur e mSeen db with
        | none =>
          rw [hv] at h
          simp only at h
          cases h
          exact ⟨kept, hinv.holds, hinv.based, hinv.nodup, SameOutsideIndex.refl _, by intro hh; cases hh⟩
        | some r =>
          obtain ⟨mSeen2, db3⟩ := r
          rw [hv] at h
          simp only at h
          obtain ⟨hinv2, hsame⟩ := setupVisit_spec getBookBase cur e hinv hv
          obtain ⟨kept2, hh, hb, hn, hs, hr⟩ := ih _ _ _ _ _ _ _ hinv2 h
          refine ⟨kept2, hh, hb, hn, hsame.trans hs, ?_⟩
          intro ho
          rw [hr ho, chainRoots_succ getBookBase ledger fuel cur hc, firstPerBaseAfter_append,
            List.append_assoc]
          simp [rootBookAt, he]

theorem chainFrom_mono (ledger : Ledger) :
    ∀ (n m : Nat) (cur : uint256), (ledger.getNextLedgerIndex^[n]) cur = 0 → n ≤ m →
      chainFrom ledger m cur = chainFrom ledger n cur := by
  intro n
  induction n with
  | zero =>
    intro m cur h _
    have hc : cur = 0 := by simpa using h
    cases m <;> simp [chainFrom, hc]
  | succ n ih =>
    intro m cur h hm
    obtain ⟨m, rfl⟩ : ∃ k, m = k + 1 := ⟨m - 1, by omega⟩
    rw [chainFrom, chainFrom]
    by_cases hc : cur = 0
    · simp [hc]
    · rw [if_neg hc, if_neg hc]
      rw [Function.iterate_succ_apply] at h
      rw [ih m _ h (by omega)]

theorem setupVisit_readable (getBookBase : uint160 → uint160 → uint160 → uint160 → uint256)
    (ledger : Ledger) (n : Nat) (cur : uint256) (hc : cur ≠ 0)
    (hr : readableFrom ledger (n + 1) cur = true) :
    ∃ e, ledger.getSLEi cur = some e ∧
      (∀ mSeen db, ∃ r, setupVisit getBookBase cur e mSeen db = some r) ∧
      readableFrom ledger n (ledger.getNextLedgerIndex cur) = true := by
  rw [readableFrom, if_neg hc] at hr
  cases he : ledger.getSLEi cur with
  | none => rw [he] at hr; simp at hr
  | some e =>
    rw [he] at hr
    simp only [Bool.and_eq_true] at hr
    refine ⟨e, rfl, ?_, hr.2⟩
    intro mSeen db
    have h1 := hr.1
    unfold setupVisit
    by_cases hq : e.getType = LedgerEntryType.ltDIR_NODE ∧
        e.isFieldPresent SField.sfExchangeRate = true
    · rw [if_pos hq] at h1 ⊢
      cases hroot : e.getFieldH256 SField.sfRootIndex with
      | none => rw [hroot] at h1; simp at h1
      | some root =>
        rw [hroot] at h1
        simp only at h1 ⊢
        by_cases hrc : root = cur
        · rw [if_pos hrc] at h1 ⊢
          simp only [Bool.and_eq_true, Option.isSome_iff_exists] at h1
          obtain ⟨⟨⟨⟨ci, h1⟩, ⟨co, h2⟩⟩, ⟨ii, h3⟩⟩, ⟨io, h4⟩⟩ := h1
          rw [h1, h2, h3, h4]
          simp only
          split
          · exact ⟨_, rfl⟩
          · split <;> exact ⟨_, rfl⟩
        · rw [if_neg hrc]
          exact ⟨_, rfl⟩
    · rw [if_neg hq]
      exact ⟨_, rfl⟩

/-- The loop of `setup` returns when the chain reaches zero within the bound
and everything read on the way can be read. -/
theorem setupLoop_returns (getBookBase : uint160 → uint160 → uint160 → uint160 → uint256)
    (ledger : Ledger) :
    ∀ (n fuel : Nat) (cur : uint256) (mSeen : List uint256) (db : OrderBookDB),
      (ledger.getNextLedgerIndex^[n]) cur = 0 → readableFrom ledger n cur = true → n ≤ fuel →
      ∃ db2, setupLoop getBookBase ledger fuel cur mSeen db = some (db2, Outcome.returned) := by
  intro n
  induction n with
  | zero =>
    intro fuel cur mSeen db h _ _
    have hc : cur = 0 := by simpa using h
    cases fuel <;> exact ⟨db, by simp [setupLoop, hc]⟩
  | succ n ih =>
    intro fuel cur mSeen db h hr hf
    obtain ⟨fuel, rfl⟩ : ∃ k, fuel = k + 1 := ⟨fuel - 1, by omega⟩
    by_cases hc : cur = 0
    · exact ⟨db, by simp [setupLoop, hc]⟩
    · obtain ⟨e, he, hv, hr2⟩ := setupVisit_readable getBookBase ledger n cur hc hr
      obtain ⟨⟨mSeen2, db3⟩, hv2⟩ := hv mSeen db
      rw [Function.iterate_succ_apply] at h
      obtain ⟨db2, h2⟩ := ih fuel _ mSeen2 db3 h hr2 (by omega)
      refine ⟨db2, ?_⟩
      rw [setupLoop, if_neg hc, he]
      simp only [hv2]
      exact h2

/-- The loop of `setup` ends, in one way or another, when the chain reaches
zero within the bound. -/
theorem setupLoop_ends (getBookBase : uint160 → uint160 → uint160 → uint160 → uint256)
    (ledger : Ledger) :
    ∀ (n fuel : Nat) (cur : uint256) (mSeen : List uint256) (db : OrderBookDB),
      (ledger.getNextLedgerIndex^[n]) cur = 0 → n ≤ fuel →
      ∃ r, setupLoop getBookBase ledger fuel cur mSeen db = some r := by
  intro n
  induction n with
  | zero =>
    intro fuel cur mSeen db h _
    have hc : cur = 0 := by simpa using h
    cases fuel <;> simp [setupLoop, hc]
  | succ n ih =>
    intro fuel cur mSeen db h hf
    obtain ⟨fuel, rfl⟩ : ∃ k, fuel = k + 1 := ⟨fuel - 1, by omega⟩
    by_cases hc : cur = 0
    · simp [setupLoop, hc]
    · rw [setupLoop, if_neg hc]
      cases he : ledger.getSLEi cur with
      | none => exact ⟨_, rfl⟩
      | some e =>
        simp only
        cases hv : setupVisit getBookBase cur e mSeen db with
        | none => exact ⟨_, rfl⟩
        | some r =>
          obtain ⟨mSeen2, db3⟩ := r
          simp only
          rw [Function.iterate_succ_apply] at h
          exact ih fuel _ mSeen2 db3 h (by omega)

theorem setupVisit_reframe (getBookBase : uint160 → uint160 → uint160 → uint160 → uint256)
    (l : ListenerTree) (o : Nat → BookListeners) (k : Nat)
    (cur : uint256) (e : SLE) (mSeen : List uint256) (db : OrderBookDB) :
    setupVisit getBookBase cur e mSeen (reframe l o k db) =
      (setupVisit getBookBase cur e mSeen db).map (fun r => (r.1, reframe l o k r.2)) := by
  unfold setupVisit
  repeat' split
  all_goals first | rfl | (dsimp only; split_ifs <;> rfl)

theorem setupLoop_reframe (getBookBase : uint160 → uint160 → uint160 → uint160 → uint256)
    (ledger : Ledger) (l : ListenerTree) (o : Nat → BookListeners) (k : Nat) :
    ∀ (fuel : Nat) (cur : uint256) (mSeen : List uint256) (db : OrderBookDB),
      setupLoop getBookBase ledger fuel cur mSeen (reframe l o k db) =
        (setupLoop getBookBase ledger fuel cur mSeen db).map (fun r => (reframe l o k r.1, r.2)) := by
  intro fuel
  induction fuel with
  | zero =>
    intro cur mSeen db
    rw [setupLoop, setupLoop]
    split <;> rfl
  | succ fuel ih =>
    intro cur mSeen db
    rw [setupLoop, setupLoop]
    by_cases hc : cur = 0
    · rw [if_pos hc, if_pos hc]; rfl
    · rw [if_neg hc, if_neg hc]
      cases he : ledger.getSLEi cur with
      | none => rfl
      | some e =>
        simp only
        rw [setupVisit_reframe]
        cases hv : setupVisit getBookBase cur e mSeen db with
        | none => rfl
        | some r =>
          obtain ⟨mSeen2, db3⟩ := r
          simp only [Option.map_some']
          exact ih _ _ _

theorem bucketsOf_nil : bucketsOf [] = fun _ => none := by
  funext i
  simp [bucketsOf, bucketOf]

/-- What `setup` leaves after a rescan, whatever way it ends. -/
theorem setup_spec (getBookBase : uint160 → uint160 → uint160 → uint160 → uint256)
    (fuel : Nat) (db : OrderBookDB) (ledger : Ledger) (db2 : OrderBookDB) (out : Outcome)
    (hseq : ledger.getLedgerSeq ≠ db.mSeq)
    (h : db.setup getBookBase fuel ledger = some (db2, out)) :
    ∃ kept, HoldsExactly db2 kept ∧ (∀ b ∈ kept, WellBased getBookBase b) ∧
      (kept.map OrderBook.mBookBase).Nodup ∧ db2.mSeq = ledger.getLedgerSeq ∧
      db2.mListeners = db.mListeners ∧ db2.objs = db.objs ∧ db2.nextObj = db.nextObj ∧
      (out = Outcome.returned → kept = specBooks getBookBase ledger fuel) := by
  unfold OrderBookDB.setup at h
  rw [if_neg hseq] at h
  have hinv : LoopInv getBookBase [] [] []
      { db with mSeq := ledger.getLedgerSeq, mXRPOrders := [], mIssuerMap := fun _ => none } :=
    ⟨⟨rfl, bucketsOf_nil.symm⟩, by simp, by simp, by simp, by simp⟩
  obtain ⟨kept, hh, hb, hn, hs, hr⟩ := setupLoop_spec getBookBase ledger _ _ _ _ _ _ _ _ hinv h
  refine ⟨kept, hh, hb, hn, hs.1, hs.2.1, hs.2.2.1, hs.2.2.2, ?_⟩
  intro ho
  rw [hr ho]
  rfl

/-- C1 (as stated, refuted): the sequence of `ledgerBroken` differs from that of
a new index and its chain reaches zero, and the description gives the USD/rA to
native Book for it; but `setup` never ends with the index holding that Book,
since the read of an identity field of the first root raises before the second
root is visited. -/
theorem setup_rebuilds_counterexample :
    ledgerBroken.getLedgerSeq ≠ OrderBookDB.new.mSeq ∧
    (ledgerBroken.getNextLedgerIndex^[2]) ledgerBroken.getFirstLedgerIndex = 0 ∧
    specBooks gbbEx ledgerBroken 2 = [bookUSD] ∧
    ¬ ∃ fuel db2 out, OrderBookDB.new.setup gbbEx fuel ledgerBroken = some (db2, out) ∧
        HoldsExactly db2 (specBooks gbbEx ledgerBroken 2) := by
  refine ⟨by decide, by decide, by decide, ?_⟩
  rintro ⟨fuel, db2, out, h, hh⟩
  have hs : specBooks gbbEx ledgerBroken 2 = [bookUSD] := by decide
  rw [hs] at hh
  have h9 := congrFun hh.2 9
  cases fuel with
  | zero => simp [OrderBookDB.setup, OrderBookDB.new, ledgerBroken, setupLoop] at h
  | succ n =>
    simp [OrderBookDB.setup, OrderBookDB.new, ledgerBroken, setupLoop, setupVisit,
      brokenRootEntry] at h
    rw [← h.1] at h9
    revert h9
    decide

/-- C1 (amended): for every index state and every ledger snapshot whose sequence
differs from `mSeq`, whose next-index chain from the first index reaches zero
within `n` steps, and in which every index on the chain resolves to an entry
whose fields `setup` reads can be read, `setup` returns, leaves `mSeq` equal to
the ledger's sequence, and leaves the index holding exactly the first Book per
derived base of the qualifying entries in chain order, whatever the index held
before; the registry is not touched. -/
theorem setup_rebuilds (getBookBase : uint160 → uint160 → uint160 → uint160 → uint256)
    (db : OrderBookDB) (ledger : Ledger) (n fuel : Nat)
    (hseq : ledger.getLedgerSeq ≠ db.mSeq)
    (hchain : (ledger.getNextLedgerIndex^[n]) ledger.getFirstLedgerIndex = 0)
    (hread : readableFrom ledger n ledger.getFirstLedgerIndex = true)
    (hfuel : n ≤ fuel) :
    ∃ db2, db.setup getBookBase fuel ledger = some (db2, Outcome.returned) ∧
      db2.mSeq = ledger.getLedgerSeq ∧
      HoldsExactly db2 (specBooks getBookBase ledger n) ∧
      db2.mListeners = db.mListeners ∧ db2.objs = db.objs ∧ db2.nextObj = db.nextObj := by
  obtain ⟨db2, h2⟩ := setupLoop_returns getBookBase ledger n fuel ledger.getFirstLedgerIndex []
    { db with mSeq := ledger.getLedgerSeq, mXRPOrders := [], mIssuerMap := fun _ => none }
    hchain hread hfuel
  have hset : db.setup getBookBase fuel ledger = some (db2, Outcome.returned) := by
    unfold OrderBookDB.setup
    rw [if_neg hseq]
    exact h2
  obtain ⟨kept, hh, _, _, hs, hl, ho, hn, hk⟩ :=
    setup_spec getBookBase fuel db ledger db2 Outcome.returned hseq hset
  refine ⟨db2, hset, hs, ?_, hl, ho, hn⟩
  have hk2 := hk rfl
  unfold specBooks chainRoots at hk2 ⊢
  rw [chainFrom_mono ledger n fuel _ hchain hfuel] at hk2
  rw [← hk2]
  exact hh

/-- C1 (amended), on a concrete input: the index built from ledger 4 is
replaced by the two Books of `ledgerEx`. -/
theorem setup_rebuilds_witness :
    ∃ db2, dbOld.setup gbbEx 3 ledgerEx = some (db2, Outcome.returned) ∧
      db2.mSeq = ledgerEx.getLedgerSeq ∧
      HoldsExactly db2 (specBooks gbbEx ledgerEx 3) ∧
      db2.mListeners = dbOld.mListeners ∧ db2.objs = dbOld.objs ∧
      db2.nextObj = dbOld.nextObj :=
  setup_rebuilds gbbEx dbOld ledgerEx 3 3 (by decide) (by decide) (by decide) (by decide)

theorem getBooks_of_holds {db : OrderBookDB} {kept : List OrderBook} (h : HoldsExactly db kept)
    (i : uint160) : db.getBooks i = bucketOf kept i := by
  unfold OrderBookDB.getBooks
  rw [h.2]
  unfold bucketsOf
  by_cases he : bucketOf kept i = []
  · simp [he]
  · simp [he]

theorem nodup_of_nodup_base {kept : List OrderBook} (h : (kept.map OrderBook.mBookBase).Nodup) :
    kept.Nodup :=
  List.Nodup.of_map _ h

theorem mem_nativeOf {kept : List OrderBook} {b : OrderBook} :
    b ∈ nativeOf kept ↔ b ∈ kept ∧ b.mCurrencyIn = 0 := by
  simp [nativeOf]

theorem mem_bucketOf {kept : List OrderBook} {b : OrderBook} {i : uint160} :
    b ∈ bucketOf kept i ↔ b ∈ kept ∧ b.mCurrencyIn ≠ 0 ∧ b.mIssuerIn = i := by
  simp [bucketOf]

theorem count_bucketOf {kept : List OrderBook} (b : OrderBook) (i : uint160) :
    (bucketOf kept i).count b =
      if b.mCurrencyIn ≠ 0 ∧ b.mIssuerIn = i then kept.count b else 0 := by
  unfold bucketOf
  by_cases h : b.mCurrencyIn ≠ 0 ∧ b.mIssuerIn = i
  · rw [if_pos h]
    exact List.count_filter (by simpa using h)
  · rw [if_neg h]
    apply List.count_eq_zero_of_not_mem
    intro hm
    exact h (by simpa using (List.mem_filter.1 hm).2)

/-- C2: after a build that rescans, whatever way it ends, every Book in the
index is in `mXRPOrders` if and only if its input currency is zero, and every
other Book is once in the bucket of its own input issuer and in no other
bucket; and when the build returns, every Book of the description is in the
index. -/
theorem setup_partition (getBookBase : uint160 → uint160 → uint160 → uint160 → uint256)
    (fuel : Nat) (db : OrderBookDB) (ledger : Ledger) (db2 : OrderBookDB) (out : Outcome)
    (hseq : ledger.getLedgerSeq ≠ db.mSeq)
    (h : db.setup getBookBase fuel ledger = some (db2, out)) :
    (∀ b, (b ∈ db2.mXRPOrders ∨ ∃ i, b ∈ db2.getBooks i) →
      (b ∈ db2.mXRPOrders ↔ b.getCurrencyIn = 0) ∧
      (b.getCurrencyIn = 0 → ∀ i, b ∉ db2.getBooks i) ∧
      (b.getCurrencyIn ≠ 0 →
        ∀ i, (db2.getBooks i).count b = if i = b.getIssuerIn then 1 else 0)) ∧
    (out = Outcome.returned → ∀ b ∈ specBooks getBookBase ledger fuel,
      b ∈ db2.mXRPOrders ∨ b ∈ db2.getBooks b.getIssuerIn) := by
  obtain ⟨kept, hh, _, hn, _, _, _, _, hk⟩ := setup_spec getBookBase fuel db ledger db2 out hseq h
  have hnd : kept.Nodup := nodup_of_nodup_base hn
  constructor
  · intro b hb
    have hmem : b ∈ kept := by
      rcases hb with hb | ⟨i, hb⟩
      · rw [hh.1] at hb
        exact (mem_nativeOf.1 hb).1
      · rw [getBooks_of_holds hh] at hb
        exact (mem_bucketOf.1 hb).1
    refine ⟨?_, ?_, ?_⟩
    · rw [hh.1, mem_nativeOf]
      exact ⟨fun hx => hx.2, fun hx => ⟨hmem, hx⟩⟩
    · intro hc i hi
      rw [getBooks_of_holds hh] at hi
      exact (mem_bucketOf.1 hi).2.1 hc
    · intro hc i
      have hc2 : b.mCurrencyIn ≠ 0 := hc
      rw [getBooks_of_holds hh, count_bucketOf]
      by_cases hi : i = b.getIssuerIn
      · have hi2 : b.mIssuerIn = i := hi.symm
        rw [if_pos ⟨hc2, hi2⟩, if_pos hi]
        exact List.count_eq_one_of_mem hnd hmem
      · have hi2 : ¬ b.mIssuerIn = i := fun e => hi e.symm
        rw [if_neg (fun hx => hi2 hx.2), if_neg hi]
  · intro ho b hb
    rw [← hk ho] at hb
    by_cases hc : b.mCurrencyIn = 0
    · left
      rw [hh.1]
      exact mem_nativeOf.2 ⟨hb, hc⟩
    · right
      rw [getBooks_of_holds hh]
      exact mem_bucketOf.2 ⟨hb, hc, rfl⟩

/-- C2 on a concrete input: in the index built from `ledgerEx` the USD/rA to
native Book is not in the native list and is once in the bucket of issuer 9,
and in no other bucket. -/
theorem setup_partition_witness :
    (bookUSD ∈ dbEx.mXRPOrders ↔ bookUSD.getCurrencyIn = 0) ∧
    (bookUSD.getCurrencyIn = 0 → ∀ i, bookUSD ∉ dbEx.getBooks i) ∧
    (bookUSD.getCurrencyIn ≠ 0 →
      ∀ i, (dbEx.getBooks i).count bookUSD = if i = bookUSD.getIssuerIn then 1 else 0) :=
  (setup_partition gbbEx 3 dbOld ledgerEx dbEx Outcome.returned (by decide) rfl).1 bookUSD
    (Or.inr ⟨9, by decide⟩)

theorem count_nativeOf {kept : List OrderBook} (b : OrderBook) :
    (nativeOf kept).count b = if b.mCurrencyIn = 0 then kept.count b else 0 := by
  unfold nativeOf
  by_cases h : b.mCurrencyIn = 0
  · rw [if_pos h]
    exact List.count_filter (by simpa using h)
  · rw [if_neg h]
    apply List.count_eq_zero_of_not_mem
    intro hm
    exact h (by simpa using (List.mem_filter.1 hm).2)

theorem firstPerBaseAfter_subset (earlier l : List OrderBook) :
    ∀ b ∈ firstPerBaseAfter earlier l, b ∈ l := by
  induction l generalizing earlier with
  | nil => intro b hb; simp [firstPerBaseAfter] at hb
  | cons x xs ih =>
    intro b hb
    rw [firstPerBaseAfter] at hb
    split at hb
    · exact List.mem_cons_of_mem _ (ih _ b hb)
    · rcases List.mem_cons.1 hb with hb | hb
      · rw [hb]; exact List.mem_cons_self _ _
      · exact List.mem_cons_of_mem _ (ih _ b hb)

theorem firstPerBaseAfter_covers (earlier l : List OrderBook) :
    ∀ b ∈ l, b.mBookBase ∈ earlier.map OrderBook.mBookBase ∨
      b.mBookBase ∈ (firstPerBaseAfter earlier l).map OrderBook.mBookBase := by
  induction l generalizing earlier with
  | nil => intro b hb; cases hb
  | cons x xs ih =>
    intro b hb
    rw [firstPerBaseAfter]
    by_cases hx : x.mBookBase ∈ earlier.map OrderBook.mBookBase
    · rw [if_pos hx]
      rcases List.mem_cons.1 hb with hb | hb
      · left; rw [hb]; exact hx
      · rcases ih (earlier ++ [x]) b hb with h | h
        · simp only [List.map_append, List.mem_append, List.map_cons, List.map_nil,
            List.mem_singleton] at h
          rcases h with h | h
          · left; exact h
          · left; rw [h]; exact hx
        · right; exact h
    · rw [if_neg hx]
      rcases List.mem_cons.1 hb with hb | hb
      · right; rw [hb]; simp
      · rcases ih (earlier ++ [x]) b hb with h | h
        · simp only [List.map_append, List.mem_append, List.map_cons, List.map_nil,
            List.mem_singleton] at h
          rcases h with h | h
          · left; exact h
          · right; rw [h]; simp
        · right
          simp only [List.map_cons, List.mem_cons]
          right; exact h

theorem OrderBook.eq_of_base_identity {a b : OrderBook} (hb : a.mBookBase = b.mBookBase)
    (hi : a.identity = b.identity) : a = b := by
  cases a
  cases b
  simp only [OrderBook.identity, Prod.mk.injEq] at hi
  simp only at hb
  simp [hb, hi.1, hi.2.1, hi.2.2.1, hi.2.2.2]

theorem WellBased.base_eq {getBookBase : uint160 → uint160 → uint160 → uint160 → uint256}
    {a b : OrderBook} (ha : WellBased getBookBase a) (hb : WellBased getBookBase b)
    (hi : a.identity = b.identity) : a.mBookBase = b.mBookBase := by
  unfold WellBased at ha hb
  simp only [OrderBook.identity, Prod.mk.injEq] at hi
  rw [ha, hb, hi.1, hi.2.1, hi.2.2.1, hi.2.2.2]

theorem nodup_identity {getBookBase : uint160 → uint160 → uint160 → uint160 → uint256}
    {kept : List OrderBook} (hb : ∀ b ∈ kept, WellBased getBookBase b)
    (hn : (kept.map OrderBook.mBookBase).Nodup) : (kept.map OrderBook.identity).Nodup := by
  have hnd : kept.Nodup := List.Nodup.of_map _ hn
  rw [List.nodup_map_iff_inj_on hnd]
  intro x hx y hy hxy
  exact OrderBook.eq_of_base_identity (WellBased.base_eq (hb x hx) (hb y hy) hxy) hxy

theorem filter_identity_length {getBookBase : uint160 → uint160 → uint160 → uint160 → uint256}
    {kept l : List OrderBook} (hb : ∀ b ∈ kept, WellBased getBookBase b) (hl : ∀ c ∈ l, c ∈ kept)
    {b : OrderBook} (hbk : b ∈ kept) :
    (l.filter (fun c => decide (c.identity = b.identity))).length = l.count b := by
  rw [List.count_eq_countP, List.countP_eq_length_filter]
  congr 1
  apply List.filter_congr
  intro c hc
  have : c.identity = b.identity ↔ c = b := by
    constructor
    · intro hi
      exact OrderBook.eq_of_base_identity (WellBased.base_eq (hb c (hl c hc)) (hb b hbk) hi) hi
    · intro h; rw [h]
  by_cases hcb : c = b
  · simp [hcb]
  · have hne : ¬ c.identity = b.identity := fun hi => hcb (this.1 hi)
    simp [hcb, hne]

/-- C3: after a build that rescans, whatever way it ends, no two Books of the
index (the native list and all buckets together) have the same four identity
fields; and when the build returns, a four-tuple that qualifying roots on the
chain encode, two or more of them as well, has exactly one Book in the index,
given that no root on the chain with another four-tuple derives the same
base. -/
theorem setup_unique_identity (getBookBase : uint160 → uint160 → uint160 → uint160 → uint256)
    (fuel : Nat) (db : OrderBookDB) (ledger : Ledger) (db2 : OrderBookDB) (out : Outcome)
    (hseq : ledger.getLedgerSeq ≠ db.mSeq)
    (h : db.setup getBookBase fuel ledger = some (db2, out)) :
    (db2.mXRPOrders.map OrderBook.identity).Nodup ∧
    (∀ i, ((db2.getBooks i).map OrderBook.identity).Nodup) ∧
    (∀ i, ∀ a ∈ db2.mXRPOrders, ∀ b ∈ db2.getBooks i, a.identity ≠ b.identity) ∧
    (∀ i j, i ≠ j → ∀ a ∈ db2.getBooks i, ∀ b ∈ db2.getBooks j, a.identity ≠ b.identity) ∧
    (out = Outcome.returned →
      ∀ b ∈ chainRoots getBookBase ledger fuel ledger.getFirstLedgerIndex,
        (∀ c ∈ chainRoots getBookBase ledger fuel ledger.getFirstLedgerIndex,
          c.mBookBase = b.mBookBase → c.identity = b.identity) →
        (db2.mXRPOrders.filter (fun c => decide (c.identity = b.identity))).length +
          ((db2.getBooks b.mIssuerIn).filter (fun c => decide (c.identity = b.identity))).length
            = 1 ∧
        ∀ i, i ≠ b.mIssuerIn →
          (db2.getBooks i).filter (fun c => decide (c.identity = b.identity)) = []) := by
  obtain ⟨kept, hh, hb, hn, _, _, _, _, hk⟩ := setup_spec getBookBase fuel db ledger db2 out hseq h
  have hid : (kept.map OrderBook.identity).Nodup := nodup_identity hb hn
  have hnd : kept.Nodup := nodup_of_nodup_base hn
  refine ⟨?_, ?_, ?_, ?_, ?_⟩
  · rw [hh.1]
    exact hid.sublist (List.Sublist.map _ (List.filter_sublist _))
  · intro i
    rw [getBooks_of_holds hh]
    exact hid.sublist (List.Sublist.map _ (List.filter_sublist _))
  · intro i a ha b hb2 hab
    rw [hh.1] at ha
    rw [getBooks_of_holds hh] at hb2
    have h1 := (mem_nativeOf.1 ha).2
    have h2 := (mem_bucketOf.1 hb2).2.1
    simp only [OrderBook.identity, Prod.mk.injEq] at hab
    exact h2 (hab.1 ▸ h1)
  · intro i j hij a ha b hb2 hab
    rw [getBooks_of_holds hh] at ha hb2
    have h1 := (mem_bucketOf.1 ha).2.2
    have h2 := (mem_bucketOf.1 hb2).2.2
    simp only [OrderBook.identity, Prod.mk.injEq] at hab
    exact hij (h1.symm.trans (hab.2.1.trans h2))
  · intro ho b hbr hcol
    have hkept : kept = firstPerBase (chainRoots getBookBase ledger fuel
        ledger.getFirstLedgerIndex) := hk ho
    have hsub : ∀ c ∈ kept, c ∈ chainRoots getBookBase ledger fuel ledger.getFirstLedgerIndex := by
      rw [hkept]
      exact firstPerBaseAfter_subset [] _
    have hbk : b ∈ kept := by
      rcases firstPerBaseAfter_covers [] _ b hbr with hx | hx
      · simp at hx
      · obtain ⟨c, hc, hcb⟩ := List.mem_map.1 hx
        have hc2 : c ∈ kept := by rw [hkept]; exact hc
        have : c = b := OrderBook.eq_of_base_identity hcb (hcol c (hsub c hc2) hcb)
        rw [← this]
        exact hc2
    have hone : kept.count b = 1 := List.count_eq_one_of_mem hnd hbk
    constructor
    · rw [hh.1, getBooks_of_holds hh,
        filter_identity_length hb (fun c hc => (mem_nativeOf.1 hc).1) hbk,
        filter_identity_length hb (fun c hc => (mem_bucketOf.1 hc).1) hbk,
        count_nativeOf, count_bucketOf]
      by_cases hc : b.mCurrencyIn = 0
      · simp [hc, hone]
      · simp [hc, hone]
    · intro i hi
      rw [getBooks_of_holds hh]
      apply List.filter_eq_nil_iff.2
      intro c hc hci
      have hci2 : c.identity = b.identity := by simpa using hci
      have h1 := (mem_bucketOf.1 hc).2.2
      simp only [OrderBook.identity, Prod.mk.injEq] at hci2
      exact hi (h1.symm.trans hci2.2.1)

/-- C3 on a concrete input: `ledgerEx` has two roots for the USD/rA to native
book, and the index built from it has one Book for it. -/
theorem setup_unique_identity_witness :
    (dbEx.mXRPOrders.filter (fun c => decide (c.identity = bookUSD.identity))).length +
      ((dbEx.getBooks bookUSD.mIssuerIn).filter
        (fun c => decide (c.identity = bookUSD.identity))).length = 1 ∧
    ∀ i, i ≠ bookUSD.mIssuerIn →
      (dbEx.getBooks i).filter (fun c => decide (c.identity = bookUSD.identity)) = [] :=
  (setup_unique_identity gbbEx 3 dbOld ledgerEx dbEx Outcome.returned (by decide) rfl).2.2.2.2
    rfl bookUSD (by decide) (by decide)

/-- C4: when the ledger's sequence equals `mSeq`, `setup` returns the state
unchanged for any bound on the loop, the bound zero included, so without
visiting an entry and whatever the ledger holds; hence a second `setup` with
the same ledger changes nothing after a first one that ended. -/
theorem setup_same_sequence_noop
    (getBookBase : uint160 → uint160 → uint160 → uint160 → uint256)
    (fuel : Nat) (db : OrderBookDB) (ledger : Ledger) (db2 : OrderBookDB) (out : Outcome)
    (h : db.setup getBookBase fuel ledger = some (db2, out)) :
    (∀ fuel2, db2.setup getBookBase fuel2 ledger = some (db2, Outcome.returned)) ∧
    (∀ (s : OrderBookDB) (other : Ledger) (fuel2 : Nat), other.getLedgerSeq = s.mSeq →
      s.setup getBookBase fuel2 other = some (s, Outcome.returned)) := by
  have hgen : ∀ (s : OrderBookDB) (other : Ledger) (fuel2 : Nat), other.getLedgerSeq = s.mSeq →
      s.setup getBookBase fuel2 other = some (s, Outcome.returned) := by
    intro s other fuel2 hs
    unfold OrderBookDB.setup
    rw [if_pos hs]
  refine ⟨?_, hgen⟩
  intro fuel2
  apply hgen
  by_cases hseq : ledger.getLedgerSeq = db.mSeq
  · unfold OrderBookDB.setup at h
    rw [if_pos hseq] at h
    cases h
    exact hseq
  · obtain ⟨_, _, _, _, hs, _⟩ := setup_spec getBookBase fuel db ledger db2 out hseq h
    exact hs.symm

/-- C4 on a concrete input: a second `setup` with `ledgerEx`. -/
theorem setup_same_sequence_noop_witness :
    (∀ fuel2, dbEx.setup gbbEx fuel2 ledgerEx = some (dbEx, Outcome.returned)) ∧
    (∀ (s : OrderBookDB) (other : Ledger) (fuel2 : Nat), other.getLedgerSeq = s.mSeq →
      s.setup gbbEx fuel2 other = some (s, Outcome.returned)) :=
  setup_same_sequence_noop gbbEx 3 dbOld ledgerEx dbEx Outcome.returned rfl

/-- C6 (as stated, refuted): in the index built from `ledgerEx` the bucket of
issuer 9 holds the Book with input currency 7 and output currency 0; the
lookup with currency 7 gives it and the lookup with currency 0 gives nothing,
where the filter on the output currency gives the opposite. -/
theorem getBooks3_counterexample :
    OrderBookDB.new.setup gbbEx 3 ledgerEx = some (dbEx, Outcome.returned) ∧
    dbEx.getBooks 9 = [bookUSD] ∧
    dbEx.getBooks3 9 7 [] = [bookUSD] ∧
    [] ++ (dbEx.getBooks 9).filter (fun b => decide (b.getCurrencyOut = 7)) = [] ∧
    dbEx.getBooks3 9 0 [] = [] ∧
    [] ++ (dbEx.getBooks 9).filter (fun b => decide (b.getCurrencyOut = 0)) = [bookUSD] :=
  ⟨rfl, by decide, by decide, by decide, by decide, by decide⟩

theorem foldl_push_filter (p : OrderBook → Prop) [DecidablePred p] (books : List OrderBook) :
    ∀ ret : List OrderBook,
      books.foldl (fun ret book => if p book then ret ++ [book] else ret) ret =
        ret ++ books.filter (fun b => decide (p b)) := by
  induction books with
  | nil => intro ret; simp
  | cons b bs ih =>
    intro ret
    rw [List.foldl_cons, ih]
    by_cases hp : p b
    · simp [hp, List.filter_cons]
    · simp [hp, List.filter_cons]

/-- C6 (amended): for every index state, issuer, currency and initial sink, the
three-argument `getBooks` leaves the sink equal to its initial contents
followed by exactly those Books of `getBooks(issuer)` whose input currency
equals the given currency, in the order they have there. -/
theorem getBooks3_filters_input_currency (db : OrderBookDB) (issuerID currencyID : uint160)
    (bookRet : List OrderBook) :
    db.getBooks3 issuerID currencyID bookRet =
      bookRet ++ (db.getBooks issuerID).filter (fun b => decide (b.getCurrencyIn = currencyID)) := by
  unfold OrderBookDB.getBooks3 OrderBookDB.getBooks
  cases db.mIssuerMap issuerID with
  | none => simp
  | some books => exact foldl_push_filter (fun b => b.getCurrencyIn = currencyID) books bookRet

theorem getBookListeners_setListener (db : OrderBookDB) (m : ListenerTree)
    (ci co ii io : uint160) (ret : Nat) (o : Nat → BookListeners) (k : Nat) :
    OrderBookDB.getBookListeners
      { db with objs := o, nextObj := k, mListeners := setListener m ci co ii io ret }
      ci co ii io = some ret := by
  simp [OrderBookDB.getBookListeners, setListener]

theorem subMapFind_assign (m : subMapType) (seq : Nat) (sub : InfoSub) :
    subMapFind (subMapAssign m seq sub) seq = some sub := by
  induction m with
  | nil => simp [subMapAssign, subMapFind]
  | cons e rest ih =>
    obtain ⟨k, v⟩ := e
    by_cases hk : k = seq
    · simp [subMapAssign, subMapFind, hk]
    · simp [subMapAssign, subMapFind, hk, ih]

theorem makeBookListeners_found (db : OrderBookDB) (ci co ii io : uint160) :
    (db.makeBookListeners ci co ii io).2.getBookListeners ci co ii io =
      some (db.makeBookListeners ci co ii io).1 := by
  unfold OrderBookDB.makeBookListeners
  cases hg : db.getBookListeners ci co ii io with
  | some ret => exact hg
  | none => exact getBookListeners_setListener db db.mListeners ci co ii io db.nextObj _ _

theorem makeBookListeners_of_found (db : OrderBookDB) (ci co ii io : uint160) (ret : Nat)
    (h : db.getBookListeners ci co ii io = some ret) :
    db.makeBookListeners ci co ii io = (ret, db) := by
  unfold OrderBookDB.makeBookListeners
  rw [h]

/-- C7: for every state and identity, `makeBookListeners` called twice returns
the same pointer both times and the second call leaves the state unchanged; a
call for an identity that has an entry returns that entry and leaves the whole
state, the listener map of the entry with it, as it was; a subscriber added
through the first pointer is in the listener map of the object reached through
the second pointer and through `getBookListeners`, whether the second call is
made before the subscriber is added or after it. -/
theorem makeBookListeners_twice (db : OrderBookDB) (ci co ii io : uint160) :
    ((db.makeBookListeners ci co ii io).2.makeBookListeners ci co ii io).1 =
      (db.makeBookListeners ci co ii io).1 ∧
    ((db.makeBookListeners ci co ii io).2.makeBookListeners ci co ii io).2 =
      (db.makeBookListeners ci co ii io).2 ∧
    (∀ sub : InfoSub,
      subMapFind
        ((((db.makeBookListeners ci co ii io).2.makeBookListeners ci co ii io).2.addSubscriber
            (db.makeBookListeners ci co ii io).1 sub).objs
          ((db.makeBookListeners ci co ii io).2.makeBookListeners ci co ii io).1).mListeners
        sub.getSeq = some sub ∧
      ∃ book,
        (((db.makeBookListeners ci co ii io).2.makeBookListeners ci co ii io).2.addSubscriber
          (db.makeBookListeners ci co ii io).1 sub).getBookListeners ci co ii io = some book ∧
        subMapFind
          ((((db.makeBookListeners ci co ii io).2.makeBookListeners ci co ii io).2.addSubscriber
            (db.makeBookListeners ci co ii io).1 sub).objs book).mListeners
          sub.getSeq = some sub) ∧
    (∀ ret, db.getBookListeners ci co ii io = some ret →
      db.makeBookListeners ci co ii io = (ret, db)) ∧
    (∀ sub : InfoSub,
      (((db.makeBookListeners ci co ii io).2.addSubscriber
          (db.makeBookListeners ci co ii io).1 sub).makeBookListeners ci co ii io) =
        ((db.makeBookListeners ci co ii io).1,
          (db.makeBookListeners ci co ii io).2.addSubscriber
            (db.makeBookListeners ci co ii io).1 sub) ∧
      subMapFind
        (((((db.makeBookListeners ci co ii io).2.addSubscriber
              (db.makeBookListeners ci co ii io).1 sub).makeBookListeners ci co ii io).2.objs
          (((db.makeBookListeners ci co ii io).2.addSubscriber
              (db.makeBookListeners ci co ii io).1 sub).makeBookListeners ci co ii io).1).mListeners)
        sub.getSeq = some sub ∧
      ∃ book,
        (((db.makeBookListeners ci co ii io).2.addSubscriber
            (db.makeBookListeners ci co ii io).1 sub).makeBookListeners
              ci co ii io).2.getBookListeners ci co ii io = some book ∧
        subMapFind
          (((((db.makeBookListeners ci co ii io).2.addSubscriber
              (db.makeBookListeners ci co ii io).1 sub).makeBookListeners ci co ii io).2.objs
            book).mListeners)
          sub.getSeq = some sub) := by
  have hf := makeBookListeners_found db ci co ii io
  have h2 : (db.makeBookListeners ci co ii io).2.makeBookListeners ci co ii io =
      ((db.makeBookListeners ci co ii io).1, (db.makeBookListeners ci co ii io).2) :=
    makeBookListeners_of_found _ ci co ii io _ hf
  have hs : ∀ sub : InfoSub, subMapFind
      (((db.makeBookListeners ci co ii io).2.addSubscriber
          (db.makeBookListeners ci co ii io).1 sub).objs
        (db.makeBookListeners ci co ii io).1).mListeners sub.getSeq = some sub := by
    intro sub
    simp [OrderBookDB.addSubscriber, BookListeners.addSubscriber, subMapFind_assign]
  have hfa : ∀ sub : InfoSub,
      ((db.makeBookListeners ci co ii io).2.addSubscriber
        (db.makeBookListeners ci co ii io).1 sub).getBookListeners ci co ii io =
        some (db.makeBookListeners ci co ii io).1 := fun _ => hf
  refine ⟨?_, ?_, ?_, ?_, ?_⟩
  · rw [h2]
  · rw [h2]
  · intro sub
    rw [h2]
    exact ⟨hs sub, _, hf, hs sub⟩
  · intro ret hret
    exact makeBookListeners_of_found db ci co ii io ret hret
  · intro sub
    have h3 := makeBookListeners_of_found _ ci co ii io _ (hfa sub)
    rw [h3]
    exact ⟨rfl, hs sub, _, hfa sub, hs sub⟩

/-- C7 on a concrete input: `dbSub` is `dbEx` after `makeBookListeners` for the
USD/rA to native book and `addSubscriber` of S; a further `makeBookListeners`
returns the same pointer and S is still in the listener map. -/
theorem makeBookListeners_twice_witness :
    dbSub.makeBookListeners 7 0 9 0 = ((dbEx.makeBookListeners 7 0 9 0).1, dbSub) ∧
    (dbEx.makeBookListeners 7 0 9 0).1 = 0 ∧
    ((dbSub.makeBookListeners 7 0 9 0).2.objs (dbSub.makeBookListeners 7 0 9 0).1).mListeners =
      [(7, subS)] ∧
    (dbSub.getBookListeners 7 0 9 0 = some 0 →
      dbSub.makeBookListeners 7 0 9 0 = (0, dbSub)) :=
  ⟨((makeBookListeners_twice dbEx 7 0 9 0).2.2.2.2 subS).1, by decide, by decide,
    (makeBookListeners_twice dbSub 7 0 9 0).2.2.2.1 0⟩

theorem processNode_frame {J : Type} (lock : InfoSub → Bool) (db : OrderBookDB)
    (node : STObject) (jvObj : J) (db2 : OrderBookDB) (sent : List (InfoSub × J))
    (h : processNode lock db node jvObj = some (db2, sent)) :
    db2.mListeners = db.mListeners ∧ db2.mSeq = db.mSeq ∧ db2.mXRPOrders = db.mXRPOrders ∧
      db2.mIssuerMap = db.mIssuerMap ∧ db2.nextObj = db.nextObj := by
  unfold processNode at h
  repeat' split at h
  all_goals first
    | (cases h; exact ⟨rfl, rfl, rfl, rfl, rfl⟩)
    | (simp at h)

theorem processNodes_frame {J : Type} (lock : InfoSub → Bool) (jvObj : J) :
    ∀ (nodes : List STObject) (db : OrderBookDB),
      (processNodes lock jvObj db nodes).1.mListeners = db.mListeners ∧
      (processNodes lock jvObj db nodes).1.mSeq = db.mSeq ∧
      (processNodes lock jvObj db nodes).1.mXRPOrders = db.mXRPOrders ∧
      (processNodes lock jvObj db nodes).1.mIssuerMap = db.mIssuerMap ∧
      (processNodes lock jvObj db nodes).1.nextObj = db.nextObj := by
  intro nodes
  induction nodes with
  | nil => intro db; exact ⟨rfl, rfl, rfl, rfl, rfl⟩
  | cons node rest ih =>
    intro db
    rw [processNodes]
    cases hp : processNode lock db node jvObj with
    | none => exact ih db
    | some r =>
      obtain ⟨db2, sent⟩ := r
      simp only
      obtain ⟨h1, h2, h3, h4, h5⟩ := processNode_frame lock db node jvObj db2 sent hp
      obtain ⟨i1, i2, i3, i4, i5⟩ := ih db2
      exact ⟨i1.trans h1, i2.trans h2, i3.trans h3, i4.trans h4, i5.trans h5⟩

theorem processNode_no_entry {J : Type} (lock : InfoSub → Bool) (db : OrderBookDB)
    (node : STObject) (jvObj : J)
    (h : ∀ ci ii co io, derivedIdentity node = some (ci, ii, co, io) →
      db.getBookListeners ci co ii io = none) :
    processNode lock db node jvObj = none ∨ processNode lock db node jvObj = some (db, []) := by
  unfold derivedIdentity at h
  unfold processNode selectField
  cases ht : node.getFieldU16 SField.sfLedgerEntryType with
  | none => left; rfl
  | some t =>
    simp only
    by_cases hto : t = LedgerEntryType.ltOFFER
    · subst hto
      rw [ht, if_pos rfl] at h
      rw [if_pos rfl]
      by_cases hm : node.getFName = SField.sfModifiedNode
      · simp only [hm, if_true] at h ⊢
        cases hd : node.peekAtPField SField.sfPreviousFields with
        | none => right; rfl
        | some data =>
          simp only [hd] at h ⊢
          cases hg : data.getFieldAmount SField.sfTakerGets with
          | none => left; rfl
          | some gets =>
            cases hpy : data.getFieldAmount SField.sfTakerPays with
            | none => left; rfl
            | some pays =>
              simp only [hg, hpy] at h ⊢
              rw [h _ _ _ _ rfl]
              right; rfl
      · by_cases hc : node.getFName = SField.sfCreatedNode
        · simp only [hc, if_true] at h ⊢
          simp only [show ¬ (SField.sfCreatedNode = SField.sfModifiedNode) by decide,
            if_false] at h ⊢
          cases hd : node.peekAtPField SField.sfNewFields with
          | none => right; rfl
          | some data =>
            simp only [hd] at h ⊢
            cases hg : data.getFieldAmount SField.sfTakerGets with
            | none => left; rfl
            | some gets =>
              cases hpy : data.getFieldAmount SField.sfTakerPays with
              | none => left; rfl
              | some pays =>
                simp only [hg, hpy] at h ⊢
                rw [h _ _ _ _ rfl]
                right; rfl
        · by_cases hdl : node.getFName = SField.sfDeletedNode
          · simp only [hdl, if_true] at h ⊢
            simp only [show ¬ (SField.sfDeletedNode = SField.sfModifiedNode) by decide,
              show ¬ (SField.sfDeletedNode = SField.sfCreatedNode) by decide, if_false] at h ⊢
            cases hd : node.peekAtPField SField.sfFinalFields with
            | none => right; rfl
            | some data =>
              simp only [hd] at h ⊢
              cases hg : data.getFieldAmount SField.sfTakerGets with
              | none => left; rfl
              | some gets =>
                cases hpy : data.getFieldAmount SField.sfTakerPays with
                | none => left; rfl
                | some pays =>
                  simp only [hg, hpy] at h ⊢
                  rw [h _ _ _ _ rfl]
                  right; rfl
          · right
            simp only [hm, hc, hdl, if_false]
    · rw [if_neg hto]
      right; rfl

theorem processNodes_no_entry {J : Type} (lock : InfoSub → Bool) (jvObj : J)
    (db : OrderBookDB) :
    ∀ nodes : List STObject,
      (∀ node ∈ nodes, ∀ ci ii co io, derivedIdentity node = some (ci, ii, co, io) →
        db.getBookListeners ci co ii io = none) →
      processNodes lock jvObj db nodes = (db, []) := by
  intro nodes
  induction nodes with
  | nil => intro _; rfl
  | cons node rest ih =>
    intro h
    have hrest := ih (fun n hn => h n (List.mem_cons_of_mem _ hn))
    rw [processNodes]
    rcases processNode_no_entry lock db node jvObj (h node (List.mem_cons_self _ _)) with hp | hp
    · rw [hp]; exact hrest
    · rw [hp]; simp only [hrest, List.append_nil]

/-- C8: for every state, result, node list and payload, `processTxn` leaves the
listener registry as it was, so that `getBookListeners`, which only reads the
state, answers every identity as before; and when no derived identity has a
registry entry it makes no send and returns the state unchanged. -/
theorem processTxn_keeps_registry {J : Type} (lock : InfoSub → Bool) (db : OrderBookDB)
    (alTx : ALTransaction) (jvObj : J) :
    (db.processTxn lock alTx jvObj).1.mListeners = db.mListeners ∧
    (∀ ci co ii io, (db.processTxn lock alTx jvObj).1.getBookListeners ci co ii io =
      db.getBookListeners ci co ii io) ∧
    ((∀ node ∈ alTx.getNodes, ∀ ci ii co io, derivedIdentity node = some (ci, ii, co, io) →
        db.getBookListeners ci co ii io = none) →
      db.processTxn lock alTx jvObj = (db, [])) := by
  have hl : (db.processTxn lock alTx jvObj).1.mListeners = db.mListeners := by
    unfold OrderBookDB.processTxn
    split
    · exact (processNodes_frame lock jvObj alTx.getNodes db).1
    · rfl
  refine ⟨hl, ?_, ?_⟩
  · intro ci co ii io
    unfold OrderBookDB.getBookListeners
    rw [hl]
  · intro h
    unfold OrderBookDB.processTxn
    split
    · exact processNodes_no_entry lock jvObj db alTx.getNodes h
    · rfl

/-- C8 on a concrete input: a successful transaction with an offer on a book
that has no registry entry makes no send and changes nothing. -/
theorem processTxn_keeps_registry_witness :
    dbEx.processTxn (fun _ => true) txApplied "payload" = (dbEx, []) :=
  (processTxn_keeps_registry (fun _ => true) dbEx txApplied "payload").2.2
    (fun _ _ _ _ _ _ _ => rfl)

theorem publishLoop_eq {J : Type} (lock : InfoSub → Bool) (jvObj : J) (m : subMapType) :
    publishLoop lock jvObj m =
      (m.filter (fun e => lock e.2), (m.filter (fun e => lock e.2)).map (fun e => (e.2, jvObj))) := by
  induction m with
  | nil => rfl
  | cons e rest ih =>
    obtain ⟨k, w⟩ := e
    rw [publishLoop]
    by_cases hw : lock w = true
    · rw [if_pos hw, ih]
      simp [List.filter_cons, hw]
    · rw [if_neg hw, ih]
      simp [List.filter_cons, hw]

theorem length_filter_add_not {α : Type} (p : α → Bool) (l : List α) :
    (l.filter p).length + (l.filter (fun a => !p a)).length = l.length := by
  induction l with
  | nil => rfl
  | cons a rest ih =>
    cases hp : p a
    · simp [List.filter_cons, hp]; omega
    · simp [List.filter_cons, hp]; omega

/-- C9: for every listener map and every assignment of live and dead to its
subscribers, `publish` sends the payload once for each entry whose weak
reference resolves, in the order of the entries, and to no one else, and leaves
the listener map equal to the entries that resolve, so the number of entries
drops by the number of dead ones. -/
theorem publish_delivers_and_prunes {J : Type} (lock : InfoSub → Bool) (self : BookListeners)
    (jvObj : J) :
    (self.publish lock jvObj).2 =
      (self.mListeners.filter (fun e => lock e.2)).map (fun e => (e.2, jvObj)) ∧
    (self.publish lock jvObj).1.mListeners = self.mListeners.filter (fun e => lock e.2) ∧
    (self.publish lock jvObj).1.mListeners.length +
      (self.mListeners.filter (fun e => !lock e.2)).length = self.mListeners.length := by
  unfold BookListeners.publish
  rw [publishLoop_eq]
  exact ⟨rfl, rfl, length_filter_add_not (fun e => lock e.2) self.mListeners⟩

/-- C10: for every state, node list and payload, when the result is not success
`processTxn` makes no send and returns the state, every listener map with it,
unchanged. -/
theorem processTxn_not_success {J : Type} (lock : InfoSub → Bool) (db : OrderBookDB)
    (alTx : ALTransaction) (jvObj : J) (h : alTx.getResult ≠ TER.tesSUCCESS) :
    db.processTxn lock alTx jvObj = (db, []) := by
  unfold OrderBookDB.processTxn
  rw [if_neg h]

/-- C10 on a concrete input: the failed transaction has an offer on the book
that the live subscriber S listens to, and nothing is sent; the same nodes under
the result success are sent to S. -/
theorem processTxn_not_success_witness :
    dbSub.processTxn (fun _ => true) txFailed "payload" = (dbSub, []) ∧
    (dbSub.processTxn (fun _ => true) txApplied "payload").2 = [(subS, "payload")] :=
  ⟨processTxn_not_success (fun _ => true) dbSub txFailed "payload" (by decide), by decide⟩

/-- C15: for every state, `invalidate` sets `mSeq` to zero and changes nothing
else: the native list, the issuer map, the registry and its objects are the
same, so both `getBooks` and `getBookListeners` answer as before. -/
theorem invalidate_changes_only_sequence (db : OrderBookDB) :
    db.invalidate.mSeq = 0 ∧
    db.invalidate.mXRPOrders = db.mXRPOrders ∧
    db.invalidate.mIssuerMap = db.mIssuerMap ∧
    db.invalidate.mListeners = db.mListeners ∧
    db.invalidate.objs = db.objs ∧
    db.invalidate.nextObj = db.nextObj ∧
    (∀ issuerID, db.invalidate.getBooks issuerID = db.getBooks issuerID) ∧
    (∀ issuerID currencyID bookRet,
      db.invalidate.getBooks3 issuerID currencyID bookRet =
        db.getBooks3 issuerID currencyID bookRet) ∧
    (∀ ci co ii io, db.invalidate.getBookListeners ci co ii io =
      db.getBookListeners ci co ii io) :=
  ⟨rfl, rfl, rfl, rfl, rfl, rfl, fun _ => rfl, fun _ _ _ => rfl, fun _ _ _ _ => rfl⟩

theorem subMapAssign_idem (m : subMapType) (seq : Nat) (sub : InfoSub) :
    subMapAssign (subMapAssign m seq sub) seq sub = subMapAssign m seq sub := by
  induction m with
  | nil => simp [subMapAssign]
  | cons e rest ih =>
    obtain ⟨k, v⟩ := e
    by_cases hk : k = seq
    · simp [subMapAssign, hk]
    · simp [subMapAssign, hk, ih]

theorem subMapFind_assign_other (m : subMapType) (seq k : Nat) (sub : InfoSub) (h : k ≠ seq) :
    subMapFind (subMapAssign m seq sub) k = subMapFind m k := by
  induction m with
  | nil =>
    have h2 : ¬ seq = k := fun e => h e.symm
    simp [subMapAssign, subMapFind, h2]
  | cons e rest ih =>
    obtain ⟨k2, v⟩ := e
    by_cases hk : k2 = seq
    · have h3 : ¬ seq = k := fun e => h e.symm
      simp [subMapAssign, subMapFind, hk, h3]
    · by_cases hk2 : k2 = k
      · subst hk2
        simp [subMapAssign, subMapFind, hk]
      · simp [subMapAssign, subMapFind, hk, hk2, ih]

theorem subMapAssign_filter_other (m : subMapType) (seq : Nat) (sub : InfoSub) :
    (subMapAssign m seq sub).filter (fun e => decide (e.1 ≠ seq)) =
      m.filter (fun e => decide (e.1 ≠ seq)) := by
  induction m with
  | nil => simp [subMapAssign]
  | cons e rest ih =>
    obtain ⟨k, v⟩ := e
    simp only [ne_eq, decide_not] at ih ⊢
    by_cases hk : k = seq
    · simp [subMapAssign, hk, List.filter_cons]
    · simp [subMapAssign, hk, List.filter_cons, ih]

theorem filter_key_eq_nil (m : subMapType) (seq : Nat) (h : seq ∉ m.map Prod.fst) :
    m.filter (fun e => decide (e.1 = seq)) = [] := by
  apply List.filter_eq_nil_iff.2
  intro e he hk
  apply h
  have : e.1 = seq := by simpa using hk
  rw [← this]
  exact List.mem_map_of_mem _ he

theorem subMapAssign_filter_key (m : subMapType) (seq : Nat) (sub : InfoSub)
    (hm : (m.map Prod.fst).Nodup) :
    (subMapAssign m seq sub).filter (fun e => decide (e.1 = seq)) = [(seq, sub)] := by
  induction m with
  | nil => simp [subMapAssign]
  | cons e rest ih =>
    obtain ⟨k, v⟩ := e
    rw [List.map_cons, List.nodup_cons] at hm
    by_cases hk : k = seq
    · subst hk
      simp only [subMapAssign, if_true, List.filter_cons, decide_True]
      rw [filter_key_eq_nil rest k hm.1]
    · simp [subMapAssign, hk, List.filter_cons, ih hm.2]

theorem subMapAssign_keys (m : subMapType) (seq : Nat) (sub : InfoSub) :
    (subMapAssign m seq sub).map Prod.fst =
      if seq ∈ m.map Prod.fst then m.map Prod.fst else m.map Prod.fst ++ [seq] := by
  induction m with
  | nil => simp [subMapAssign]
  | cons e rest ih =>
    obtain ⟨k, v⟩ := e
    by_cases hk : k = seq
    · simp [subMapAssign, hk]
    · have hk2 : ¬ seq = k := fun e => hk e.symm
      simp only [subMapAssign, hk, if_false, List.map_cons, ih, List.mem_cons, hk2, false_or]
      split <;> simp

theorem subMapAssign_nodup (m : subMapType) (seq : Nat) (sub : InfoSub)
    (hm : (m.map Prod.fst).Nodup) : ((subMapAssign m seq sub).map Prod.fst).Nodup := by
  rw [subMapAssign_keys]
  split
  · exact hm
  · rename_i h
    rw [List.nodup_append]
    refine ⟨hm, by simp, ?_⟩
    intro x hx hx2
    rw [List.mem_singleton] at hx2
    exact h (hx2 ▸ hx)

theorem subMapFind_filter_ne (m : subMapType) (n k : Nat) :
    subMapFind (m.filter (fun e => decide (e.1 ≠ n))) k =
      if k = n then none else subMapFind m k := by
  induction m with
  | nil => simp [subMapFind]
  | cons e rest ih =>
    obtain ⟨k2, v⟩ := e
    simp only [ne_eq, decide_not] at ih ⊢
    by_cases hk : k2 = n
    · subst hk
      by_cases hk2 : k = k2
      · subst hk2
        simpa [List.filter_cons] using ih
      · have hk3 : ¬ k2 = k := fun e => hk2 e.symm
        simp [List.filter_cons, ih, hk2, subMapFind, hk3]
    · by_cases hk2 : k2 = k
      · subst hk2
        simp [List.filter_cons, hk, subMapFind]
      · simp [List.filter_cons, hk, subMapFind, hk2, ih]

theorem subMapFind_none_iff (m : subMapType) (n : Nat) :
    subMapFind m n = none ↔ n ∉ m.map Prod.fst := by
  induction m with
  | nil => simp [subMapFind]
  | cons e rest ih =>
    obtain ⟨k, v⟩ := e
    by_cases hk : k = n
    · simp [subMapFind, hk]
    · have hk2 : ¬ n = k := fun e => hk e.symm
      simp [subMapFind, hk, hk2, ih]

/-- C16: for every listener map (a list of entries with distinct keys),
subscriber and sequence number: `addSubscriber` twice with the same subscriber
equals once; after it the map has exactly one entry for the subscriber's
sequence number, pointing at the subscriber, the entries of all other keys are
as before, and the keys are still distinct; `removeSubscriber` keeps exactly the
entries with another key, and returns the map unchanged when the key is
absent. -/
theorem subscribe_unsubscribe (self : BookListeners) (sub : InfoSub) (n : Nat)
    (hm : (self.mListeners.map Prod.fst).Nodup) :
    (self.addSubscriber sub).addSubscriber sub = self.addSubscriber sub ∧
    (self.addSubscriber sub).mListeners.filter (fun e => decide (e.1 = sub.getSeq)) =
      [(sub.getSeq, sub)] ∧
    subMapFind (self.addSubscriber sub).mListeners sub.getSeq = some sub ∧
    (self.addSubscriber sub).mListeners.filter (fun e => decide (e.1 ≠ sub.getSeq)) =
      self.mListeners.filter (fun e => decide (e.1 ≠ sub.getSeq)) ∧
    (∀ k, k ≠ sub.getSeq →
      subMapFind (self.addSubscriber sub).mListeners k = subMapFind self.mListeners k) ∧
    ((self.addSubscriber sub).mListeners.map Prod.fst).Nodup ∧
    (∀ e, e ∈ (self.removeSubscriber n).mListeners ↔ e ∈ self.mListeners ∧ e.1 ≠ n) ∧
    (self.removeSubscriber n).mListeners.Sublist self.mListeners ∧
    subMapFind (self.removeSubscriber n).mListeners n = none ∧
    (∀ k, k ≠ n →
      subMapFind (self.removeSubscriber n).mListeners k = subMapFind self.mListeners k) ∧
    (subMapFind self.mListeners n = none → self.removeSubscriber n = self) := by
  refine ⟨?_, ?_, ?_, ?_, ?_, ?_, ?_, ?_, ?_, ?_, ?_⟩
  · simp [BookListeners.addSubscriber, subMapAssign_idem]
  · exact subMapAssign_filter_key _ _ _ hm
  · exact subMapFind_assign _ _ _
  · exact subMapAssign_filter_other _ _ _
  · intro k hk
    exact subMapFind_assign_other _ _ _ _ hk
  · exact subMapAssign_nodup _ _ _ hm
  · intro e
    simp [BookListeners.removeSubscriber, List.mem_filter]
  · exact List.filter_sublist _
  · show subMapFind (self.mListeners.filter (fun e => decide (e.1 ≠ n))) n = none
    rw [subMapFind_filter_ne, if_pos rfl]
  · intro k hk
    show subMapFind (self.mListeners.filter (fun e => decide (e.1 ≠ n))) k = _
    rw [subMapFind_filter_ne, if_neg hk]
  · intro hnone
    have habs := (subMapFind_none_iff _ _).1 hnone
    cases self with
    | mk m =>
      simp only [BookListeners.removeSubscriber, BookListeners.mk.injEq]
      apply List.filter_eq_self.2
      intro e he
      have : e.1 ≠ n := fun h => habs (h ▸ List.mem_map_of_mem _ he)
      simpa using this

/-- C16 on a concrete input: a map with the subscribers S (sequence 7) and T
(sequence 8); S subscribes again and sequence 9 is removed. -/
theorem subscribe_unsubscribe_witness :
    (listenersST.addSubscriber subS).addSubscriber subS = listenersST.addSubscriber subS ∧
    (listenersST.addSubscriber subS).mListeners.filter (fun e => decide (e.1 = subS.getSeq)) =
      [(subS.getSeq, subS)] ∧
    subMapFind (listenersST.addSubscriber subS).mListeners subS.getSeq = some subS ∧
    (listenersST.addSubscriber subS).mListeners.filter (fun e => decide (e.1 ≠ subS.getSeq)) =
      listenersST.mListeners.filter (fun e => decide (e.1 ≠ subS.getSeq)) ∧
    (∀ k, k ≠ subS.getSeq →
      subMapFind (listenersST.addSubscriber subS).mListeners k =
        subMapFind listenersST.mListeners k) ∧
    ((listenersST.addSubscriber subS).mListeners.map Prod.fst).Nodup ∧
    (∀ e, e ∈ (listenersST.removeSubscriber 9).mListeners ↔ e ∈ listenersST.mListeners ∧ e.1 ≠ 9) ∧
    (listenersST.removeSubscriber 9).mListeners.Sublist listenersST.mListeners ∧
    subMapFind (listenersST.removeSubscriber 9).mListeners 9 = none ∧
    (∀ k, k ≠ 9 →
      subMapFind (listenersST.removeSubscriber 9).mListeners k =
        subMapFind listenersST.mListeners k) ∧
    (subMapFind listenersST.mListeners 9 = none → listenersST.removeSubscriber 9 = listenersST) :=
  subscribe_unsubscribe listenersST subS 9 (by decide)

theorem processNode_of_identity {J : Type} (lock : InfoSub → Bool) (db : OrderBookDB)
    (node : STObject) (jvObj : J) (id : uint160 × uint160 × uint160 × uint160)
    (h : derivedIdentity node = some id) :
    processNode lock db node jvObj = some (publishTo lock jvObj db id) := by
  unfold derivedIdentity at h
  unfold processNode selectField publishTo
  by_cases ht : node.getFieldU16 SField.sfLedgerEntryType = some LedgerEntryType.ltOFFER
  · rw [if_pos ht] at h
    rw [ht]
    simp only [if_true]
    by_cases hm : node.getFName = SField.sfModifiedNode
    · simp only [hm, if_true] at h ⊢
      cases hd : node.peekAtPField SField.sfPreviousFields with
      | none => simp [hd] at h
      | some data =>
        simp only [hd] at h ⊢
        cases hg : data.getFieldAmount SField.sfTakerGets with
        | none => cases hp : data.getFieldAmount SField.sfTakerPays <;> simp [hg, hp] at h
        | some gets =>
          cases hp : data.getFieldAmount SField.sfTakerPays with
          | none => simp [hg, hp] at h
          | some pays =>
            simp only [hg, hp, Option.some.injEq] at h ⊢
            subst h
            simp only
            cases db.getBookListeners pays.getCurrency gets.getCurrency pays.getIssuer
              gets.getIssuer <;> rfl
    · by_cases hc : node.getFName = SField.sfCreatedNode
      · simp only [hc, if_true] at h ⊢
        simp only [show ¬ (SField.sfCreatedNode = SField.sfModifiedNode) by decide,
          if_false] at h ⊢
        cases hd : node.peekAtPField SField.sfNewFields with
        | none => simp [hd] at h
        | some data =>
          simp only [hd] at h ⊢
          cases hg : data.getFieldAmount SField.sfTakerGets with
          | none => cases hp : data.getFieldAmount SField.sfTakerPays <;> simp [hg, hp] at h
          | some gets =>
            cases hp : data.getFieldAmount SField.sfTakerPays with
            | none => simp [hg, hp] at h
            | some pays =>
              simp only [hg, hp, Option.some.injEq] at h ⊢
              subst h
              simp only
              cases db.getBookListeners pays.getCurrency gets.getCurrency pays.getIssuer
                gets.getIssuer <;> rfl
      · by_cases hdl : node.getFName = SField.sfDeletedNode
        · simp only [hdl, if_true] at h ⊢
          simp only [show ¬ (SField.sfDeletedNode = SField.sfModifiedNode) by decide,
            show ¬ (SField.sfDeletedNode = SField.sfCreatedNode) by decide, if_false] at h ⊢
          cases hd : node.peekAtPField SField.sfFinalFields with
          | none => simp [hd] at h
          | some data =>
            simp only [hd] at h ⊢
            cases hg : data.getFieldAmount SField.sfTakerGets with
            | none => cases hp : data.getFieldAmount SField.sfTakerPays <;> simp [hg, hp] at h
            | some gets =>
              cases hp : data.getFieldAmount SField.sfTakerPays with
              | none => simp [hg, hp] at h
              | some pays =>
                simp only [hg, hp, Option.some.injEq] at h ⊢
                subst h
                simp only
                cases db.getBookListeners pays.getCurrency gets.getCurrency pays.getIssuer
                  gets.getIssuer <;> rfl
        · simp [hm, hc, hdl] at h
  · rw [if_neg ht] at h
    cases h

theorem processNode_of_no_identity {J : Type} (lock : InfoSub → Bool) (db : OrderBookDB)
    (node : STObject) (jvObj : J) (h : derivedIdentity node = none) :
    processNode lock db node jvObj = none ∨ processNode lock db node jvObj = some (db, []) := by
  apply processNode_no_entry
  intro ci ii co io hid
  rw [h] at hid
  cases hid

/-- The loop of `processTxn` makes one lookup and publish for each identity
derived from the nodes, in node order. -/
theorem processNodes_eq_publishAll {J : Type} (lock : InfoSub → Bool) (jvObj : J) :
    ∀ (nodes : List STObject) (db : OrderBookDB),
      processNodes lock jvObj db nodes =
        publishAll lock jvObj db (nodes.filterMap derivedIdentity) := by
  intro nodes
  induction nodes with
  | nil => intro db; rfl
  | cons node rest ih =>
    intro db
    rw [processNodes]
    cases hid : derivedIdentity node with
    | none =>
      rw [List.filterMap_cons_none hid]
      rcases processNode_of_no_identity lock db node jvObj hid with hp | hp
      · rw [hp]; exact ih db
      · rw [hp]
        simp only [List.nil_append]
        exact ih db
    | some id =>
      rw [List.filterMap_cons_some hid, processNode_of_identity lock db node jvObj id hid,
        publishAll]
      simp only [ih]

theorem malformedRecord_iff {J : Type} (lock : InfoSub → Bool) (db : OrderBookDB)
    (node : STObject) (jvObj : J) :
    malformedRecord node = true ↔ processNode lock db node jvObj = none := by
  unfold malformedRecord processNode selectField
  cases ht : node.getFieldU16 SField.sfLedgerEntryType with
  | none => simp
  | some t =>
    simp only
    by_cases hto : t = LedgerEntryType.ltOFFER
    · simp only [hto, decide_True, Bool.true_and, if_true]
      by_cases hm : node.getFName = SField.sfModifiedNode
      · simp only [hm, if_true]
        cases hd : node.peekAtPField SField.sfPreviousFields with
        | none => simp
        | some data =>
          simp only
          cases hg : data.getFieldAmount SField.sfTakerGets with
          | none => simp
          | some gets =>
            cases hp : data.getFieldAmount SField.sfTakerPays with
            | none => simp
            | some pays =>
              simp only
              cases db.getBookListeners pays.getCurrency gets.getCurrency pays.getIssuer
                gets.getIssuer <;> simp
      · by_cases hc : node.getFName = SField.sfCreatedNode
        · simp only [hc, if_true]
          simp only [show ¬ (SField.sfCreatedNode = SField.sfModifiedNode) by decide, if_false]
          cases hd : node.peekAtPField SField.sfNewFields with
          | none => simp
          | some data =>
            simp only
            cases hg : data.getFieldAmount SField.sfTakerGets with
            | none => simp
            | some gets =>
              cases hp : data.getFieldAmount SField.sfTakerPays with
              | none => simp
              | some pays =>
                simp only
                cases db.getBookListeners pays.getCurrency gets.getCurrency pays.getIssuer
                  gets.getIssuer <;> simp
        · by_cases hdl : node.getFName = SField.sfDeletedNode
          · simp only [hdl, if_true]
            simp only [show ¬ (SField.sfDeletedNode = SField.sfModifiedNode) by decide,
              show ¬ (SField.sfDeletedNode = SField.sfCreatedNode) by decide, if_false]
            cases hd : node.peekAtPField SField.sfFinalFields with
            | none => simp
            | some data =>
              simp only
              cases hg : data.getFieldAmount SField.sfTakerGets with
              | none => simp
              | some gets =>
                cases hp : data.getFieldAmount SField.sfTakerPays with
                | none => simp
                | some pays =>
                  simp only
                  cases db.getBookListeners pays.getCurrency gets.getCurrency pays.getIssuer
                    gets.getIssuer <;> simp
          · simp [hm, hc, hdl]
    · simp [hto]

theorem derivedIdentity_of_malformed (node : STObject) (h : malformedRecord node = true) :
    derivedIdentity node = none := by
  cases hid : derivedIdentity node with
  | none => rfl
  | some id =>
    have h1 := processNode_of_identity (fun _ => true) OrderBookDB.new node () id hid
    have h2 := (malformedRecord_iff (fun _ => true) OrderBookDB.new node ()).1 h
    rw [h1] at h2
    cases h2

theorem filterMap_identity_wellformed (nodes : List STObject) :
    (nodes.filter (fun n => !malformedRecord n)).filterMap derivedIdentity =
      nodes.filterMap derivedIdentity := by
  induction nodes with
  | nil => rfl
  | cons node rest ih =>
    cases hm : malformedRecord node with
    | true =>
      rw [List.filter_cons_of_neg (by simp [hm]),
        List.filterMap_cons_none (derivedIdentity_of_malformed node hm)]
      exact ih
    | false =>
      rw [List.filter_cons_of_pos (by simp [hm])]
      cases hid : derivedIdentity node with
      | none => rw [List.filterMap_cons_none hid, List.filterMap_cons_none hid]; exact ih
      | some id => rw [List.filterMap_cons_some hid, List.filterMap_cons_some hid, ih]

/-- C11: for every successful transaction, `processTxn` makes one lookup and
publish for each identity derived from its nodes, in node order; for an offer
node the identity looked up is the currency and issuer of TakerPays and of
TakerGets read from the prior-state fields of a modified node, the new-state
fields of a created node and the final-state fields of a deleted node, whatever
the other field subsets hold; and the publish changes no object but the one of
that identity's registry entry, so a modified node whose final amounts encode
another identity publishes to the prior-state entry only. -/
theorem processTxn_derives_identity {J : Type} (lock : InfoSub → Bool) (db : OrderBookDB)
    (alTx : ALTransaction) (jvObj : J) (hres : alTx.getResult = TER.tesSUCCESS) :
    db.processTxn lock alTx jvObj =
      publishAll lock jvObj db (alTx.getNodes.filterMap derivedIdentity) ∧
    (∀ (dbx : OrderBookDB) (node : STObject) (data : STObjectData) (pays gets : STAmount),
      node.getFieldU16 SField.sfLedgerEntryType = some LedgerEntryType.ltOFFER →
      ((node.getFName = SField.sfModifiedNode ∧
          node.peekAtPField SField.sfPreviousFields = some data) ∨
        (node.getFName = SField.sfCreatedNode ∧
          node.peekAtPField SField.sfNewFields = some data) ∨
        (node.getFName = SField.sfDeletedNode ∧
          node.peekAtPField SField.sfFinalFields = some data)) →
      data.getFieldAmount SField.sfTakerPays = some pays →
      data.getFieldAmount SField.sfTakerGets = some gets →
      derivedIdentity node =
        some (pays.getCurrency, pays.getIssuer, gets.getCurrency, gets.getIssuer) ∧
      processNode lock dbx node jvObj =
        some (publishTo lock jvObj dbx
          (pays.getCurrency, pays.getIssuer, gets.getCurrency, gets.getIssuer))) ∧
    (∀ (dbx : OrderBookDB) (id : uint160 × uint160 × uint160 × uint160),
      (publishTo lock jvObj dbx id).1.mListeners = dbx.mListeners ∧
      (∀ book, dbx.getBookListeners id.1 id.2.2.1 id.2.1 id.2.2.2 ≠ some book →
        (publishTo lock jvObj dbx id).1.objs book = dbx.objs book) ∧
      (dbx.getBookListeners id.1 id.2.2.1 id.2.1 id.2.2.2 = none →
        (publishTo lock jvObj dbx id).2 = []) ∧
      (∀ book, dbx.getBookListeners id.1 id.2.2.1 id.2.1 id.2.2.2 = some book →
        (publishTo lock jvObj dbx id).2 = ((dbx.objs book).publish lock jvObj).2)) := by
  refine ⟨?_, ?_, ?_⟩
  · unfold OrderBookDB.processTxn
    rw [if_pos hres]
    exact processNodes_eq_publishAll lock jvObj alTx.getNodes db
  · intro dbx node data pays gets ht hkind hp hg
    have hid : derivedIdentity node =
        some (pays.getCurrency, pays.getIssuer, gets.getCurrency, gets.getIssuer) := by
      unfold derivedIdentity
      rw [if_pos ht]
      rcases hkind with ⟨hk, hd⟩ | ⟨hk, hd⟩ | ⟨hk, hd⟩
      · simp [hk, hd, hp, hg]
      · simp [hk, hd, hp, hg]
      · simp [hk, hd, hp, hg]
    exact ⟨hid, processNode_of_identity lock dbx node jvObj _ hid⟩
  · intro dbx id
    unfold publishTo
    cases hb : dbx.getBookListeners id.1 id.2.2.1 id.2.1 id.2.2.2 with
    | none =>
      refine ⟨rfl, fun _ _ => rfl, fun _ => rfl, ?_⟩
      intro book h
      cases h
    | some b =>
      refine ⟨rfl, ?_, ?_, ?_⟩
      · intro book hne
        have hbb : book ≠ b := fun e => hne (by rw [e])
        simp [Function.update, hbb]
      · intro h
        cases h
      · intro book h
        cases h
        rfl

/-- C11 on a concrete input: the modified offer of `txModified` has the book of
S in its prior-state fields and the book of T in its final-state fields; S is
sent the payload and the listener object of T is not touched. -/
theorem processTxn_derives_identity_witness :
    (dbTwo.processTxn (fun _ => true) txModified "payload").2 = [(subS, "payload")] ∧
    (dbTwo.processTxn (fun _ => true) txModified "payload").1.objs 1 = dbTwo.objs 1 ∧
    dbTwo.getBookListeners 8 0 9 0 = some 1 ∧
    (dbTwo.objs 1).mListeners = [(8, subT)] := by
  rw [(processTxn_derives_identity (fun _ => true) dbTwo txModified "payload" rfl).1]
  refine ⟨by decide, by decide, by decide, by decide⟩

/-- C12: for every successful transaction and every node list, `processTxn`
gives the result that it gives for the list with the malformed records removed,
the state and the sequence of sends both; a record is malformed exactly when
the body of the `try` block raises at it, and then the loop goes on with the
next record as if the malformed one were not in the list. -/
theorem processTxn_skips_malformed {J : Type} (lock : InfoSub → Bool) (db : OrderBookDB)
    (alTx : ALTransaction) (jvObj : J) (hres : alTx.getResult = TER.tesSUCCESS) :
    db.processTxn lock alTx jvObj =
      db.processTxn lock
        { alTx with getNodes := alTx.getNodes.filter (fun n => !malformedRecord n) } jvObj ∧
    (∀ (dbx : OrderBookDB) (node : STObject),
      malformedRecord node = true ↔ processNode lock dbx node jvObj = none) ∧
    (∀ (dbx : OrderBookDB) (pre post : List STObject) (node : STObject),
      malformedRecord node = true →
      processNodes lock jvObj dbx (pre ++ node :: post) =
        processNodes lock jvObj dbx (pre ++ post)) := by
  refine ⟨?_, ?_, ?_⟩
  · unfold OrderBookDB.processTxn
    rw [if_pos hres]
    simp only [hres, if_true]
    rw [processNodes_eq_publishAll, processNodes_eq_publishAll, filterMap_identity_wellformed]
  · intro dbx node
    exact malformedRecord_iff lock dbx node jvObj
  · intro dbx pre post node hm
    rw [processNodes_eq_publishAll, processNodes_eq_publishAll, List.filterMap_append,
      List.filterMap_append, List.filterMap_cons_none (derivedIdentity_of_malformed node hm)]

/-- C12 on a concrete input: `txThree` has an untagged node between its offers,
and the sends are those of the three offers. -/
theorem processTxn_skips_malformed_witness :
    dbSub.processTxn (fun _ => true) txThree "payload" =
      dbSub.processTxn (fun _ => true)
        { txThree with getNodes := txThree.getNodes.filter (fun n => !malformedRecord n) }
        "payload" ∧
    malformedRecord untaggedNode = true ∧
    (txThree.getNodes.filter (fun n => !malformedRecord n)).length = 3 ∧
    (dbSub.processTxn (fun _ => true) txThree "payload").2 =
      [(subS, "payload"), (subS, "payload"), (subS, "payload")] :=
  ⟨(processTxn_skips_malformed (fun _ => true) dbSub txThree "payload" rfl).1,
    by decide, by decide, by decide⟩

/-- C14: for every identity, every live subscriber S and every payload,
starting from a state with an empty registry: after `makeBookListeners` for the
identity and `addSubscriber` of S through the pointer it returned, `processTxn`
with the result success and exactly one created offer node whose new-state
TakerPays and TakerGets encode the identity makes exactly one send, of that
payload to S. -/
theorem subscribe_then_correlate {J : Type} (lock : InfoSub → Bool) (db : OrderBookDB)
    (ci co ii io : uint160) (sub : InfoSub) (jvObj : J) (alTx : ALTransaction)
    (node : STObject) (data : STObjectData)
    (hempty : db.mListeners = fun _ => none)
    (hlive : lock sub = true)
    (hres : alTx.getResult = TER.tesSUCCESS)
    (hnodes : alTx.getNodes = [node])
    (htype : node.getFieldU16 SField.sfLedgerEntryType = some LedgerEntryType.ltOFFER)
    (hkind : node.getFName = SField.sfCreatedNode)
    (hdata : node.peekAtPField SField.sfNewFields = some data)
    (hpays : data.getFieldAmount SField.sfTakerPays = some ⟨ci, ii⟩)
    (hgets : data.getFieldAmount SField.sfTakerGets = some ⟨co, io⟩) :
    (((db.makeBookListeners ci co ii io).2.addSubscriber
        (db.makeBookListeners ci co ii io).1 sub).processTxn lock alTx jvObj).2 =
      [(sub, jvObj)] := by
  have hnone : db.getBookListeners ci co ii io = none := by
    unfold OrderBookDB.getBookListeners
    rw [hempty]
  have hmake : db.makeBookListeners ci co ii io =
      (db.nextObj,
        { db with
          objs := Function.update db.objs db.nextObj { mListeners := [] }
          nextObj := db.nextObj + 1
          mListeners := setListener db.mListeners ci co ii io db.nextObj }) := by
    unfold OrderBookDB.makeBookListeners
    rw [hnone]
  have hid : derivedIdentity node = some (ci, ii, co, io) := by
    unfold derivedIdentity
    rw [if_pos htype]
    simp [hkind, hdata, hpays, hgets]
  unfold OrderBookDB.processTxn
  rw [if_pos hres, hnodes, processNodes_eq_publishAll]
  simp only [List.filterMap_cons_some hid, List.filterMap_nil, publishAll, List.append_nil]
  rw [hmake]
  unfold publishTo
  have hfound : OrderBookDB.getBookListeners
      (OrderBookDB.addSubscriber
        { db with
          objs := Function.update db.objs db.nextObj { mListeners := [] }
          nextObj := db.nextObj + 1
          mListeners := setListener db.mListeners ci co ii io db.nextObj } db.nextObj sub)
      ci co ii io = some db.nextObj :=
    getBookListeners_setListener db db.mListeners ci co ii io db.nextObj _ _
  simp only [hfound]
  simp [OrderBookDB.addSubscriber, BookListeners.addSubscriber, BookListeners.publish,
    subMapAssign, publishLoop, hlive]

/-- C14 on a concrete input: S with sequence 7 on the USD/rA to native book. -/
theorem subscribe_then_correlate_witness :
    (((dbEx.makeBookListeners 7 0 9 0).2.addSubscriber
        (dbEx.makeBookListeners 7 0 9 0).1 subS).processTxn (fun _ => true) txApplied
          "payload").2 = [(subS, "payload")] :=
  subscribe_then_correlate (fun _ => true) dbEx 7 0 9 0 subS "payload" txApplied
    (createdOffer ⟨7, 9⟩ ⟨0, 0⟩)
    { getFieldAmount := fun g =>
        if g = SField.sfTakerPays then some ⟨7, 9⟩
        else if g = SField.sfTakerGets then some ⟨0, 0⟩
        else none }
    rfl rfl rfl rfl rfl rfl rfl rfl rfl

theorem processNodes_sends_join {J : Type} (lock : InfoSub → Bool) (jvObj : J) :
    ∀ (nodes : List STObject) (db : OrderBookDB),
      (processNodes lock jvObj db nodes).2 = (processNodesEach lock jvObj db nodes).flatten := by
  intro nodes
  induction nodes with
  | nil => intro db; rfl
  | cons node rest ih =>
    intro db
    rw [processNodes, processNodesEach]
    cases processNode lock db node jvObj with
    | none => simp [ih]
    | some r =>
      obtain ⟨db2, sent⟩ := r
      simp [ih]

theorem publishLoop_receipts {J : Type} (lock : InfoSub → Bool) (jvObj : J) (m : subMapType)
    (sub : InfoSub) (hlive : lock sub = true) :
    receipts (publishLoop lock jvObj m).2 sub = subCount m sub ∧
    subCount (publishLoop lock jvObj m).1 sub = subCount m sub ∧
    ∀ s ∈ (publishLoop lock jvObj m).2, s.2 = jvObj := by
  induction m with
  | nil => simp [publishLoop, receipts, subCount]
  | cons e rest ih =>
    obtain ⟨k, w⟩ := e
    obtain ⟨ih1, ih2, ih3⟩ := ih
    simp only [receipts, subCount] at ih1 ih2 ⊢
    rw [publishLoop]
    by_cases hw : lock w = true
    · rw [if_pos hw]
      by_cases hws : w = sub
      · refine ⟨?_, ?_, ?_⟩
        · simp [List.filter_cons, hws, ih1]
        · simp [List.filter_cons, hws, ih2]
        · intro s hs
          rcases List.mem_cons.1 hs with h | h
          · rw [h]
          · exact ih3 s h
      · refine ⟨?_, ?_, ?_⟩
        · simp [List.filter_cons, hws, ih1]
        · simp [List.filter_cons, hws, ih2]
        · intro s hs
          rcases List.mem_cons.1 hs with h | h
          · rw [h]
          · exact ih3 s h
    · rw [if_neg hw]
      have hws : ¬ w = sub := fun e => hw (e ▸ hlive)
      refine ⟨?_, ?_, ih3⟩
      · simp [List.filter_cons, hws, ih1]
      · simp [List.filter_cons, hws, ih2]

/-- One lookup and publish sends to a live subscriber once for each entry that
the object of the identity has for it, and keeps those entries in every
object. -/
theorem publishTo_receipts {J : Type} (lock : InfoSub → Bool) (jvObj : J) (db : OrderBookDB)
    (id : uint160 × uint160 × uint160 × uint160) (sub : InfoSub) (hlive : lock sub = true) :
    (publishTo lock jvObj db id).1.mListeners = db.mListeners ∧
    (∀ b, subCount ((publishTo lock jvObj db id).1.objs b).mListeners sub =
      subCount (db.objs b).mListeners sub) ∧
    receipts (publishTo lock jvObj db id).2 sub =
      (match db.getBookListeners id.1 id.2.2.1 id.2.1 id.2.2.2 with
        | none => 0
        | some book => subCount (db.objs book).mListeners sub) ∧
    ∀ s ∈ (publishTo lock jvObj db id).2, s.2 = jvObj := by
  unfold publishTo
  cases hb : db.getBookListeners id.1 id.2.2.1 id.2.1 id.2.2.2 with
  | none =>
    refine ⟨rfl, fun _ => rfl, rfl, ?_⟩
    intro s hs
    cases hs
  | some book =>
    obtain ⟨h1, h2, h3⟩ := publishLoop_receipts lock jvObj (db.objs book).mListeners sub hlive
    refine ⟨rfl, ?_, h1, h3⟩
    intro b
    by_cases hbb : b = book
    · subst hbb
      simpa [Function.update, BookListeners.publish] using h2
    · simp [Function.update, hbb]

theorem getBookListeners_congr (db1 db2 : OrderBookDB) (h : db1.mListeners = db2.mListeners)
    (ci co ii io : uint160) :
    db1.getBookListeners ci co ii io = db2.getBookListeners ci co ii io := by
  unfold OrderBookDB.getBookListeners
  rw [h]

theorem receipts_append {J : Type} (a b : List (InfoSub × J)) (sub : InfoSub) :
    receipts (a ++ b) sub = receipts a sub + receipts b sub := by
  simp [receipts]

theorem processNodesEach_receipts {J : Type} (lock : InfoSub → Bool) (jvObj : J)
    (db : OrderBookDB) (id : uint160 × uint160 × uint160 × uint160) (book : Nat) (sub : InfoSub)
    (hbook : db.getBookListeners id.1 id.2.2.1 id.2.1 id.2.2.2 = some book)
    (hreg : subCount (db.objs book).mListeners sub = 1) (hlive : lock sub = true) :
    ∀ (nodes : List STObject) (dbx : OrderBookDB), dbx.mListeners = db.mListeners →
      (∀ b, subCount (dbx.objs b).mListeners sub = subCount (db.objs b).mListeners sub) →
      List.Forall₂
        (fun node sent => (derivedIdentity node = some id → receipts sent sub = 1) ∧
          ∀ s ∈ sent, s.2 = jvObj)
        nodes (processNodesEach lock jvObj dbx nodes) := by
  intro nodes
  induction nodes with
  | nil => intro dbx _ _; exact List.Forall₂.nil
  | cons node rest ih =>
    intro dbx hl hc
    rw [processNodesEach]
    cases hid : derivedIdentity node with
    | some id2 =>
      rw [processNode_of_identity lock dbx node jvObj id2 hid]
      obtain ⟨p1, p2, p3, p4⟩ := publishTo_receipts lock jvObj dbx id2 sub hlive
      refine List.Forall₂.cons ⟨?_, p4⟩ (ih _ (p1.trans hl) (fun b => (p2 b).trans (hc b)))
      intro he
      rw [hid] at he
      have he2 : id2 = id := Option.some.inj he
      subst he2
      show receipts (publishTo lock jvObj dbx id2).2 sub = 1
      rw [p3, getBookListeners_congr dbx db hl, hbook]
      simp only
      rw [hc book, hreg]
    | none =>
      rcases processNode_of_no_identity lock dbx node jvObj hid with hp | hp
      · rw [hp]
        refine List.Forall₂.cons ⟨?_, ?_⟩ (ih dbx hl hc)
        · intro he; rw [hid] at he; cases he
        · intro s hs; cases hs
      · rw [hp]
        refine List.Forall₂.cons ⟨?_, ?_⟩ (ih dbx hl hc)
        · intro he; rw [hid] at he; cases he
        · intro s hs; cases hs

theorem publishAll_receipts {J : Type} (lock : InfoSub → Bool) (jvObj : J)
    (db : OrderBookDB) (id : uint160 × uint160 × uint160 × uint160) (book : Nat) (sub : InfoSub)
    (hbook : db.getBookListeners id.1 id.2.2.1 id.2.1 id.2.2.2 = some book)
    (hreg : subCount (db.objs book).mListeners sub = 1) (hlive : lock sub = true) :
    ∀ (ids : List (uint160 × uint160 × uint160 × uint160)) (dbx : OrderBookDB),
      dbx.mListeners = db.mListeners →
      (∀ b, subCount (dbx.objs b).mListeners sub = subCount (db.objs b).mListeners sub) →
      (∀ id2 ∈ ids, id2 ≠ id → ∀ b, db.getBookListeners id2.1 id2.2.2.1 id2.2.1 id2.2.2.2 = some b →
        subCount (db.objs b).mListeners sub = 0) →
      receipts (publishAll lock jvObj dbx ids).2 sub =
        (ids.filter (fun x => decide (x = id))).length := by
  intro ids
  induction ids with
  | nil => intro dbx _ _ _; rfl
  | cons id2 rest ih =>
    intro dbx hl hc ho
    obtain ⟨p1, p2, p3, _⟩ := publishTo_receipts lock jvObj dbx id2 sub hlive
    rw [publishAll]
    simp only
    rw [receipts_append, ih _ (p1.trans hl) (fun b => (p2 b).trans (hc b))
      (fun x hx => ho x (List.mem_cons_of_mem _ hx)), p3, getBookListeners_congr dbx db hl]
    by_cases he : id2 = id
    · subst he
      rw [hbook]
      simp only
      rw [hc book, hreg]
      simp [List.filter_cons]
      omega
    · cases hb : db.getBookListeners id2.1 id2.2.2.1 id2.2.1 id2.2.2.2 with
      | none => simp [List.filter_cons, he]
      | some b =>
        simp only
        rw [hc b, ho id2 (List.mem_cons_self _ _) he b hb]
        simp [List.filter_cons, he]

theorem filterMap_identity_count (nodes : List STObject)
    (id : uint160 × uint160 × uint160 × uint160) :
    ((nodes.filterMap derivedIdentity).filter (fun x => decide (x = id))).length =
      (nodes.filter (fun n => decide (derivedIdentity n = some id))).length := by
  induction nodes with
  | nil => rfl
  | cons node rest ih =>
    cases hid : derivedIdentity node with
    | none =>
      rw [List.filterMap_cons_none hid, List.filter_cons_of_neg (by simp [hid])]
      exact ih
    | some id2 =>
      rw [List.filterMap_cons_some hid]
      by_cases he : id2 = id
      · rw [List.filter_cons_of_pos (by simp [he]), List.filter_cons_of_pos (by simp [hid, he])]
        simp [ih]
      · rw [List.filter_cons_of_neg (by simp [he]), List.filter_cons_of_neg (by simp [hid, he])]
        exact ih

/-- C19: for every successful transaction, a subscriber that is live and has one
entry in the listener object of the identity is sent the payload once for each
node that derives the identity, in node order: the sends of the transaction are
the sends made for each node one after the other, the sends made for a node that
derives the identity have one send to the subscriber, and every send carries the
payload; when the subscriber has no entry under another identity that a node of
the transaction derives, the number of sends to it is the number of nodes that
derive the identity. -/
theorem processTxn_no_dedup {J : Type} (lock : InfoSub → Bool) (db : OrderBookDB)
    (alTx : ALTransaction) (jvObj : J) (id : uint160 × uint160 × uint160 × uint160)
    (book : Nat) (sub : InfoSub)
    (hres : alTx.getResult = TER.tesSUCCESS)
    (hbook : db.getBookListeners id.1 id.2.2.1 id.2.1 id.2.2.2 = some book)
    (hreg : subCount (db.objs book).mListeners sub = 1)
    (hlive : lock sub = true) :
    (db.processTxn lock alTx jvObj).2 =
      (processNodesEach lock jvObj db alTx.getNodes).flatten ∧
    List.Forall₂
      (fun node sent => (derivedIdentity node = some id → receipts sent sub = 1) ∧
        ∀ s ∈ sent, s.2 = jvObj)
      alTx.getNodes (processNodesEach lock jvObj db alTx.getNodes) ∧
    ((∀ node ∈ alTx.getNodes, ∀ id2, derivedIdentity node = some id2 → id2 ≠ id →
        ∀ b, db.getBookListeners id2.1 id2.2.2.1 id2.2.1 id2.2.2.2 = some b →
          subCount (db.objs b).mListeners sub = 0) →
      receipts (db.processTxn lock alTx jvObj).2 sub =
        (alTx.getNodes.filter (fun n => decide (derivedIdentity n = some id))).length) := by
  have hp : db.processTxn lock alTx jvObj = processNodes lock jvObj db alTx.getNodes := by
    unfold OrderBookDB.processTxn
    rw [if_pos hres]
  refine ⟨?_, ?_, ?_⟩
  · rw [hp]
    exact processNodes_sends_join lock jvObj alTx.getNodes db
  · exact processNodesEach_receipts lock jvObj db id book sub hbook hreg hlive alTx.getNodes db
      rfl (fun _ => rfl)
  · intro ho
    rw [hp, processNodes_eq_publishAll,
      publishAll_receipts lock jvObj db id book sub hbook hreg hlive _ db rfl (fun _ => rfl),
      filterMap_identity_count]
    intro id2 hid2 hne b hb
    obtain ⟨node, hn, hd⟩ := List.mem_filterMap.1 hid2
    exact ho node hn id2 hd hne b hb

/-- C19 on a concrete input: `txThree` has a created, a modified and a deleted
offer on the book S listens to, and S is sent the payload three times. -/
theorem processTxn_no_dedup_witness :
    receipts (dbSub.processTxn (fun _ => true) txThree "payload").2 subS = 3 ∧
    (dbSub.processTxn (fun _ => true) txThree "payload").2 =
      [(subS, "payload"), (subS, "payload"), (subS, "payload")] ∧
    processNodesEach (fun _ => true) "payload" dbSub txThree.getNodes =
      [[(subS, "payload")], [], [(subS, "payload")], [(subS, "payload")]] :=
  ⟨(processTxn_no_dedup (fun _ => true) dbSub txThree "payload" (7, 9, 0, 0) 0 subS rfl
      (by decide) (by decide) rfl).2.2 (by decide),
    by decide, by decide⟩

theorem getBookListeners_setListener_eq (db : OrderBookDB) (ci co ii io : uint160) (ret : Nat)
    (o : Nat → BookListeners) (k : Nat) (ci2 co2 ii2 io2 : uint160) :
    OrderBookDB.getBookListeners
      { db with objs := o, nextObj := k, mListeners := setListener db.mListeners ci co ii io ret }
      ci2 co2 ii2 io2 =
      if ci2 = ci ∧ co2 = co ∧ ii2 = ii ∧ io2 = io then some ret
      else db.getBookListeners ci2 co2 ii2 io2 := by
  unfold OrderBookDB.getBookListeners setListener
  by_cases h1 : ii2 = ii
  · subst h1
    by_cases h2 : io2 = io
    · subst h2
      by_cases h3 : ci2 = ci
      · subst h3
        by_cases h4 : co2 = co
        · subst h4
          simp
        · cases ha : db.mListeners ii2 with
          | none => simp [h4]
          | some a =>
            cases hb : a io2 with
            | none => simp [h4, hb]
            | some b =>
              cases hc : b ci2 with
              | none => simp [h4, hb, hc]
              | some c => simp [h4, hb, hc]
      · cases ha : db.mListeners ii2 with
        | none => simp [h3]
        | some a =>
          cases hb : a io2 with
          | none => simp [h3, hb]
          | some b => simp [h3, hb]
    · cases ha : db.mListeners ii2 with
      | none => simp [h2]
      | some a => simp [h2]
  · simp [h1]

theorem lookupKey_make (db : OrderBookDB) (key key2 : uint160 × uint160 × uint160 × uint160) :
    lookupKey (db.makeBookListeners key.1 key.2.1 key.2.2.1 key.2.2.2).2 key2 =
      if key2 = key then some (db.makeBookListeners key.1 key.2.1 key.2.2.1 key.2.2.2).1
      else lookupKey db key2 := by
  obtain ⟨ci, co, ii, io⟩ := key
  obtain ⟨ci2, co2, ii2, io2⟩ := key2
  simp only [lookupKey, Prod.mk.injEq]
  unfold OrderBookDB.makeBookListeners
  cases hg : db.getBookListeners ci co ii io with
  | some ret =>
    simp only
    by_cases he : ci2 = ci ∧ co2 = co ∧ ii2 = ii ∧ io2 = io
    · rw [if_pos he, he.1, he.2.1, he.2.2.1, he.2.2.2, hg]
    · rw [if_neg he]
  | none =>
    simp only
    exact getBookListeners_setListener_eq db ci co ii io db.nextObj _ _ ci2 co2 ii2 io2

theorem makeAll_append (a b : List (uint160 × uint160 × uint160 × uint160)) :
    ∀ db : OrderBookDB, (makeAll db (a ++ b)).1 = (makeAll (makeAll db a).1 b).1 := by
  induction a with
  | nil => intro db; rfl
  | cons key rest ih =>
    intro db
    simp only [List.cons_append, makeAll]
    exact ih _

theorem lookupKey_makeAll_stable (calls : List (uint160 × uint160 × uint160 × uint160)) :
    ∀ (db : OrderBookDB) (key : uint160 × uint160 × uint160 × uint160) (ret : Nat),
      lookupKey db key = some ret → lookupKey (makeAll db calls).1 key = some ret := by
  induction calls with
  | nil => intro db key ret h; exact h
  | cons c rest ih =>
    intro db key ret h
    simp only [makeAll]
    apply ih
    rw [lookupKey_make]
    by_cases he : key = c
    · rw [if_pos he]
      subst he
      have hf : db.getBookListeners key.1 key.2.1 key.2.2.1 key.2.2.2 = some ret := h
      rw [makeBookListeners_of_found db _ _ _ _ ret hf]
    · rw [if_neg he]
      exact h

theorem lookupKey_makeAll_absent (calls : List (uint160 × uint160 × uint160 × uint160)) :
    ∀ (db : OrderBookDB) (key : uint160 × uint160 × uint160 × uint160),
      key ∉ calls → lookupKey (makeAll db calls).1 key = lookupKey db key := by
  induction calls with
  | nil => intro db key _; rfl
  | cons c rest ih =>
    intro db key hk
    simp only [makeAll]
    have hne : ¬ key = c := fun h => hk (by rw [h]; exact List.mem_cons_self _ _)
    rw [ih _ key (fun h => hk (List.mem_cons_of_mem _ h)), lookupKey_make, if_neg hne]

theorem exists_first_occurrence {α : Type} [DecidableEq α] (a : α) (l : List α) (h : a ∈ l) :
    ∃ pre post, l = pre ++ a :: post ∧ a ∉ pre := by
  induction l with
  | nil => cases h
  | cons x xs ih =>
    by_cases hx : x = a
    · exact ⟨[], xs, by rw [hx]; rfl, by simp⟩
    · have hmem : a ∈ xs := by
        rcases List.mem_cons.1 h with h2 | h2
        · exact absurd h2.symm hx
        · exact h2
      obtain ⟨pre, post, hl, hp⟩ := ih hmem
      refine ⟨x :: pre, post, by rw [hl]; rfl, ?_⟩
      intro hin
      rcases List.mem_cons.1 hin with h2 | h2
      · exact hx h2.symm
      · exact hp h2

theorem lookupKey_makeAll_first (db : OrderBookDB)
    (pre post : List (uint160 × uint160 × uint160 × uint160))
    (key : uint160 × uint160 × uint160 × uint160) :
    lookupKey (makeAll db (pre ++ key :: post)).1 key =
      some ((makeAll db pre).1.makeBookListeners key.1 key.2.1 key.2.2.1 key.2.2.2).1 := by
  rw [makeAll_append]
  simp only [makeAll]
  apply lookupKey_makeAll_stable
  rw [lookupKey_make, if_pos rfl]

theorem makeAll_refines_flat (calls : List (uint160 × uint160 × uint160 × uint160)) :
    ∀ (db : OrderBookDB) (flat : FlatRegistry), (∀ key, lookupKey db key = flat key) →
      (makeAll db calls).2 = (flatMakeAll flat db.nextObj calls).2 ∧
      ∀ key, lookupKey (makeAll db calls).1 key = (flatMakeAll flat db.nextObj calls).1 key := by
  induction calls with
  | nil => intro db flat h; exact ⟨rfl, h⟩
  | cons c rest ih =>
    intro db flat h
    have hstep : (db.makeBookListeners c.1 c.2.1 c.2.2.1 c.2.2.2).1 = (flatMake flat db.nextObj c).1 ∧
        (∀ key, lookupKey (db.makeBookListeners c.1 c.2.1 c.2.2.1 c.2.2.2).2 key =
          (flatMake flat db.nextObj c).2.1 key) ∧
        (db.makeBookListeners c.1 c.2.1 c.2.2.1 c.2.2.2).2.nextObj =
          (flatMake flat db.nextObj c).2.2 := by
      have hc := h c
      unfold flatMake
      cases hf : flat c with
      | some ret =>
        rw [hf] at hc
        have hc2 : db.getBookListeners c.1 c.2.1 c.2.2.1 c.2.2.2 = some ret := hc
        rw [makeBookListeners_of_found db _ _ _ _ ret hc2]
        exact ⟨rfl, h, rfl⟩
      | none =>
        rw [hf] at hc
        have hc2 : db.getBookListeners c.1 c.2.1 c.2.2.1 c.2.2.2 = none := hc
        refine ⟨?_, ?_, ?_⟩
        · unfold OrderBookDB.makeBookListeners
          rw [hc2]
        · intro key
          rw [lookupKey_make]
          have hret : (db.makeBookListeners c.1 c.2.1 c.2.2.1 c.2.2.2).1 = db.nextObj := by
            unfold OrderBookDB.makeBookListeners
            rw [hc2]
          by_cases he : key = c
          · rw [if_pos he, hret, he]
            simp [Function.update]
          · rw [if_neg he]
            simp [Function.update, he, h key]
        · unfold OrderBookDB.makeBookListeners
          rw [hc2]
    obtain ⟨h1, h2, h3⟩ := hstep
    obtain ⟨i1, i2⟩ := ih _ _ h2
    simp only [makeAll, flatMakeAll]
    rw [h3] at i1 i2
    exact ⟨by rw [h1, i1], i2⟩

/-- C17: the nested registry behaves like the single map keyed by the four-tuple
(currencyIn, currencyOut, issuerIn, issuerOut): a `makeBookListeners` call makes
`getBookListeners` answer its own key with the pointer it returned and every
other key as before; for every sequence of calls, from states that answer every
key alike, the nested registry and the single map return the same pointers and
answer every key alike afterwards; and from an empty registry a key has an
entry after the calls exactly when it is one of the keys called, and the entry
is the pointer that the first call with the key returned. -/
theorem registry_refines_flat_map (db : OrderBookDB)
    (calls : List (uint160 × uint160 × uint160 × uint160)) :
    (∀ key key2 : uint160 × uint160 × uint160 × uint160,
      lookupKey (db.makeBookListeners key.1 key.2.1 key.2.2.1 key.2.2.2).2 key2 =
        if key2 = key then some (db.makeBookListeners key.1 key.2.1 key.2.2.1 key.2.2.2).1
        else lookupKey db key2) ∧
    (∀ flat : FlatRegistry, (∀ key, lookupKey db key = flat key) →
      (makeAll db calls).2 = (flatMakeAll flat db.nextObj calls).2 ∧
      ∀ key, lookupKey (makeAll db calls).1 key = (flatMakeAll flat db.nextObj calls).1 key) ∧
    (db.mListeners = (fun _ => none) →
      ∀ key : uint160 × uint160 × uint160 × uint160,
        ((lookupKey (makeAll db calls).1 key).isSome = true ↔ key ∈ calls) ∧
        ∀ pre post, calls = pre ++ key :: post → key ∉ pre →
          lookupKey (makeAll db calls).1 key =
            some ((makeAll db pre).1.makeBookListeners key.1 key.2.1 key.2.2.1 key.2.2.2).1) := by
  refine ⟨lookupKey_make db, makeAll_refines_flat calls db, ?_⟩
  intro hempty key
  have hnone : lookupKey db key = none := by
    unfold lookupKey OrderBookDB.getBookListeners
    rw [hempty]
  constructor
  · constructor
    · intro hs
      by_contra hk
      rw [lookupKey_makeAll_absent calls db key hk, hnone] at hs
      cases hs
    · intro hk
      obtain ⟨pre, post, hl, _⟩ := exists_first_occurrence key calls hk
      rw [hl, lookupKey_makeAll_first]
      rfl
  · intro pre post hl _
    rw [hl]
    exact lookupKey_makeAll_first db pre post key

/-- C17 on a concrete input: from the empty registry, calls for the USD/rA to
native key, for the key with its currencies swapped, and for the first key
again. -/
theorem registry_refines_flat_map_witness :
    (makeAll dbEx [(7, 0, 9, 0), (0, 7, 9, 0), (7, 0, 9, 0)]).2 = [0, 1, 0] ∧
    lookupKey (makeAll dbEx [(7, 0, 9, 0), (0, 7, 9, 0), (7, 0, 9, 0)]).1 (7, 0, 9, 0) =
      some ((makeAll dbEx []).1.makeBookListeners 7 0 9 0).1 ∧
    ((lookupKey (makeAll dbEx [(7, 0, 9, 0), (0, 7, 9, 0), (7, 0, 9, 0)]).1 (9, 0, 7, 0)).isSome
      = true ↔ ((9, 0, 7, 0) : uint160 × uint160 × uint160 × uint160) ∈
        [((7, 0, 9, 0) : uint160 × uint160 × uint160 × uint160), (0, 7, 9, 0), (7, 0, 9, 0)]) :=
  ⟨by decide,
    ((registry_refines_flat_map dbEx [(7, 0, 9, 0), (0, 7, 9, 0), (7, 0, 9, 0)]).2.2 rfl
      (7, 0, 9, 0)).2 [] [(0, 7, 9, 0), (7, 0, 9, 0)] rfl (by simp),
    ((registry_refines_flat_map dbEx [(7, 0, 9, 0), (0, 7, 9, 0), (7, 0, 9, 0)]).2.2 rfl
      (9, 0, 7, 0)).1⟩

theorem setupVisit_of_readFails (getBookBase : uint160 → uint160 → uint160 → uint160 → uint256)
    (cur : uint256) (e : SLE) (mSeen : List uint256) (db : OrderBookDB)
    (h : readFails cur e = true) : setupVisit getBookBase cur e mSeen db = none := by
  unfold readFails at h
  simp only [Bool.and_eq_true, decide_eq_true_eq] at h
  obtain ⟨⟨ht, hx⟩, hr⟩ := h
  unfold setupVisit
  rw [if_pos ⟨ht, hx⟩]
  cases hroot : e.getFieldH256 SField.sfRootIndex with
  | none => rfl
  | some root =>
    rw [hroot] at hr
    simp only [Bool.and_eq_true, decide_eq_true_eq, Bool.or_eq_true, Option.isNone_iff_eq_none]
      at hr
    obtain ⟨hrc, hf⟩ := hr
    simp only
    rw [if_pos hrc]
    cases h1 : e.getFieldH160 SField.sfTakerPaysCurrency with
    | none => rfl
    | some ci =>
    cases h2 : e.getFieldH160 SField.sfTakerGetsCurrency with
    | none => rfl
    | some co =>
    cases h3 : e.getFieldH160 SField.sfTakerPaysIssuer with
    | none => rfl
    | some ii =>
    cases h4 : e.getFieldH160 SField.sfTakerGetsIssuer with
    | none => rfl
    | some io =>
      rw [h1, h2, h3, h4] at hf
      simp at hf

theorem readFails_of_identityReadFails (cur : uint256) (e : SLE)
    (h : identityReadFails cur e = true) : readFails cur e = true := by
  unfold identityReadFails at h
  simp only [Bool.and_eq_true, decide_eq_true_eq] at h
  obtain ⟨⟨⟨ht, hx⟩, hr⟩, hf⟩ := h
  unfold readFails
  rw [hr]
  simp only [Bool.and_eq_true, decide_eq_true_eq]
  exact ⟨⟨ht, hx⟩, trivial, hf⟩

/-- The loop of `setup` ends by raising at the first entry with a failing read,
with the Books of the entries before it. -/
theorem setupLoop_throws (getBookBase : uint160 → uint160 → uint160 → uint160 → uint256)
    (ledger : Ledger) (e : SLE) :
    ∀ (k fuel : Nat) (cur : uint256) (mSeen : List uint256) (db : OrderBookDB)
      (kept earlier : List OrderBook),
      LoopInv getBookBase kept earlier mSeen db →
      (chainFrom ledger k cur).length = k →
      readableFrom ledger k cur = true →
      (ledger.getNextLedgerIndex^[k]) cur ≠ 0 →
      ledger.getSLEi ((ledger.getNextLedgerIndex^[k]) cur) = some e →
      readFails ((ledger.getNextLedgerIndex^[k]) cur) e = true →
      k < fuel →
      ∃ db2, setupLoop getBookBase ledger fuel cur mSeen db = some (db2, Outcome.threw) ∧
        HoldsExactly db2 (kept ++ firstPerBaseAfter earlier (chainRoots getBookBase ledger k cur)) ∧
        SameOutsideIndex db db2 ∧
        setupLoopVisited getBookBase ledger fuel cur mSeen db =
          some (chainFrom ledger k cur ++ [(ledger.getNextLedgerIndex^[k]) cur]) := by
  intro k
  induction k with
  | zero =>
    intro fuel cur mSeen db kept earlier hinv _ _ hcur hentry hfail hfuel
    obtain ⟨fuel, rfl⟩ : ∃ f, fuel = f + 1 := ⟨fuel - 1, by omega⟩
    simp only [Function.iterate_zero, id_eq] at hcur hentry hfail
    refine ⟨db, ?_, ?_, SameOutsideIndex.refl _, ?_⟩
    · rw [setupLoop, if_neg hcur, hentry]
      simp only [setupVisit_of_readFails getBookBase cur e mSeen db hfail]
    · simpa [chainRoots, chainFrom, firstPerBaseAfter] using hinv.holds
    · rw [setupLoopVisited, if_neg hcur, hentry]
      simp only [setupVisit_of_readFails getBookBase cur e mSeen db hfail]
      simp [chainFrom]
  | succ k ih =>
    intro fuel cur mSeen db kept earlier hinv hlen hread hcur hentry hfail hfuel
    obtain ⟨fuel, rfl⟩ : ∃ f, fuel = f + 1 := ⟨fuel - 1, by omega⟩
    have hc : cur ≠ 0 := by
      intro h0
      rw [chainFrom, if_pos h0] at hlen
      cases hlen
    rw [chainFrom, if_neg hc] at hlen
    have hlen2 : (chainFrom ledger k (ledger.getNextLedgerIndex cur)).length = k := by
      simpa using hlen
    obtain ⟨e0, he0, hv, hread2⟩ := setupVisit_readable getBookBase ledger k cur hc hread
    obtain ⟨⟨mSeen2, db3⟩, hv2⟩ := hv mSeen db
    obtain ⟨hinv2, hsame⟩ := setupVisit_spec getBookBase cur e0 hinv hv2
    rw [Function.iterate_succ_apply] at hcur hentry hfail
    obtain ⟨db2, h1, h2, h3, h4⟩ := ih fuel (ledger.getNextLedgerIndex cur) mSeen2 db3 _ _ hinv2
      hlen2 hread2 hcur hentry hfail (by omega)
    refine ⟨db2, ?_, ?_, hsame.trans h3, ?_⟩
    · rw [setupLoop, if_neg hc, he0]
      simp only [hv2]
      exact h1
    · rw [chainRoots_succ getBookBase ledger k cur hc, firstPerBaseAfter_append,
        ← List.append_assoc]
      simpa [rootBookAt, he0] using h2
    · rw [setupLoopVisited, if_neg hc, he0]
      simp only [hv2, h4, Option.map_some']
      rw [chainFrom, if_neg hc, Function.iterate_succ_apply]
      rfl

/-- The loop of `setup` visits the chain when it returns. -/
theorem setupLoopVisited_returns (getBookBase : uint160 → uint160 → uint160 → uint160 → uint256)
    (ledger : Ledger) :
    ∀ (n fuel : Nat) (cur : uint256) (mSeen : List uint256) (db : OrderBookDB),
      (ledger.getNextLedgerIndex^[n]) cur = 0 → readableFrom ledger n cur = true → n ≤ fuel →
      setupLoopVisited getBookBase ledger fuel cur mSeen db = some (chainFrom ledger n cur) := by
  intro n
  induction n with
  | zero =>
    intro fuel cur mSeen db h _ _
    have hc : cur = 0 := by simpa using h
    cases fuel <;> simp [setupLoopVisited, hc, chainFrom]
  | succ n ih =>
    intro fuel cur mSeen db h hr hf
    obtain ⟨fuel, rfl⟩ : ∃ k, fuel = k + 1 := ⟨fuel - 1, by omega⟩
    by_cases hc : cur = 0
    · simp [setupLoopVisited, hc, chainFrom]
    · obtain ⟨e, he, hv, hr2⟩ := setupVisit_readable getBookBase ledger n cur hc hr
      obtain ⟨⟨mSeen2, db3⟩, hv2⟩ := hv mSeen db
      rw [Function.iterate_succ_apply] at h
      rw [setupLoopVisited, if_neg hc, he]
      simp only [hv2]
      rw [ih fuel _ mSeen2 db3 h hr2 (by omega), chainFrom, if_neg hc]
      rfl

/-- The chain is the indices before the first zero. -/
theorem chainFrom_eq_iterates (ledger : Ledger) :
    ∀ (n : Nat) (cur : uint256), (ledger.getNextLedgerIndex^[n]) cur = 0 →
      ∃ k, k ≤ n ∧ (ledger.getNextLedgerIndex^[k]) cur = 0 ∧
        (∀ j, j < k → (ledger.getNextLedgerIndex^[j]) cur ≠ 0) ∧
        chainFrom ledger n cur =
          (List.range k).map (fun j => (ledger.getNextLedgerIndex^[j]) cur) := by
  intro n
  induction n with
  | zero =>
    intro cur h
    exact ⟨0, le_refl _, h, fun j hj => by omega, rfl⟩
  | succ n ih =>
    intro cur h
    by_cases hc : cur = 0
    · refine ⟨0, by omega, by simpa using hc, fun j hj => by omega, ?_⟩
      rw [chainFrom, if_pos hc]
      rfl
    · rw [Function.iterate_succ_apply] at h
      obtain ⟨k, hk, hz, hnz, hch⟩ := ih (ledger.getNextLedgerIndex cur) h
      refine ⟨k + 1, by omega, by rw [Function.iterate_succ_apply]; exact hz, ?_, ?_⟩
      · intro j hj
        cases j with
        | zero => simpa using hc
        | succ j =>
          rw [Function.iterate_succ_apply]
          exact hnz j (by omega)
      · rw [chainFrom, if_neg hc, hch, List.range_succ_eq_map, List.map_cons, List.map_map]
        rfl

theorem iterates_nodup (f : uint256 → uint256) (cur : uint256) (k : Nat)
    (hz : (f^[k]) cur = 0) (hnz : ∀ j, j < k → (f^[j]) cur ≠ 0) :
    ((List.range k).map (fun j => (f^[j]) cur)).Nodup := by
  apply List.Nodup.map_on _ (List.nodup_range k)
  have key : ∀ i j, i < j → j < k → (f^[i]) cur ≠ (f^[j]) cur := by
    intro i j hij hjk heq
    have h1 : (f^[k - j + i]) cur = 0 := by
      rw [Function.iterate_add_apply, heq, ← Function.iterate_add_apply]
      have : k - j + j = k := by omega
      rw [this]
      exact hz
    exact hnz (k - j + i) (by omega) h1
  intro i hi j hj heq
  rw [List.mem_range] at hi hj
  rcases Nat.lt_trichotomy i j with h | h | h
  · exact absurd heq (key i j h hj)
  · exact h
  · exact absurd heq.symm (key j i h hi)

/-- The body of the loop of `setup` raises exactly when a read fails. -/
theorem setupVisit_none_iff (getBookBase : uint160 → uint160 → uint160 → uint160 → uint256)
    (cur : uint256) (e : SLE) (mSeen : List uint256) (db : OrderBookDB) :
    setupVisit getBookBase cur e mSeen db = none ↔ readFails cur e = true := by
  constructor
  · intro h
    unfold setupVisit at h
    unfold readFails
    by_cases hq : e.getType = LedgerEntryType.ltDIR_NODE ∧
        e.isFieldPresent SField.sfExchangeRate = true
    · rw [if_pos hq] at h
      simp only [hq.1, hq.2, decide_True, Bool.and_self, Bool.true_and]
      cases hroot : e.getFieldH256 SField.sfRootIndex with
      | none => rfl
      | some root =>
        rw [hroot] at h
        simp only at h ⊢
        by_cases hrc : root = cur
        · rw [if_pos hrc] at h
          simp only [hrc, decide_True, Bool.true_and]
          cases h1 : e.getFieldH160 SField.sfTakerPaysCurrency with
          | none => simp
          | some ci =>
          cases h2 : e.getFieldH160 SField.sfTakerGetsCurrency with
          | none => simp
          | some co =>
          cases h3 : e.getFieldH160 SField.sfTakerPaysIssuer with
          | none => simp
          | some ii =>
          cases h4 : e.getFieldH160 SField.sfTakerGetsIssuer with
          | none => simp
          | some io =>
            rw [h1, h2, h3, h4] at h
            simp only at h
            split at h
            · cases h
            · split at h <;> cases h
        · rw [if_neg hrc] at h
          cases h
    · rw [if_neg hq] at h
      cases h
  · exact setupVisit_of_readFails getBookBase cur e mSeen db

/-- The loop that gives the visited indices ends exactly when the loop of
`setup` ends. -/
theorem setupLoopVisited_isSome (getBookBase : uint160 → uint160 → uint160 → uint160 → uint256)
    (ledger : Ledger) :
    ∀ (fuel : Nat) (cur : uint256) (mSeen : List uint256) (db : OrderBookDB),
      (setupLoopVisited getBookBase ledger fuel cur mSeen db).isSome =
        (setupLoop getBookBase ledger fuel cur mSeen db).isSome := by
  intro fuel
  induction fuel with
  | zero =>
    intro cur mSeen db
    rw [setupLoopVisited, setupLoop]
    split <;> rfl
  | succ fuel ih =>
    intro cur mSeen db
    rw [setupLoopVisited, setupLoop]
    by_cases hc : cur = 0
    · rw [if_pos hc, if_pos hc]; rfl
    · rw [if_neg hc, if_neg hc]
      cases ledger.getSLEi cur with
      | none => rfl
      | some e =>
        simp only
        cases setupVisit getBookBase cur e mSeen db with
        | none => rfl
        | some r =>
          obtain ⟨mSeen2, db3⟩ := r
          simp only [Option.isSome_map']
          exact ih _ _ _

/-- C18 (as stated, refuted): the chain of `ledgerCut` reaches zero after three
steps and each of its indices resolves to an entry, but `setup` visits the
first two only, since a read raises at the second. -/
theorem setup_traversal_counterexample :
    (ledgerCut.getNextLedgerIndex^[3]) ledgerCut.getFirstLedgerIndex = 0 ∧
    chainFrom ledgerCut 3 ledgerCut.getFirstLedgerIndex = [1, 2, 3] ∧
    (∀ i ∈ chainFrom ledgerCut 3 ledgerCut.getFirstLedgerIndex,
      (ledgerCut.getSLEi i).isSome = true) ∧
    OrderBookDB.new.setupVisited gbbEx 3 ledgerCut = some [1, 2] ∧
    ¬ ∃ fuel, OrderBookDB.new.setupVisited gbbEx fuel ledgerCut = some [1, 2, 3] := by
  refine ⟨by decide, by decide, by decide, by decide, ?_⟩
  rintro ⟨fuel, h⟩
  rcases fuel with _ | _ | fuel
  · exact absurd h (by decide)
  · exact absurd h (by decide)
  · have hinv : LoopInv gbbEx [] [] []
        { OrderBookDB.new with mSeq := ledgerCut.getLedgerSeq, mXRPOrders := [],
                               mIssuerMap := fun _ => none } :=
      ⟨⟨rfl, bucketsOf_nil.symm⟩, by simp, by simp, by simp, by simp⟩
    obtain ⟨db3, _, _, _, h3⟩ := setupLoop_throws gbbEx ledgerCut (brokenRootEntry 2) 1 (fuel + 2)
      ledgerCut.getFirstLedgerIndex [] _ [] [] hinv (by decide) (by decide) (by decide) rfl
      (by decide) (by omega)
    have h4 : OrderBookDB.new.setupVisited gbbEx (fuel + 2) ledgerCut =
        some (chainFrom ledgerCut 1 ledgerCut.getFirstLedgerIndex ++
          [(ledgerCut.getNextLedgerIndex^[1]) ledgerCut.getFirstLedgerIndex]) := by
      unfold OrderBookDB.setupVisited
      rw [if_neg (by decide)]
      exact h3
    rw [h4] at h
    exact absurd h (by decide)

/-- C18 (amended): for every snapshot whose chain from the first index reaches
zero after finitely many steps, and in which every index on the chain resolves
to an entry whose fields `setup` reads can be read, a `setup` that rescans
returns, and the indices it visits are the indices of the chain, each once and
in chain order: the iterates of the next index from the first index, up to and
without the first zero; when the first index is zero the index is left
empty. -/
theorem setup_traversal (getBookBase : uint160 → uint160 → uint160 → uint160 → uint256)
    (db : OrderBookDB) (ledger : Ledger) (n fuel : Nat)
    (hseq : ledger.getLedgerSeq ≠ db.mSeq)
    (hchain : (ledger.getNextLedgerIndex^[n]) ledger.getFirstLedgerIndex = 0)
    (hread : readableFrom ledger n ledger.getFirstLedgerIndex = true)
    (hfuel : n ≤ fuel) :
    (∃ db2, db.setup getBookBase fuel ledger = some (db2, Outcome.returned) ∧
      (ledger.getFirstLedgerIndex = 0 →
        db2.mXRPOrders = [] ∧ db2.mIssuerMap = fun _ => none)) ∧
    db.setupVisited getBookBase fuel ledger =
      some (chainFrom ledger n ledger.getFirstLedgerIndex) ∧
    (chainFrom ledger n ledger.getFirstLedgerIndex).Nodup ∧
    ∃ k, k ≤ n ∧ (ledger.getNextLedgerIndex^[k]) ledger.getFirstLedgerIndex = 0 ∧
      (∀ j, j < k → (ledger.getNextLedgerIndex^[j]) ledger.getFirstLedgerIndex ≠ 0) ∧
      chainFrom ledger n ledger.getFirstLedgerIndex =
        (List.range k).map (fun j => (ledger.getNextLedgerIndex^[j]) ledger.getFirstLedgerIndex)
    := by
  obtain ⟨k, hk, hz, hnz, hch⟩ := chainFrom_eq_iterates ledger n ledger.getFirstLedgerIndex hchain
  refine ⟨?_, ?_, ?_, ⟨k, hk, hz, hnz, hch⟩⟩
  · obtain ⟨db2, h2⟩ := setupLoop_returns getBookBase ledger n fuel ledger.getFirstLedgerIndex []
      { db with mSeq := ledger.getLedgerSeq, mXRPOrders := [], mIssuerMap := fun _ => none }
      hchain hread hfuel
    refine ⟨db2, ?_, ?_⟩
    · unfold OrderBookDB.setup
      rw [if_neg hseq]
      exact h2
    · intro h0
      rw [h0] at h2
      have : db2 = { db with mSeq := ledger.getLedgerSeq, mXRPOrders := [],
                             mIssuerMap := fun _ => none } := by
        cases fuel <;> simp [setupLoop] at h2 <;> exact h2.symm
      rw [this]
      exact ⟨rfl, rfl⟩
  · unfold OrderBookDB.setupVisited
    rw [if_neg hseq]
    exact setupLoopVisited_returns getBookBase ledger n fuel _ _ _ hchain hread hfuel
  · rw [hch]
    exact iterates_nodup _ _ k hz hnz

/-- C18 (amended), on a concrete input: `setup` on `ledgerEx` visits the
indices 1, 2 and 3. -/
theorem setup_traversal_witness :
    dbOld.setupVisited gbbEx 3 ledgerEx = some (chainFrom ledgerEx 3 ledgerEx.getFirstLedgerIndex) ∧
    chainFrom ledgerEx 3 ledgerEx.getFirstLedgerIndex = [1, 2, 3] :=
  ⟨(setup_traversal gbbEx dbOld ledgerEx 3 3 (by decide) (by decide) (by decide)
      (by decide)).2.1, by decide⟩

/-- C20: when a field read fails at a visited entry during a rescan, the
entries before it being readable, `setup` ends by raising with `mSeq` already
equal to the ledger's sequence and the index holding exactly the Books found
before the failing entry; a following `setup` with the same ledger returns the
state unchanged for every bound on the loop, so without a scan; and the scan is
made again after `invalidate`, or for a ledger with another sequence. -/
theorem setup_not_atomic (getBookBase : uint160 → uint160 → uint160 → uint160 → uint256)
    (db : OrderBookDB) (ledger : Ledger) (k fuel : Nat) (e : SLE)
    (hseq : ledger.getLedgerSeq ≠ db.mSeq)
    (hbefore : (chainFrom ledger k ledger.getFirstLedgerIndex).length = k)
    (hread : readableFrom ledger k ledger.getFirstLedgerIndex = true)
    (hcur : (ledger.getNextLedgerIndex^[k]) ledger.getFirstLedgerIndex ≠ 0)
    (hentry : ledger.getSLEi ((ledger.getNextLedgerIndex^[k]) ledger.getFirstLedgerIndex) = some e)
    (hfails : readFails ((ledger.getNextLedgerIndex^[k]) ledger.getFirstLedgerIndex) e = true)
    (hfuel : k < fuel) :
    ∃ db2, db.setup getBookBase fuel ledger = some (db2, Outcome.threw) ∧
      db2.mSeq = ledger.getLedgerSeq ∧
      HoldsExactly db2 (specBooks getBookBase ledger k) ∧
      (∀ fuel2, db2.setup getBookBase fuel2 ledger = some (db2, Outcome.returned)) ∧
      (∀ fuel2, db2.setupVisited getBookBase fuel2 ledger = some []) ∧
      (ledger.getLedgerSeq ≠ 0 → ∀ fuel2,
        db2.invalidate.setup getBookBase fuel2 ledger =
          setupLoop getBookBase ledger fuel2 ledger.getFirstLedgerIndex []
            { db2 with mSeq := ledger.getLedgerSeq, mXRPOrders := [],
                       mIssuerMap := fun _ => none }) ∧
      (∀ (other : Ledger) (fuel2 : Nat), other.getLedgerSeq ≠ ledger.getLedgerSeq →
        db2.setup getBookBase fuel2 other =
          setupLoop getBookBase other fuel2 other.getFirstLedgerIndex []
            { db2 with mSeq := other.getLedgerSeq, mXRPOrders := [],
                       mIssuerMap := fun _ => none }) := by
  have hinv : LoopInv getBookBase [] [] []
      { db with mSeq := ledger.getLedgerSeq, mXRPOrders := [], mIssuerMap := fun _ => none } :=
    ⟨⟨rfl, bucketsOf_nil.symm⟩, by simp, by simp, by simp, by simp⟩
  obtain ⟨db2, h1, h2, h3, _⟩ := setupLoop_throws getBookBase ledger e k fuel
    ledger.getFirstLedgerIndex [] _ [] [] hinv hbefore hread hcur hentry hfails hfuel
  have hs : db2.mSeq = ledger.getLedgerSeq := h3.1
  refine ⟨db2, ?_, hs, ?_, ?_, ?_, ?_, ?_⟩
  · unfold OrderBookDB.setup
    rw [if_neg hseq]
    exact h1
  · simpa [specBooks, firstPerBase] using h2
  · intro fuel2
    unfold OrderBookDB.setup
    rw [if_pos hs.symm]
  · intro fuel2
    unfold OrderBookDB.setupVisited
    rw [if_pos hs.symm]
  · intro h0 fuel2
    unfold OrderBookDB.setup
    rw [if_neg (by exact h0)]
    rfl
  · intro other fuel2 ho
    unfold OrderBookDB.setup
    rw [if_neg (by rw [hs]; exact ho)]

/-- C20 on a concrete input: `setup` on `ledgerCut` leaves the index with the
one Book found before the unreadable root, and a second `setup` keeps it. -/
theorem setup_not_atomic_witness :
    OrderBookDB.new.setup gbbEx 3 ledgerCut = some (dbCut, Outcome.threw) ∧
    ∃ db2, OrderBookDB.new.setup gbbEx 3 ledgerCut = some (db2, Outcome.threw) ∧
      db2.mSeq = ledgerCut.getLedgerSeq ∧
      HoldsExactly db2 (specBooks gbbEx ledgerCut 1) ∧
      (∀ fuel2, db2.setup gbbEx fuel2 ledgerCut = some (db2, Outcome.returned)) ∧
      (∀ fuel2, db2.setupVisited gbbEx fuel2 ledgerCut = some []) ∧
      (ledgerCut.getLedgerSeq ≠ 0 → ∀ fuel2,
        db2.invalidate.setup gbbEx fuel2 ledgerCut =
          setupLoop gbbEx ledgerCut fuel2 ledgerCut.getFirstLedgerIndex []
            { db2 with mSeq := ledgerCut.getLedgerSeq, mXRPOrders := [],
                       mIssuerMap := fun _ => none }) ∧
      (∀ (other : Ledger) (fuel2 : Nat), other.getLedgerSeq ≠ ledgerCut.getLedgerSeq →
        db2.setup gbbEx fuel2 other =
          setupLoop gbbEx other fuel2 other.getFirstLedgerIndex []
            { db2 with mSeq := other.getLedgerSeq, mXRPOrders := [],
                       mIssuerMap := fun _ => none }) :=
  ⟨rfl, setup_not_atomic gbbEx OrderBookDB.new ledgerCut 1 3 (brokenRootEntry 2)
    (by decide) (by decide) (by decide) (by decide) rfl (by decide) (by decide)⟩

/-- After `invalidate`, `setup` for a ledger with a sequence other than zero runs
the loop on emptied containers and ends the way `setup` on a new index ends. -/
theorem setupAfterInvalidate_agrees
    (getBookBase : uint160 → uint160 → uint160 → uint160 → uint256)
    (db : OrderBookDB) (ledger : Ledger) (fuel : Nat)
    (hseq : ledger.getLedgerSeq ≠ 0) :
    db.invalidate.setup getBookBase fuel ledger =
      setupLoop getBookBase ledger fuel ledger.getFirstLedgerIndex []
        { db with mSeq := ledger.getLedgerSeq, mXRPOrders := [], mIssuerMap := fun _ => none } ∧
    (db.invalidate.setup getBookBase fuel ledger).map
        (fun r => (r.1.mSeq, r.1.mXRPOrders, r.1.mIssuerMap, r.2)) =
      (OrderBookDB.new.setup getBookBase fuel ledger).map
        (fun r => (r.1.mSeq, r.1.mXRPOrders, r.1.mIssuerMap, r.2)) ∧
    (∀ n, (ledger.getNextLedgerIndex^[n]) ledger.getFirstLedgerIndex = 0 → n ≤ fuel →
      ∃ db1 out, db.invalidate.setup getBookBase fuel ledger = some (db1, out) ∧
        db1.mSeq = ledger.getLedgerSeq ∧
        (out = Outcome.returned → HoldsExactly db1 (specBooks getBookBase ledger n))) := by
  have hnew : OrderBookDB.new.setup getBookBase fuel ledger =
      setupLoop getBookBase ledger fuel ledger.getFirstLedgerIndex []
        { OrderBookDB.new with mSeq := ledger.getLedgerSeq, mXRPOrders := [],
                               mIssuerMap := fun _ => none } := by
    unfold OrderBookDB.setup
    rw [if_neg (by exact hseq)]
  have hinv : db.invalidate.setup getBookBase fuel ledger =
      setupLoop getBookBase ledger fuel ledger.getFirstLedgerIndex []
        (reframe db.mListeners db.objs db.nextObj
          { OrderBookDB.new with mSeq := ledger.getLedgerSeq, mXRPOrders := [],
                                 mIssuerMap := fun _ => none }) := by
    unfold OrderBookDB.setup
    rw [if_neg (by exact hseq)]
    rfl
  refine ⟨?_, ?_, ?_⟩
  · rw [hinv]
    rfl
  · rw [hinv, hnew, setupLoop_reframe]
    cases setupLoop getBookBase ledger fuel ledger.getFirstLedgerIndex []
        { OrderBookDB.new with mSeq := ledger.getLedgerSeq, mXRPOrders := [],
                               mIssuerMap := fun _ => none } with
    | none => rfl
    | some r => rfl
  · intro n hchain hfuel
    obtain ⟨⟨db1, out⟩, hr⟩ := setupLoop_ends getBookBase ledger n fuel
      ledger.getFirstLedgerIndex []
      (reframe db.mListeners db.objs db.nextObj
        { OrderBookDB.new with mSeq := ledger.getLedgerSeq, mXRPOrders := [],
                               mIssuerMap := fun _ => none }) hchain hfuel
    rw [hr] at hinv
    have hseq2 : ledger.getLedgerSeq ≠ db.invalidate.mSeq := hseq
    obtain ⟨kept, hh, _, _, hs, _, _, _, hk⟩ :=
      setup_spec getBookBase fuel db.invalidate ledger db1 out hseq2 hinv
    refine ⟨db1, out, hinv, hs, ?_⟩
    intro ho
    have hk2 := hk ho
    unfold specBooks chainRoots at hk2 ⊢
    rw [chainFrom_mono ledger n fuel _ hchain hfuel] at hk2
    rw [← hk2]
    exact hh

/-- C5 (as stated, refuted): for a ledger with sequence zero, `setup` after
`invalidate` does not rescan, visits nothing and keeps the old Books, where
`setup` on a new index leaves it empty; and for `ledgerCut`, with sequence 5,
`setup` after `invalidate` rescans but ends by raising at the second entry of
a chain of three. -/
theorem setup_after_invalidate_counterexample :
    dbOld.invalidate.setup gbbEx 3 ledgerZero = some (dbOld.invalidate, Outcome.returned) ∧
    OrderBookDB.new.setup gbbEx 3 ledgerZero = some (OrderBookDB.new, Outcome.returned) ∧
    ledgerZero.getLedgerSeq = 0 ∧
    dbOld.invalidate.setupVisited gbbEx 3 ledgerZero = some [] ∧
    chainFrom ledgerZero 3 ledgerZero.getFirstLedgerIndex = [1, 2, 3] ∧
    dbOld.invalidate.mXRPOrders = [⟨3011, 0, 30, 0, 3⟩] ∧
    OrderBookDB.new.mXRPOrders = [] ∧
    dbOld.invalidate.getBooks 4 = [⟨81, 40, 0, 4, 0⟩] ∧
    OrderBookDB.new.getBooks 4 = [] ∧
    ledgerCut.getLedgerSeq = 5 ∧
    chainFrom ledgerCut 3 ledgerCut.getFirstLedgerIndex = [1, 2, 3] ∧
    dbOld.invalidate.setupVisited gbbEx 3 ledgerCut = some [1, 2] ∧
    (dbOld.invalidate.setup gbbEx 3 ledgerCut).map Prod.snd = some Outcome.threw :=
  ⟨rfl, rfl, rfl, by decide, by decide, rfl, rfl, by decide, by decide, rfl, by decide,
    by decide, by decide⟩

/-- C5 (amended): for every state and every ledger snapshot with a sequence
other than zero, whose chain from the first index reaches zero and in which
every index on the chain resolves to an entry whose fields `setup` reads can be
read, the first `setup` after `invalidate` rescans: it returns, it visits every
index of the chain in chain order, and it leaves the sequence, the native list
and the issuer map that `setup` on a newly constructed index leaves, which hold
exactly the Books of the description; the registry is not touched. -/
theorem setup_after_invalidate
    (getBookBase : uint160 → uint160 → uint160 → uint160 → uint256)
    (db : OrderBookDB) (ledger : Ledger) (n fuel : Nat)
    (hseq : ledger.getLedgerSeq ≠ 0)
    (hchain : (ledger.getNextLedgerIndex^[n]) ledger.getFirstLedgerIndex = 0)
    (hread : readableFrom ledger n ledger.getFirstLedgerIndex = true)
    (hfuel : n ≤ fuel) :
    ∃ db1 db2,
      db.invalidate.setup getBookBase fuel ledger = some (db1, Outcome.returned) ∧
      OrderBookDB.new.setup getBookBase fuel ledger = some (db2, Outcome.returned) ∧
      db.invalidate.setupVisited getBookBase fuel ledger =
        some (chainFrom ledger n ledger.getFirstLedgerIndex) ∧
      db1.mSeq = ledger.getLedgerSeq ∧
      db1.mSeq = db2.mSeq ∧
      db1.mXRPOrders = db2.mXRPOrders ∧
      db1.mIssuerMap = db2.mIssuerMap ∧
      HoldsExactly db1 (specBooks getBookBase ledger n) ∧
      db1.mListeners = db.mListeners ∧ db1.objs = db.objs ∧ db1.nextObj = db.nextObj := by
  have hseq1 : ledger.getLedgerSeq ≠ db.invalidate.mSeq := hseq
  have hseq2 : ledger.getLedgerSeq ≠ OrderBookDB.new.mSeq := hseq
  obtain ⟨db1, h1⟩ := setupLoop_returns getBookBase ledger n fuel ledger.getFirstLedgerIndex []
    { db.invalidate with mSeq := ledger.getLedgerSeq, mXRPOrders := [],
                         mIssuerMap := fun _ => none } hchain hread hfuel
  obtain ⟨db2, h2⟩ := setupLoop_returns getBookBase ledger n fuel ledger.getFirstLedgerIndex []
    { OrderBookDB.new with mSeq := ledger.getLedgerSeq, mXRPOrders := [],
                           mIssuerMap := fun _ => none } hchain hread hfuel
  have hs1 : db.invalidate.setup getBookBase fuel ledger = some (db1, Outcome.returned) := by
    unfold OrderBookDB.setup
    rw [if_neg hseq1]
    exact h1
  have hs2 : OrderBookDB.new.setup getBookBase fuel ledger = some (db2, Outcome.returned) := by
    unfold OrderBookDB.setup
    rw [if_neg hseq2]
    exact h2
  obtain ⟨kept1, hh1, _, _, hm1, hl1, ho1, hn1, hk1⟩ :=
    setup_spec getBookBase fuel db.invalidate ledger db1 Outcome.returned hseq1 hs1
  obtain ⟨kept2, hh2, _, _, hm2, _, _, _, hk2⟩ :=
    setup_spec getBookBase fuel OrderBookDB.new ledger db2 Outcome.returned hseq2 hs2
  have hkk : kept1 = kept2 := (hk1 rfl).trans (hk2 rfl).symm
  have hspec : kept1 = specBooks getBookBase ledger n := by
    rw [hk1 rfl]
    unfold specBooks chainRoots
    rw [chainFrom_mono ledger n fuel _ hchain hfuel]
  refine ⟨db1, db2, hs1, hs2, ?_, hm1, hm1.trans hm2.symm, ?_, ?_, ?_, hl1, ho1, hn1⟩
  · unfold OrderBookDB.setupVisited
    rw [if_neg hseq1]
    exact setupLoopVisited_returns getBookBase ledger n fuel _ _ _ hchain hread hfuel
  · rw [hh1.1, hh2.1, hkk]
  · rw [hh1.2, hh2.2, hkk]
  · rw [← hspec]
    exact hh1

/-- C5 (amended), on a concrete input: `setup` with `ledgerEx` after
`invalidate` of an index built from ledger 4 returns, visits the indices 1, 2
and 3, and leaves what `setup` on a new index leaves. -/
theorem setup_after_invalidate_witness :
    (∃ db1 db2,
      dbOld.invalidate.setup gbbEx 3 ledgerEx = some (db1, Outcome.returned) ∧
      OrderBookDB.new.setup gbbEx 3 ledgerEx = some (db2, Outcome.returned) ∧
      dbOld.invalidate.setupVisited gbbEx 3 ledgerEx =
        some (chainFrom ledgerEx 3 ledgerEx.getFirstLedgerIndex) ∧
      db1.mSeq = ledgerEx.getLedgerSeq ∧
      db1.mSeq = db2.mSeq ∧
      db1.mXRPOrders = db2.mXRPOrders ∧
      db1.mIssuerMap = db2.mIssuerMap ∧
      HoldsExactly db1 (specBooks gbbEx ledgerEx 3) ∧
      db1.mListeners = dbOld.invalidate.mListeners ∧ db1.objs = dbOld.invalidate.objs ∧
      db1.nextObj = dbOld.invalidate.nextObj) ∧
    chainFrom ledgerEx 3 ledgerEx.getFirstLedgerIndex = [1, 2, 3] ∧
    dbOld.invalidate.setup gbbEx 3 ledgerEx = some (dbEx, Outcome.returned) :=
  ⟨setup_after_invalidate gbbEx dbOld ledgerEx 3 3 (by decide) (by decide) (by decide)
      (by decide), by decide, rfl⟩

/-- C13 (as stated, refuted): `setup` never skips a qualifying root that is
missing its identity fields, whatever a read of a missing field does. When the
read raises (`ledgerCut`), `setup` ends by raising at the entry, never returns,
and the USD/rA to native root after it is not indexed, where the ledger with the
entry replaced by a non-root entry gives that Book. When the read gives the zero
value (`ledgerDefaulting`), `setup` makes a Book of zero fields from the entry,
where the ledger with the entry replaced by a non-root entry gives an empty
native list. -/
theorem setup_skips_malformed_counterexample :
    missingIdentityField 2 (brokenRootEntry 2) = true ∧
    OrderBookDB.new.setup gbbEx 3 ledgerCut = some (dbCut, Outcome.threw) ∧
    OrderBookDB.new.setup gbbEx 3 ledgerCutSkipped = some (dbEx, Outcome.returned) ∧
    dbEx.getBooks 9 = [bookUSD] ∧
    dbCut.getBooks 9 = [] ∧
    (¬ ∃ fuel db2,
      OrderBookDB.new.setup gbbEx fuel ledgerCut = some (db2, Outcome.returned)) ∧
    missingIdentityField 1 (defaultingRootEntry 1) = true ∧
    OrderBookDB.new.setup gbbEx 2 ledgerDefaulting = some (dbDefaulting, Outcome.returned) ∧
    OrderBookDB.new.setup gbbEx 2 ledgerDefaultingSkipped =
      some (dbDefaultingSkipped, Outcome.returned) ∧
    dbDefaulting.mXRPOrders = [⟨1, 0, 0, 0, 0⟩] ∧
    dbDefaultingSkipped.mXRPOrders = [] := by
  refine ⟨by decide, rfl, rfl, by decide, by decide, ?_, by decide, rfl, rfl, rfl, rfl⟩
  rintro ⟨fuel, db2, h⟩
  rcases fuel with _ | _ | fuel
  · have h0 : OrderBookDB.new.setup gbbEx 0 ledgerCut = none := rfl
    rw [h0] at h
    cases h
  · have h0 : OrderBookDB.new.setup gbbEx 1 ledgerCut = none := rfl
    rw [h0] at h
    cases h
  · have hinv : LoopInv gbbEx [] [] []
        { OrderBookDB.new with mSeq := ledgerCut.getLedgerSeq, mXRPOrders := [],
                               mIssuerMap := fun _ => none } :=
      ⟨⟨rfl, bucketsOf_nil.symm⟩, by simp, by simp, by simp, by simp⟩
    obtain ⟨db3, h3, _⟩ := setupLoop_throws gbbEx ledgerCut (brokenRootEntry 2) 1 (fuel + 2)
      ledgerCut.getFirstLedgerIndex [] _ [] [] hinv (by decide) (by decide) (by decide) rfl
      (by decide) (by omega)
    have h4 : OrderBookDB.new.setup gbbEx (fuel + 2) ledgerCut = some (db3, Outcome.threw) := by
      unfold OrderBookDB.setup
      rw [if_neg (by decide)]
      exact h3
    rw [h4] at h
    cases h

/-- C13 (amended): for every snapshot in which the read of one of the four
identity fields fails at a visited qualifying directory-root entry, the entries
before it on the chain being readable, `setup` does not skip the entry: it ends
there by raising, with `mSeq` equal to the ledger's sequence and the index
holding exactly the first Book per base of the qualifying entries before that
entry; the indices visited are those up to and with that entry, so the roots
after it are not indexed. -/
theorem setup_stops_at_failing_identity_read
    (getBookBase : uint160 → uint160 → uint160 → uint160 → uint256)
    (db : OrderBookDB) (ledger : Ledger) (k fuel : Nat) (e : SLE)
    (hseq : ledger.getLedgerSeq ≠ db.mSeq)
    (hbefore : (chainFrom ledger k ledger.getFirstLedgerIndex).length = k)
    (hread : readableFrom ledger k ledger.getFirstLedgerIndex = true)
    (hcur : (ledger.getNextLedgerIndex^[k]) ledger.getFirstLedgerIndex ≠ 0)
    (hentry : ledger.getSLEi ((ledger.getNextLedgerIndex^[k]) ledger.getFirstLedgerIndex) = some e)
    (hfails :
      identityReadFails ((ledger.getNextLedgerIndex^[k]) ledger.getFirstLedgerIndex) e = true)
    (hfuel : k < fuel) :
    ∃ db2, db.setup getBookBase fuel ledger = some (db2, Outcome.threw) ∧
      db2.mSeq = ledger.getLedgerSeq ∧
      HoldsExactly db2 (specBooks getBookBase ledger k) ∧
      db.setupVisited getBookBase fuel ledger =
        some (chainFrom ledger k ledger.getFirstLedgerIndex ++
          [(ledger.getNextLedgerIndex^[k]) ledger.getFirstLedgerIndex]) := by
  have hinv : LoopInv getBookBase [] [] []
      { db with mSeq := ledger.getLedgerSeq, mXRPOrders := [], mIssuerMap := fun _ => none } :=
    ⟨⟨rfl, bucketsOf_nil.symm⟩, by simp, by simp, by simp, by simp⟩
  obtain ⟨db2, h1, h2, h3, h4⟩ := setupLoop_throws getBookBase ledger e k fuel
    ledger.getFirstLedgerIndex [] _ [] [] hinv hbefore hread hcur hentry
    (readFails_of_identityReadFails _ e hfails) hfuel
  refine ⟨db2, ?_, h3.1, ?_, ?_⟩
  · unfold OrderBookDB.setup
    rw [if_neg hseq]
    exact h1
  · simpa [specBooks, firstPerBase] using h2
  · unfold OrderBookDB.setupVisited
    rw [if_neg hseq]
    exact h4

/-- C13 (amended), on a concrete input: `setup` on `ledgerCut` stops at its
second entry, with the native-input Book of the first entry in the index. -/
theorem setup_stops_at_failing_identity_read_witness :
    (∃ db2, OrderBookDB.new.setup gbbEx 3 ledgerCut = some (db2, Outcome.threw) ∧
      db2.mSeq = ledgerCut.getLedgerSeq ∧
      HoldsExactly db2 (specBooks gbbEx ledgerCut 1) ∧
      OrderBookDB.new.setupVisited gbbEx 3 ledgerCut =
        some (chainFrom ledgerCut 1 ledgerCut.getFirstLedgerIndex ++
          [(ledgerCut.getNextLedgerIndex^[1]) ledgerCut.getFirstLedgerIndex])) ∧
    specBooks gbbEx ledgerCut 1 = [bookXRP] ∧
    OrderBookDB.new.setupVisited gbbEx 3 ledgerCut = some [1, 2] :=
  ⟨setup_stops_at_failing_identity_read gbbEx OrderBookDB.new ledgerCut 1 3 (brokenRootEntry 2)
    (by decide) (by decide) (by decide) (by decide) rfl (by decide) (by decide),
    by decide, by decide⟩

end Ripple
